import Mathlib

/-!
# generic-router: route resolution and execution pipeline

A shallow embedding of `router.go` and `router_execution.go`.

* Go strings are modelled as lists of Unicode characters (`GoString`), that is,
  as valid UTF-8 text.
* A run that does not return is an `Abort`: either the Go run-time panic
  "index out of range", or `unmodelled`, which marks a call into the standard
  library (`path.Match`, `regexp.Compile`) with an argument outside the part of
  that library described here.  No statement below is made about `unmodelled` runs.
* Handlers and middlewares are caller code.  They are values of abstract types
  `H` and `Mw`; their behaviour is given by a record `HandlerOps`.  A Go result
  pair `(value, err)` is an `Except`: `.error err` when `err != nil`, `.ok value`
  otherwise; a handler that caller code returns without error is not nil.  Every
  call made to caller code is recorded, in order, in a call log.
-/

namespace GenericRouter

/-- Go `string`, as the list of its characters. -/
abbrev GoString := List Char

/-- Go `map[string]string`, as an association list with distinct keys. -/
abbrev GoMap := List (GoString × GoString)

/-- Why a run ends without a return value. -/
inductive Abort where
  /-- Go run-time panic: index out of range. -/
  | indexOutOfRange
  /-- A standard-library call outside the part of the library described here. -/
  | unmodelled
  deriving DecidableEq, Repr

/-! ## Standard library: `strings` -/

/-- Loop of `strings.FieldsFunc`: `cur` holds, reversed, the field being read
(empty when no field is open). -/
def fieldsLoop (f : Char → Bool) : GoString → GoString → List GoString
  | [], [] => []
  | [], c :: cur => [(c :: cur).reverse]
  | r :: rest, [] => if f r then fieldsLoop f rest [] else fieldsLoop f rest [r]
  | r :: rest, c :: cur =>
    if f r then (c :: cur).reverse :: fieldsLoop f rest []
    else fieldsLoop f rest (r :: c :: cur)

/-- Go `strings.FieldsFunc(s, f)`: the maximal runs of characters not satisfying `f`. -/
def FieldsFunc (s : GoString) (f : Char → Bool) : List GoString :=
  fieldsLoop f s []

/-- The separator test `func(r rune) bool { return r == '/' }`. -/
def isSlash (r : Char) : Bool := r == '/'

/-- Go `strings.TrimPrefix(s, pre)`. -/
def TrimPrefix (s pre : GoString) : GoString :=
  if pre.isPrefixOf s then s.drop pre.length else s

/-- Go `strings.TrimSuffix(s, suf)`. -/
def TrimSuffix (s suf : GoString) : GoString :=
  if suf.isSuffixOf s then s.take (s.length - suf.length) else s

/-- Go `map` assignment `m[k] = v`. -/
def GoMap.set : GoMap → GoString → GoString → GoMap
  | [], k, v => [(k, v)]
  | (k0, v0) :: m, k, v => if k0 = k then (k, v) :: m else (k0, v0) :: GoMap.set m k v

/-- Go `map` lookup `m[k]` with the presence flag. -/
def GoMap.get : GoMap → GoString → Option GoString
  | [], _ => none
  | (k0, v0) :: m, k => if k0 = k then some v0 else GoMap.get m k

/-! ## The package regular expression `pathParamRegex` = `/{[^/]*?}` -/

/-- After an opening "/{": the shortest run of non-slash characters that is
followed by a closing brace (the lazy `[^/]*?` followed by the brace). -/
def paramNameAt : GoString → Option GoString
  | [] => none
  | c :: cs =>
    if c = '\x7d' then some []
    else if c = '/' then none
    else (paramNameAt cs).map (fun name => c :: name)

/-- The match of `pathParamRegex` that starts at the first character of the
text, given by the name between the braces. -/
def pathParamAt : GoString → Option GoString
  | '/' :: '\x7b' :: cs => paramNameAt cs
  | _ => none

/-- Go `pathParamRegex.MatchString(s)`: some position of `s` starts a match. -/
def pathParamRegex.MatchString : GoString → Bool
  | [] => false
  | c :: cs => (pathParamAt (c :: cs)).isSome || pathParamRegex.MatchString cs

/-- Loop of `ReplaceAllFunc`: left to right, each leftmost match is replaced and
the search resumes after it; `skip` counts the characters of the current match
that are still to be passed over. -/
def pathParamRegex.replaceLoop (repl : GoString → GoString) : Nat → GoString → GoString
  | _, [] => []
  | skip + 1, _ :: cs => pathParamRegex.replaceLoop repl skip cs
  | 0, c :: cs =>
    match pathParamAt (c :: cs) with
    | some name =>
      repl ('/' :: '\x7b' :: (name ++ ['\x7d'])) ++ pathParamRegex.replaceLoop repl (name.length + 2) cs
    | none => c :: pathParamRegex.replaceLoop repl 0 cs

/-- Go `pathParamRegex.ReplaceAllFunc(src, repl)`; `repl` receives the matched text. -/
def pathParamRegex.ReplaceAllFunc (src : GoString) (repl : GoString → GoString) : GoString :=
  pathParamRegex.replaceLoop repl 0 src

/-- Go `pathParamRegex.ReplaceAllString(src, repl)` for a template `repl`
without `$`, which is inserted as it is. -/
def pathParamRegex.ReplaceAllString (src repl : GoString) : GoString :=
  pathParamRegex.ReplaceAllFunc src (fun _ => repl)

/-! ## Standard library: `path.Match`

Described for patterns made of literal characters and `*`.  A pattern holding
`?`, `[` or a backslash is outside this description. -/

/-- The error value `path.ErrBadPattern`. -/
inductive PatternError where
  | ErrBadPattern
  deriving DecidableEq, Repr

/-- Go `scanChunk`: the leading stars are dropped (`star` tells whether there
was one), the chunk runs up to the next star. -/
def scanChunk (pattern : GoString) : Bool × GoString × GoString :=
  let p := pattern.dropWhile (fun c => c == '*')
  (pattern.head? == some '*', p.takeWhile (fun c => c != '*'), p.dropWhile (fun c => c != '*'))

/-- Go `matchChunk` for a chunk of literal characters: the chunk must start
`s`; the rest of `s` is returned. -/
def matchChunk (chunk s : GoString) : Option GoString :=
  if chunk.isPrefixOf s then some (s.drop chunk.length) else none

/-- The inner loop of `path.Match` after a star: skip `i+1` characters of the
name, never a slash, until the chunk matches; for the last chunk the match has
to reach the end of the name. -/
def starSkip (chunk : GoString) (lastChunk : Bool) : GoString → Option GoString
  | [] => none
  | c :: rest =>
    if c = '/' then none
    else
      match matchChunk chunk rest with
      | some t => if lastChunk && !t.isEmpty then starSkip chunk lastChunk rest else some t
      | none => starSkip chunk lastChunk rest

/-- The `Pattern:` loop of `path.Match`.  Every round removes at least one
character of the pattern, so a fuel of the pattern length plus one is enough. -/
def matchLoop : Nat → GoString → GoString → Except Abort Bool
  | 0, _, _ => .error .unmodelled
  | fuel + 1, pattern, name =>
    if pattern.isEmpty then .ok name.isEmpty
    else
      let (star, chunk, rest) := scanChunk pattern
      if star && chunk.isEmpty then .ok (!name.contains '/')
      else
        let afterStar : Except Abort Bool :=
          if star then
            match starSkip chunk rest.isEmpty name with
            | some t => matchLoop fuel rest t
            | none => .ok false
          else .ok false
        match matchChunk chunk name with
        | some t => if t.isEmpty || !rest.isEmpty then matchLoop fuel rest t else afterStar
        | none => afterStar

/-- Go `path.Match(pattern, name)`, returning `(matched, err)`. -/
def path.Match (pattern name : GoString) : Except Abort (Bool × Option PatternError) :=
  if pattern.any (fun c => c == '?' || c == '[' || c == '\\') then .error .unmodelled
  else (matchLoop (pattern.length + 1) pattern name).map (fun matched => (matched, none))

/-! ## Standard library: `regexp`

Described for expressions of the shape produced from a parameterised path whose
literal text holds no regular-expression operator: a sequence of literal
characters, escaped slashes and named groups `(?P<name>.*?)`, closed by `$`. -/

/-- One item of such an expression. -/
inductive RegexAtom where
  /-- A literal character. -/
  | lit (c : Char)
  /-- A named capture group around a lazy `.*?`. -/
  | group (name : GoString)
  deriving DecidableEq, Repr

/-- A compiled expression: its items; the closing `$` is implied. -/
structure Regexp where
  atoms : List RegexAtom
  deriving DecidableEq, Repr

/-- Result of `regexp.Compile`. -/
inductive CompileResult where
  | compiled (re : Regexp)
  /-- A syntax error, with the text of `err.Error()`. -/
  | syntaxError (text : GoString)
  /-- The expression is outside the described part of the library. -/
  | unmodelled
  deriving DecidableEq, Repr

/-- The characters with a meaning of their own in an expression. -/
def isRegexMeta (c : Char) : Bool :=
  c == '\\' || c == '.' || c == '+' || c == '*' || c == '?' || c == '(' || c == ')' ||
  c == '|' || c == '[' || c == ']' || c == '\x7b' || c == '\x7d' || c == '^' || c == '$'

/-- Go `isalnum` of `regexp/syntax`. -/
def isalnum (c : Char) : Bool :=
  ('0' ≤ c && c ≤ '9') || ('A' ≤ c && c ≤ 'Z') || ('a' ≤ c && c ≤ 'z')

/-- Go `isValidCaptureName` of `regexp/syntax`. -/
def isValidCaptureName (name : GoString) : Bool :=
  !name.isEmpty && name.all (fun c => c == '_' || isalnum c)

/-- Text of the `regexp/syntax` error "invalid named capture" for the capture
`(?P<name>` (the expression is quoted between two grave accents). -/
def invalidNamedCapture (name : GoString) : GoString :=
  "error parsing regexp: invalid named capture: ".toList ++
    [Char.ofNat 96] ++ "(?P<".toList ++ name ++ ['>', Char.ofNat 96]

/-- The parser of `regexp.Compile`, left to right: the closing `$`, an escaped
slash, a named group `(?P<name>.*?)` (the name runs up to the first `>` and is
checked before the body is read), or a literal character.  Every round removes
at least one character, so a fuel of the length plus one is enough. -/
def regexpParse : Nat → GoString → Except CompileResult (List RegexAtom)
  | 0, _ => .error .unmodelled
  | fuel + 1, expr =>
    if expr = ['$'] then .ok []
    else if ['\\', '/'].isPrefixOf expr then
      (regexpParse fuel (expr.drop 2)).map (fun atoms => RegexAtom.lit '/' :: atoms)
    else if ['(', '?', 'P', '<'].isPrefixOf expr then
      let name := (expr.drop 4).takeWhile (fun c => c != '>')
      let body := (expr.drop 4).dropWhile (fun c => c != '>')
      if body.isEmpty then .error .unmodelled
      else if !isValidCaptureName name then .error (.syntaxError (invalidNamedCapture name))
      else if ['>', '.', '*', '?', ')'].isPrefixOf body then
        (regexpParse fuel (body.drop 5)).map (fun atoms => RegexAtom.group name :: atoms)
      else .error .unmodelled
    else
      match expr with
      | [] => .error .unmodelled
      | c :: rest =>
        if isRegexMeta c then .error .unmodelled
        else (regexpParse fuel rest).map (fun atoms => RegexAtom.lit c :: atoms)

/-- Go `regexp.Compile(expr)`. -/
def regexp.Compile (expr : GoString) : CompileResult :=
  match regexpParse (expr.length + 1) expr with
  | .ok atoms => .compiled ⟨atoms⟩
  | .error r => r

/-- The lazy `.*?` of a group: captures as few characters as possible, never a
line feed, such that the rest of the expression (`k`) matches what follows. -/
def lazyGroup (k : GoString → Option (List GoString)) : GoString → GoString → Option (List GoString)
  | acc, [] => (k []).map (fun caps => acc.reverse :: caps)
  | acc, c :: s =>
    match k (c :: s) with
    | some caps => some (acc.reverse :: caps)
    | none => if c = '\n' then none else lazyGroup k (c :: acc) s

/-- Match of the expression at the start of the text, up to its end (`$`): the
captured texts, in the order of the groups. -/
def matchHere : List RegexAtom → GoString → Option (List GoString)
  | [], s => if s.isEmpty then some [] else none
  | .lit c :: atoms, s =>
    match s with
    | d :: s1 => if c = d then matchHere atoms s1 else none
    | [] => none
  | .group _ :: atoms, s => lazyGroup (matchHere atoms) [] s

/-- Go `reg.FindStringSubmatch(s)` without the entry 0: the groups of the
leftmost match, `none` when nothing matches. -/
def Regexp.FindStringSubmatch (re : Regexp) : GoString → Option (List GoString)
  | [] => matchHere re.atoms []
  | c :: s =>
    match matchHere re.atoms (c :: s) with
    | some caps => some caps
    | none => Regexp.FindStringSubmatch re s

/-- Go `reg.SubexpNames()` without the entry 0: the names of the groups. -/
def Regexp.SubexpNames (re : Regexp) : List GoString :=
  re.atoms.filterMap (fun a => match a with | .group name => some name | .lit _ => none)

/-! ## Data model (`router.go`) -/

/-- Go `error` values: the router's own `RouterExecutionError`, or any other
error value `e` of caller code. -/
inductive GoError (E : Type) where
  | RouterExecutionError (Msg : GoString) (Details : Option GoString)
  | other (e : E)
  deriving DecidableEq, Repr

/-- Go `type Route struct`. -/
inductive Route (H Mw : Type) where
  | mk (Path : GoString) (Middlewares : List Mw) (SubRoutes : List (Route H Mw))
      (Get Post Put Delete Patch Head : Option H)

namespace Route
variable {H Mw : Type}

/-- Field `Path`. -/
def Path : Route H Mw → GoString
  | mk p _ _ _ _ _ _ _ _ => p

/-- Field `Middlewares`. -/
def Middlewares : Route H Mw → List Mw
  | mk _ m _ _ _ _ _ _ _ => m

/-- Field `SubRoutes`. -/
def SubRoutes : Route H Mw → List (Route H Mw)
  | mk _ _ s _ _ _ _ _ _ => s

/-- Field `Get`, tagged `httpVerb:"GET"`. -/
def Get : Route H Mw → Option H
  | mk _ _ _ h _ _ _ _ _ => h

/-- Field `Post`, tagged `httpVerb:"POST"`. -/
def Post : Route H Mw → Option H
  | mk _ _ _ _ h _ _ _ _ => h

/-- Field `Put`, tagged `httpVerb:"PUT"`. -/
def Put : Route H Mw → Option H
  | mk _ _ _ _ _ h _ _ _ => h

/-- Field `Delete`, tagged `httpVerb:"DELETE"`. -/
def Delete : Route H Mw → Option H
  | mk _ _ _ _ _ _ h _ _ => h

/-- Field `Patch`, tagged `httpVerb:"PATCH"`. -/
def Patch : Route H Mw → Option H
  | mk _ _ _ _ _ _ _ h _ => h

/-- Field `Head`, tagged `httpVerb:"HEAD"`. -/
def Head : Route H Mw → Option H
  | mk _ _ _ _ _ _ _ _ h => h

/-- The composite literal `Route{Path: path}`: every other field is zero. -/
def new (path : GoString) : Route H Mw :=
  mk path [] [] none none none none none none

/-- Assignment to the field `SubRoutes`. -/
def withSubRoutes : Route H Mw → List (Route H Mw) → Route H Mw
  | mk p m _ g po pu d pa h, s => mk p m s g po pu d pa h

/-- Assignment to the field `Middlewares`. -/
def withMiddlewares : Route H Mw → List Mw → Route H Mw
  | mk p _ s g po pu d pa h, m => mk p m s g po pu d pa h

end Route

/-- The tag values of the six handler fields. -/
def verbGET : GoString := ['G', 'E', 'T']
/-- Tag of `Post`. -/
def verbPOST : GoString := ['P', 'O', 'S', 'T']
/-- Tag of `Put`. -/
def verbPUT : GoString := ['P', 'U', 'T']
/-- Tag of `Delete`. -/
def verbDELETE : GoString := ['D', 'E', 'L', 'E', 'T', 'E']
/-- Tag of `Patch`. -/
def verbPATCH : GoString := ['P', 'A', 'T', 'C', 'H']
/-- Tag of `Head`. -/
def verbHEAD : GoString := ['H', 'E', 'A', 'D']

section Router
variable {H Mw : Type}

/-- Go `getVerb`: the handler field whose `httpVerb` tag equals `verb`, the
fields taken in the order of their declaration; `none` is the nil handler. -/
def getVerb (route : Route H Mw) (verb : GoString) : Option H :=
  if verb = verbGET then route.Get
  else if verb = verbPOST then route.Post
  else if verb = verbPUT then route.Put
  else if verb = verbDELETE then route.Delete
  else if verb = verbPATCH then route.Patch
  else if verb = verbHEAD then route.Head
  else none

/-- Go `SetRouteVerb`: stores `handler` in the field whose tag equals `verb`;
no field changes for any other `verb`. -/
def SetRouteVerb (route : Route H Mw) (verb : GoString) (handler : H) : Route H Mw :=
  match route with
  | .mk p m s g po pu d pa h =>
    if verb = verbGET then .mk p m s (some handler) po pu d pa h
    else if verb = verbPOST then .mk p m s g (some handler) pu d pa h
    else if verb = verbPUT then .mk p m s g po (some handler) d pa h
    else if verb = verbDELETE then .mk p m s g po pu (some handler) pa h
    else if verb = verbPATCH then .mk p m s g po pu d (some handler) h
    else if verb = verbHEAD then .mk p m s g po pu d pa (some handler)
    else .mk p m s g po pu d pa h

/-- Go `(r *Route) AddRoute(path, f)`: the receiver after the call.  The
callback `f` works on the new node through a pointer; it is the function from
the node it receives to the node it leaves. -/
def Route.AddRoute (r : Route H Mw) (path : GoString) (f : Route H Mw → Route H Mw) : Route H Mw :=
  let newRoute := f (Route.new path)
  r.withSubRoutes (r.SubRoutes ++ [newRoute])

/-- Go `(r *Route) Use(middleware)`: the receiver after the call. -/
def Route.Use (r : Route H Mw) (middleware : Mw) : Route H Mw :=
  r.withMiddlewares (r.Middlewares ++ [middleware])

/-- Go `(r *Route) addVerb(path, verb, handler)`: the receiver after the call.
For a path other than "/" the loop `for _, subRoute := range r.SubRoutes`
leaves in `existingSubRoute` the address of the loop variable `subRoute`, which
holds a copy of the slice element: `SetRouteVerb` then writes to that copy and
`r.SubRoutes` keeps its elements. -/
def Route.addVerb (r : Route H Mw) (path verb : GoString) (handler : H) : Route H Mw :=
  if path = ['/'] then SetRouteVerb r verb handler
  else
    match r.SubRoutes.find? (fun subRoute => subRoute.Path == path) with
    | some subRoute =>
      let _subRoute := SetRouteVerb subRoute verb handler
      r
    | none =>
      let newRoute := SetRouteVerb (Route.new path) verb handler
      r.withSubRoutes (r.SubRoutes ++ [newRoute])

/-- Go `AddGet`. -/
def Route.AddGet (r : Route H Mw) (path : GoString) (handler : H) : Route H Mw :=
  r.addVerb path verbGET handler
/-- Go `AddPost`. -/
def Route.AddPost (r : Route H Mw) (path : GoString) (handler : H) : Route H Mw :=
  r.addVerb path verbPOST handler
/-- Go `AddDelete`. -/
def Route.AddDelete (r : Route H Mw) (path : GoString) (handler : H) : Route H Mw :=
  r.addVerb path verbDELETE handler
/-- Go `AddPut`. -/
def Route.AddPut (r : Route H Mw) (path : GoString) (handler : H) : Route H Mw :=
  r.addVerb path verbPUT handler
/-- Go `AddPatch`. -/
def Route.AddPatch (r : Route H Mw) (path : GoString) (handler : H) : Route H Mw :=
  r.addVerb path verbPATCH handler
/-- Go `AddHead`. -/
def Route.AddHead (r : Route H Mw) (path : GoString) (handler : H) : Route H Mw :=
  r.addVerb path verbHEAD handler

/-- Go `MakeRoot(f)`. -/
def MakeRoot (f : Route H Mw → Route H Mw) : Route H Mw :=
  f (Route.new [])

/-- Go `matchPathElement(inputPath, element)`.  `split[0]` panics when
`inputPath` has no field.  When `path.Match` reports an error, control falls
through to the final comparison, with `nodePath` already rewritten. -/
def matchPathElement (inputPath element : GoString) : Except Abort Bool :=
  match FieldsFunc inputPath isSlash with
  | [] => .error .indexOutOfRange
  | split0 :: _ =>
    let nodePath := '/' :: split0
    if pathParamRegex.MatchString nodePath then
      let nodePath := pathParamRegex.ReplaceAllString nodePath ['/', '*']
      match path.Match nodePath element with
      | .error a => .error a
      | .ok (matched, err) => if err.isSome then .ok (nodePath == element) else .ok matched
    else .ok (nodePath == element)

/-- What a call of `FindRoute` leaves: the handler (`none` is nil), the
middleware slice, and the string behind the pointer `parameterisedPath`
(`none` for a nil pointer). -/
abbrev FindResult (H Mw : Type) := Option H × List Mw × Option GoString

mutual
/-- Go `FindRoute(path, verb, root, parameterisedPath, middlewares)`. -/
def FindRoute (path verb : GoString) :
    Route H Mw → Option GoString → List Mw → Except Abort (FindResult H Mw)
  | .mk rPath rMiddlewares rSubRoutes g po pu d pa h, parameterisedPath, middlewares =>
    let root : Route H Mw := .mk rPath rMiddlewares rSubRoutes g po pu d pa h
    let split := FieldsFunc path isSlash
    let guard : Except Abort Bool :=
      match split with
      | [] => .ok true
      | split0 :: _ => if rPath.isEmpty then .ok true else matchPathElement rPath ('/' :: split0)
    match guard with
    | .error a => .error a
    | .ok false => .ok (none, [], parameterisedPath)
    | .ok true =>
      if !rPath.isEmpty && split.length == 1 then
        .ok (getVerb root verb, middlewares ++ rMiddlewares,
          parameterisedPath.map (fun p => p ++ rPath))
      else
        match split with
        | [] => .error .indexOutOfRange
        | split0 :: _ =>
          let subpath := if rPath.isEmpty then path else TrimPrefix path ('/' :: split0)
          findInSubRoutes subpath verb rPath rMiddlewares rSubRoutes parameterisedPath middlewares
/-- The loop `for _, subroute := range root.SubRoutes` of `FindRoute`.  The
handler and the slice of each round are variables of that round (`:=`); the
string behind `parameterisedPath` is shared by all rounds. -/
def findInSubRoutes (subpath verb rootPath : GoString) (rootMiddlewares : List Mw) :
    List (Route H Mw) → Option GoString → List Mw → Except Abort (FindResult H Mw)
  | [], parameterisedPath, _ => .ok (none, [], parameterisedPath)
  | subroute :: rest, parameterisedPath, middlewares =>
    match FindRoute subpath verb subroute parameterisedPath middlewares with
    | .error a => .error a
    | .ok (some handler, middlewares1, parameterisedPath1) =>
      .ok (some handler, middlewares1 ++ rootMiddlewares,
        parameterisedPath1.map (fun p => rootPath ++ p))
    | .ok (none, _, parameterisedPath1) =>
      findInSubRoutes subpath verb rootPath rootMiddlewares rest parameterisedPath1 middlewares
end

mutual
/-- The nodes through which a successful `FindRoute` returns, from `root` down
to the node whose handler is returned; `none` when `FindRoute` returns a nil
handler.  It follows the control flow of `FindRoute` and leaves out the slice
and the string. -/
def matchedChain (path verb : GoString) : Route H Mw → Except Abort (Option (List (Route H Mw)))
  | .mk rPath rMiddlewares rSubRoutes g po pu d pa h =>
    let root : Route H Mw := .mk rPath rMiddlewares rSubRoutes g po pu d pa h
    let split := FieldsFunc path isSlash
    let guard : Except Abort Bool :=
      match split with
      | [] => .ok true
      | split0 :: _ => if rPath.isEmpty then .ok true else matchPathElement rPath ('/' :: split0)
    match guard with
    | .error a => .error a
    | .ok false => .ok none
    | .ok true =>
      if !rPath.isEmpty && split.length == 1 then
        .ok ((getVerb root verb).map (fun _ => [root]))
      else
        match split with
        | [] => .error .indexOutOfRange
        | split0 :: _ =>
          let subpath := if rPath.isEmpty then path else TrimPrefix path ('/' :: split0)
          match matchedChainIn subpath verb rSubRoutes with
          | .error a => .error a
          | .ok chain => .ok (chain.map (fun c => root :: c))
/-- The chain found by the loop over the sub-routes: that of the first
sub-route with a non-nil handler. -/
def matchedChainIn (subpath verb : GoString) :
    List (Route H Mw) → Except Abort (Option (List (Route H Mw)))
  | [] => .ok none
  | subroute :: rest =>
    match matchedChain subpath verb subroute with
    | .error a => .error a
    | .ok (some chain) => .ok (some chain)
    | .ok none => matchedChainIn subpath verb rest
end

/-- A list of nodes that starts at `root` and in which every node is a
sub-route of the node before it. -/
def IsChainFrom : Route H Mw → List (Route H Mw) → Prop
  | _, [] => False
  | root, [n] => n = root
  | root, n :: m :: rest => n = root ∧ m ∈ root.SubRoutes ∧ IsChainFrom m (m :: rest)

/-- The middlewares of a chain, leaf first and root last. -/
def chainMiddlewares (chain : List (Route H Mw)) : List Mw :=
  (chain.reverse.map Route.Middlewares).flatten

/-- The `Path` strings of a chain, joined root first. -/
def chainPath (chain : List (Route H Mw)) : GoString :=
  (chain.map Route.Path).flatten

end Router

/-- The loop over `reg.SubexpNames()` that fills `subMatchMap`. -/
def fillSubMatchMap : List GoString → List GoString → GoMap → GoMap
  | name :: names, m :: submatches, subMatchMap =>
    fillSubMatchMap names submatches (subMatchMap.set name m)
  | _, _, subMatchMap => subMatchMap

/-- The callback given to `ReplaceAllFunc` in `ExtractPathParameters`. -/
def captureGroupFor (bytes : GoString) : GoString :=
  let name := bytes
  let name := TrimPrefix name ['/', '\x7b']
  let name := TrimSuffix name ['\x7d']
  ['\\', '/', '(', '?', 'P', '<'] ++ name ++ ['>', '.', '*', '?', ')']

/-- The message given to `errors.Wrap`, followed by the separator that `Wrap`
puts before the text of the cause. -/
def wrapMessage : GoString := "error building path params regex: ".toList

/-- Go `ExtractPathParameters(path, parameterisedPath)`: the map, or the text of
the returned error. -/
def ExtractPathParameters (path parameterisedPath : GoString) :
    Except Abort (Except GoString GoMap) :=
  let dynamicRegex := pathParamRegex.ReplaceAllFunc parameterisedPath captureGroupFor
  match regexp.Compile (dynamicRegex ++ ['$']) with
  | .unmodelled => .error .unmodelled
  | .syntaxError text => .ok (.error (wrapMessage ++ text))
  | .compiled reg =>
    match reg.FindStringSubmatch path with
    | none => .ok (.ok [])
    | some submatches => .ok (.ok (fillSubMatchMap reg.SubexpNames submatches []))

/-! ## Execution (`router_execution.go`) -/

/-- Constant `RouterExecutionMiddlewareExecutionError`. -/
def RouterExecutionMiddlewareExecutionError : GoString := "Middleware execution error".toList
/-- Constant `RouterExecutionPathParamsError`. -/
def RouterExecutionPathParamsError : GoString := "Error extracting path params".toList
/-- Constant `RouterExecutionPathNotFound`. -/
def RouterExecutionPathNotFound : GoString := "Not found".toList

/-- Go `NewRouterExecutionError(msg, details)`. -/
def NewRouterExecutionError {E : Type} (msg : GoString) (details : Option GoString) : GoError E :=
  .RouterExecutionError msg details

/-- Go `err.Error()`; `text` gives the text of the errors of caller code. -/
def GoError.Error {E : Type} (text : E → GoString) : GoError E → GoString
  | .RouterExecutionError Msg _ => Msg
  | .other e => text e

/-- Go interface `RequestEngine`; `Out` are the non-nil values handlers
produce, `Resp` the values `FormatOutput` returns. -/
structure RequestEngine (Out E Resp : Type) where
  GetPath : GoString
  GetHttpVerb : GoString
  GetBody : List Nat
  GetHeaders : GoMap
  GetQueryStringParams : GoMap
  FormatOutput : Option Out → Option (GoError E) → Resp

/-- The methods of the Go interface `Handler` and the application of a
`Middleware`, for handlers `H` and middlewares `Mw`. -/
structure HandlerOps (H Mw Out E Resp : Type) where
  SetPathParams : H → GoMap → H
  PreExecution : H → RequestEngine Out E Resp → Except (GoError E) H
  Execution : H → RequestEngine Out E Resp → Except (GoError E) (Option Out)
  PostExecution : H → RequestEngine Out E Resp → Option Out → Except (GoError E) (Option Out)
  Middleware : Mw → H → Except (GoError E) H
  errorText : E → GoString

/-- One call from the router into caller code, with its arguments. -/
inductive Call (H Mw Out E : Type) where
  | SetPathParams (h : H) (pathParams : GoMap)
  | Middleware (m : Mw) (h : H)
  | PreExecution (h : H)
  | Execution (h : H)
  | PostExecution (h : H) (executionOutput : Option Out)
  | FormatOutput (output : Option Out) (e : Option (GoError E))
  deriving DecidableEq, Repr

section Execution
variable {H Mw Out E Resp : Type}

/-- Go `ExecuteHandler(event, handler)`: the returned value and the calls made. -/
def ExecuteHandler (ops : HandlerOps H Mw Out E Resp) (event : RequestEngine Out E Resp)
    (handler : H) : Resp × List (Call H Mw Out E) :=
  match ops.PreExecution handler event with
  | .error err =>
    (event.FormatOutput none (some err), [.PreExecution handler, .FormatOutput none (some err)])
  | .ok handler1 =>
    match ops.Execution handler1 event with
    | .error err =>
      (event.FormatOutput none (some err),
        [.PreExecution handler, .Execution handler1, .FormatOutput none (some err)])
    | .ok output =>
      match ops.PostExecution handler1 event output with
      | .error err =>
        (event.FormatOutput none (some err),
          [.PreExecution handler, .Execution handler1, .PostExecution handler1 output,
            .FormatOutput none (some err)])
      | .ok output1 =>
        (event.FormatOutput output1 none,
          [.PreExecution handler, .Execution handler1, .PostExecution handler1 output,
            .FormatOutput output1 none])

/-- The loop `for _, middleware := range middlewares` of `ExecutePath`: the
final handler or the first error, and the calls made. -/
def applyMiddlewares (ops : HandlerOps H Mw Out E Resp) :
    List Mw → H → Except (GoError E) H × List (Call H Mw Out E)
  | [], h => (.ok h, [])
  | middleware :: rest, h =>
    match ops.Middleware middleware h with
    | .error err => (.error err, [.Middleware middleware h])
    | .ok h1 =>
      let (result, calls) := applyMiddlewares ops rest h1
      (result, .Middleware middleware h :: calls)

/-- Go `ExecutePath(event, root)`: the returned value and the calls made. -/
def ExecutePath (ops : HandlerOps H Mw Out E Resp) (event : RequestEngine Out E Resp)
    (root : Route H Mw) : Except Abort (Resp × List (Call H Mw Out E)) :=
  match FindRoute event.GetPath event.GetHttpVerb root (some []) [] with
  | .error a => .error a
  | .ok (none, _, _) =>
    let e : GoError E := NewRouterExecutionError RouterExecutionPathNotFound none
    .ok (event.FormatOutput none (some e), [.FormatOutput none (some e)])
  | .ok (some handler, middlewares, parameterisedPath) =>
    match ExtractPathParameters event.GetPath (parameterisedPath.getD []) with
    | .error a => .error a
    | .ok (.error tmp) =>
      let e : GoError E := NewRouterExecutionError RouterExecutionPathParamsError (some tmp)
      .ok (event.FormatOutput none (some e), [.FormatOutput none (some e)])
    | .ok (.ok pathParams) =>
      let handler1 := ops.SetPathParams handler pathParams
      match applyMiddlewares ops middlewares handler1 with
      | (.error err, calls) =>
        let tmp := err.Error ops.errorText
        let e : GoError E := NewRouterExecutionError RouterExecutionMiddlewareExecutionError (some tmp)
        .ok (event.FormatOutput none (some e),
          .SetPathParams handler pathParams :: (calls ++ [.FormatOutput none (some e)]))
      | (.ok h, calls) =>
        let (resp, calls1) := ExecuteHandler ops event h
        .ok (resp, .SetPathParams handler pathParams :: (calls ++ calls1))

end Execution

end GenericRouter

namespace GenericRouter

section CallLog
variable {H Mw Out E : Type}

/-- The middleware applied by a call, when the call applies one. -/
def Call.middlewareOf : Call H Mw Out E → Option Mw
  | .Middleware m _ => some m
  | _ => none

/-- Whether a call is one of the three handler phases. -/
def Call.isPhase : Call H Mw Out E → Bool
  | .PreExecution _ => true
  | .Execution _ => true
  | .PostExecution _ _ => true
  | _ => false

/-- Whether a call is a call of `FormatOutput`. -/
def Call.isFormatOutput : Call H Mw Out E → Bool
  | .FormatOutput _ _ => true
  | _ => false

end CallLog

/-! ## Sample caller code and sample trees

Handlers are lists of numbers: a middleware `m` puts `m` in front of the handler
it wraps, so the list reads from the outermost wrapper inwards. -/

/-- Sample response type: the two arguments `FormatOutput` was given. -/
abbrev SampleResp := Option Nat × Option (GoError Nat)

/-- Sample request engine for a path and a verb; `FormatOutput` returns its arguments. -/
def sampleEvent (path verb : GoString) : RequestEngine Nat Nat SampleResp :=
  { GetPath := path, GetHttpVerb := verb, GetBody := [], GetHeaders := [],
    GetQueryStringParams := [], FormatOutput := fun output e => (output, e) }

/-- Sample caller code.  Middleware `0` fails with error `5`; a handler whose
first number is 91, 92 or 93 fails in `PreExecution`, `Execution` or
`PostExecution` with error 1, 2 or 3; `SetPathParams` appends the number of
parameters plus 100. -/
def sampleOps : HandlerOps (List Nat) Nat Nat Nat SampleResp :=
  { SetPathParams := fun h pathParams => h ++ [100 + pathParams.length],
    PreExecution := fun h _ => if h.head? = some 91 then .error (.other 1) else .ok h,
    Execution := fun h _ => if h.head? = some 92 then .error (.other 2) else .ok (some h.sum),
    PostExecution := fun h _ out =>
      if h.head? = some 93 then .error (.other 3) else .ok (out.map (fun n => n + 1)),
    Middleware := fun m h => if m = 0 then .error (.other 5) else .ok (m :: h),
    errorText := fun e => List.replicate e 'e' }

/-- The tree of the example in the comment of `FindRoute`: "/abc", below it
"/{myVar}", below it "/def" with a GET handler. -/
def exampleTree {H Mw : Type} (handler : H) : Route H Mw :=
  MakeRoot (fun root =>
    root.AddRoute "/abc".toList (fun r =>
      r.AddRoute "/{myVar}".toList (fun r =>
        r.AddRoute "/def".toList (fun r => r.AddGet ['/'] handler))))

/-- A root with two sub-routes: "/a" with a POST handler only, then "/{x}" with
a GET handler. -/
def siblingTree {H Mw : Type} (h1 h2 : H) : Route H Mw :=
  MakeRoot (fun root => (root.AddPost "/a".toList h1).AddGet "/{x}".toList h2)

/-- A root using middleware 1, with a sub-route "/abc" using middleware 2 that
has the GET handler `[7]`. -/
def middlewareTree : Route (List Nat) Nat :=
  MakeRoot (fun root =>
    (root.Use 1).AddRoute "/abc".toList (fun r => (r.Use 2).AddGet ['/'] [7]))

/-- A root using middleware 1 with two sub-routes: "/{id}", using middleware 3
and holding a POST handler only; then "/abc", using middleware 2 and holding
the GET handler `[7]`. -/
def abandonedSiblingTree : Route (List Nat) Nat :=
  MakeRoot (fun root =>
    ((root.Use 1).AddRoute "/{id}".toList (fun r => (r.Use 3).AddPost ['/'] [8])).AddRoute
      "/abc".toList (fun r => (r.Use 2).AddGet ['/'] [7]))

/-- A root using middleware 2 with a sub-route "/abc" that uses the middlewares
5, 0 (which fails) and 4, and has the GET handler `[7]`. -/
def failingMiddlewareTree : Route (List Nat) Nat :=
  MakeRoot (fun root =>
    (root.Use 2).AddRoute "/abc".toList (fun r => ((r.Use 5).Use 0).Use 4 |>.AddGet ['/'] [7]))

/-- A root whose own GET handler is set through the path "/". -/
def rootHandlerTree {H Mw : Type} (handler : H) : Route H Mw :=
  MakeRoot (fun root => root.AddGet ['/'] handler)

end GenericRouter

namespace GenericRouter

/-! ## Chains of single-segment routes -/

/-- One node of a chain of single-segment routes: a literal segment or a
dynamic segment with a name. -/
inductive Segment where
  | literal (text : GoString)
  | param (name : GoString)
  deriving DecidableEq, Repr

/-- The `Path` string of the node: "/text", or "/{name}". -/
def Segment.path : Segment → GoString
  | .literal text => '/' :: text
  | .param name => '/' :: '\x7b' :: (name ++ ['\x7d'])

/-- The builder calls that put a chain of nodes below a node, each node the only
sub-route of the one before it, and give the last node the GET handler. -/
def chainBelow {H Mw : Type} (handler : H) : List Segment → Route H Mw → Route H Mw
  | [], r => r.AddGet ['/'] handler
  | s :: rest, r => r.AddRoute s.path (chainBelow handler rest)

/-- The tree made by `MakeRoot` of a chain of nodes. -/
def chainTree {H Mw : Type} (handler : H) (nodes : List Segment) : Route H Mw :=
  MakeRoot (chainBelow handler nodes)

/-- The request path "/c1/.../ck" of the segments c1 .. ck. -/
def requestPath : List GoString → GoString
  | [] => []
  | c :: cs => '/' :: (c ++ requestPath cs)

/-- A character that stands for itself in a regular expression and is no slash. -/
def isLiteralChar (c : Char) : Bool := c != '/' && !isRegexMeta c

/-- A request segment agrees with a node: it equals the text of a literal node
made of characters that stand for themselves; a dynamic node needs a name that
is a valid capture name (letters, digits, underscore). -/
def Segment.Agrees : Segment → GoString → Prop
  | .literal text, c => text = c ∧ ∀ ch ∈ text, isLiteralChar ch = true
  | .param name, _ => isValidCaptureName name = true

/-- The names of the dynamic nodes of a chain, in order. -/
def paramNames : List Segment → List GoString
  | [] => []
  | .literal _ :: nodes => paramNames nodes
  | .param name :: nodes => name :: paramNames nodes

/-- The mapping that sends the name of each dynamic node to the request segment
at the position of the node. -/
def boundParams : List Segment → List GoString → GoMap
  | .param name :: nodes, c :: segs => (name, c) :: boundParams nodes segs
  | .literal _ :: nodes, _ :: segs => boundParams nodes segs
  | _, _ => []

end GenericRouter

namespace GenericRouter

/-- The part of the regular expression that `ExtractPathParameters` builds for a
node: the text itself for a literal node, an escaped slash and a named lazy
group for a dynamic node. -/
def Segment.regexText : Segment → GoString
  | .literal text => '/' :: text
  | .param name => ['\\', '/', '(', '?', 'P', '<'] ++ name ++ ['>', '.', '*', '?', ')']

/-- The items of the compiled expression that come from a node. -/
def Segment.atoms : Segment → List RegexAtom
  | .literal text => RegexAtom.lit '/' :: text.map RegexAtom.lit
  | .param name => [RegexAtom.lit '/', RegexAtom.group name]

/-- A node as the claim describes it: a non-empty literal of characters that
stand for themselves, or a dynamic segment with a valid capture name. -/
def Segment.Valid : Segment → Prop
  | .literal text => text ≠ [] ∧ ∀ ch ∈ text, isLiteralChar ch = true
  | .param name => isValidCaptureName name = true

end GenericRouter


namespace GenericRouter

section Reference
variable {H Mw : Type}

mutual
/-- Whether the `Path` of every node of the tree is empty or has a character
that is no slash. -/
def Route.PathsHaveSegment : Route H Mw → Bool
  | .mk rPath _ rSubRoutes _ _ _ _ _ _ =>
    (rPath.isEmpty || rPath.any (fun ch => ch != '/')) && allPathsHaveSegment rSubRoutes
/-- The same for every tree of a list. -/
def allPathsHaveSegment : List (Route H Mw) → Bool
  | [] => true
  | subroute :: rest => subroute.PathsHaveSegment && allPathsHaveSegment rest
end

mutual
/-- Whether no `Path` of the tree holds `?`, `[` or a backslash, the characters
for which `path.Match` is not described. -/
def Route.PathsInFragment : Route H Mw → Bool
  | .mk rPath _ rSubRoutes _ _ _ _ _ _ =>
    !rPath.any (fun c => c == '?' || c == '[' || c == '\\') && allPathsInFragment rSubRoutes
/-- The same for every tree of a list. -/
def allPathsInFragment : List (Route H Mw) → Bool
  | [] => true
  | subroute :: rest => subroute.PathsInFragment && allPathsInFragment rest
end

mutual
/-- Reference matcher on the list of request segments, following the words of
the claim: a node with an empty `Path` passes the whole list to its children in
order; a node whose first segment matches the first request segment returns its
verb handler when that is the only request segment, and otherwise passes the
remaining segments to its children in order.  The result is the handler (`none`
is nil) and the middleware list. -/
def refMatch (verb : GoString) :
    Route H Mw → List GoString → List Mw → Except Abort (Option H × List Mw)
  | .mk rPath rMiddlewares rSubRoutes g po pu d pa h, segs, mws =>
    let node : Route H Mw := .mk rPath rMiddlewares rSubRoutes g po pu d pa h
    if rPath.isEmpty then
      refMatchSubRoutes verb rMiddlewares rSubRoutes segs mws
    else
      match segs with
      | [] => .ok (none, [])
      | s1 :: rest =>
        match matchPathElement rPath ('/' :: s1) with
        | .error a => .error a
        | .ok false => .ok (none, [])
        | .ok true =>
          if rest.isEmpty then .ok (getVerb node verb, mws ++ rMiddlewares)
          else refMatchSubRoutes verb rMiddlewares rSubRoutes rest mws
/-- The children of a node in order, the first result that is not nil winning;
the middlewares of the node are appended to those found below it. -/
def refMatchSubRoutes (verb : GoString) (nodeMiddlewares : List Mw) :
    List (Route H Mw) → List GoString → List Mw → Except Abort (Option H × List Mw)
  | [], _, _ => .ok (none, [])
  | subroute :: rest, segs, mws =>
    match refMatch verb subroute segs mws with
    | .error a => .error a
    | .ok (some handler, found) => .ok (some handler, found ++ nodeMiddlewares)
    | .ok (none, _) => refMatchSubRoutes verb nodeMiddlewares rest segs mws
end

/-- The handler and the middleware slice that `FindRoute` returns. -/
def FindResult.returned (r : FindResult H Mw) : Option H × List Mw := (r.1, r.2.1)

mutual
/-- The nodes that a call of `FindRoute` leaves behind after an exact match:
those that matched the last remaining segment and had no handler for the verb,
in the order in which the call met them, up to the node whose handler is
returned.  It follows the control flow of `FindRoute`. -/
def abandonedNodes (path verb : GoString) : Route H Mw → Except Abort (List (Route H Mw))
  | .mk rPath rMiddlewares rSubRoutes g po pu d pa h =>
    let root : Route H Mw := .mk rPath rMiddlewares rSubRoutes g po pu d pa h
    let split := FieldsFunc path isSlash
    let guard : Except Abort Bool :=
      match split with
      | [] => .ok true
      | split0 :: _ => if rPath.isEmpty then .ok true else matchPathElement rPath ('/' :: split0)
    match guard with
    | .error a => .error a
    | .ok false => .ok []
    | .ok true =>
      if !rPath.isEmpty && split.length == 1 then
        .ok (if (getVerb root verb).isNone then [root] else [])
      else
        match split with
        | [] => .error .indexOutOfRange
        | split0 :: _ =>
          let subpath := if rPath.isEmpty then path else TrimPrefix path ('/' :: split0)
          abandonedIn subpath verb rSubRoutes
/-- The nodes left behind by the loop over the sub-routes: those of every
sub-route tried, up to and including the first one with a handler. -/
def abandonedIn (subpath verb : GoString) :
    List (Route H Mw) → Except Abort (List (Route H Mw))
  | [] => .ok []
  | subroute :: rest =>
    match abandonedNodes subpath verb subroute, matchedChain subpath verb subroute with
    | .error a, _ => .error a
    | _, .error a => .error a
    | .ok left, .ok (some _) => .ok left
    | .ok left, .ok none =>
      match abandonedIn subpath verb rest with
      | .error a => .error a
      | .ok more => .ok (left ++ more)
end

/-- Whether the `Path` of a node is empty or is one literal segment "/t", with
`t` not empty and made of characters that are no slash and stand for themselves
in a regular expression. -/
def Route.HasLiteralPath (node : Route H Mw) : Bool :=
  match node.Path with
  | [] => true
  | c :: t => c == '/' && !t.isEmpty && t.all isLiteralChar

end Reference

/-- A node "/abc" with the sub-route "/{id}" holding a GET handler. -/
def dynamicLeafTree {H Mw : Type} (handler : H) : Route H Mw :=
  MakeRoot (fun root =>
    root.AddRoute "/abc".toList (fun r => r.AddRoute "/{id}".toList (fun r => r.AddGet ['/'] handler)))

/-- A node "/abc" with the sub-route "/def" holding a GET handler. -/
def literalTree {H Mw : Type} (handler : H) : Route H Mw :=
  MakeRoot (fun root =>
    root.AddRoute "/abc".toList (fun r => r.AddRoute "/def".toList (fun r => r.AddGet ['/'] handler)))

/-- The sub-routes "/{id}" and "/abc", in this order, each with a GET handler. -/
def dynamicFirstTree {H Mw : Type} (hDynamic hLiteral : H) : Route H Mw :=
  MakeRoot (fun root => (root.AddGet "/{id}".toList hDynamic).AddGet "/abc".toList hLiteral)

/-- The sub-routes "/abc" and "/{id}", in this order, each with a GET handler. -/
def literalFirstTree {H Mw : Type} (hDynamic hLiteral : H) : Route H Mw :=
  MakeRoot (fun root => (root.AddGet "/abc".toList hLiteral).AddGet "/{id}".toList hDynamic)

/-- A root with the single childless sub-route "/{name}" holding a GET handler. -/
def singleDynamicTree {H Mw : Type} (name : GoString) (handler : H) : Route H Mw :=
  MakeRoot (fun root => root.AddGet ('/' :: '\x7b' :: (name ++ ['\x7d'])) handler)

/-- A root with the single childless sub-route `path` holding a GET handler. -/
def singleNodeTree {H Mw : Type} (path : GoString) (handler : H) : Route H Mw :=
  MakeRoot (fun root => root.AddGet path handler)

end GenericRouter

namespace GenericRouter

/-! ## The fuel of the library loops is enough -/

theorem length_dropWhile_le (p : Char → Bool) (l : GoString) :
    (l.dropWhile p).length ≤ l.length :=
  (List.dropWhile_sublist p).length_le

theorem scanChunk_rest_lt (pattern : GoString) (h : pattern ≠ []) :
    (scanChunk pattern).2.2.length < pattern.length := by
  cases pattern with
  | nil => exact absurd rfl h
  | cons a p =>
    simp only [scanChunk, List.length_cons]
    by_cases ha : a = '*'
    · subst ha
      have h1 : (List.dropWhile (fun c => c == '*') ('*' :: p)).length ≤ p.length := by
        simp only [List.dropWhile_cons, beq_self_eq_true, if_true]
        exact length_dropWhile_le _ _
      have h2 := length_dropWhile_le (fun c => c != '*')
        (List.dropWhile (fun c => c == '*') ('*' :: p))
      omega
    · have h1 : List.dropWhile (fun c => c == '*') (a :: p) = a :: p := by
        simp [List.dropWhile_cons, ha]
      rw [h1]
      have h2 : List.dropWhile (fun c => c != '*') (a :: p) =
          List.dropWhile (fun c => c != '*') p := by
        simp [List.dropWhile_cons, ha]
      rw [h2]
      have h3 := length_dropWhile_le (fun c => c != '*') p
      omega

/-- With a fuel above the length of the pattern the loop of `path.Match` ends
with a result. -/
theorem matchLoop_total :
    ∀ (fuel : Nat) (pattern name : GoString), pattern.length < fuel →
      ∃ matched, matchLoop fuel pattern name = .ok matched
  | 0, _, _, h => by omega
  | fuel + 1, pattern, name, h => by
    by_cases hp : pattern = []
    · subst hp
      exact ⟨name.isEmpty, by simp [matchLoop]⟩
    · have hlt := scanChunk_rest_lt pattern hp
      have hrest : (scanChunk pattern).2.2.length < fuel := by omega
      have hrec := fun t => matchLoop_total fuel (scanChunk pattern).2.2 t hrest
      have hpe : pattern.isEmpty = false := by
        cases pattern with
        | nil => exact absurd rfl hp
        | cons _ _ => rfl
      rw [matchLoop]
      simp only [hpe, Bool.false_eq_true, if_false]
      split
      · exact ⟨_, rfl⟩
      · split
        · split
          · exact hrec _
          · split
            · split
              · exact hrec _
              · exact ⟨_, rfl⟩
            · exact ⟨_, rfl⟩
        · split
          · split
            · exact hrec _
            · exact ⟨_, rfl⟩
          · exact ⟨_, rfl⟩

/-- A pattern without `?`, `[` and backslash is inside the described part of
`path.Match`: the call returns a result and no error. -/
theorem pathMatch_modelled (pattern name : GoString)
    (h : pattern.any (fun c => c == '?' || c == '[' || c == '\\') = false) :
    ∃ matched, path.Match pattern name = .ok (matched, none) := by
  obtain ⟨matched, hm⟩ := matchLoop_total (pattern.length + 1) pattern name (Nat.lt_succ_self _)
  exact ⟨matched, by simp [path.Match, h, hm, Except.map]⟩

theorem regexpParse_fuel :
    ∀ (n : Nat) (expr : GoString) (fuel1 fuel2 : Nat), expr.length ≤ n →
      expr.length < fuel1 → expr.length < fuel2 → regexpParse fuel1 expr = regexpParse fuel2 expr
  | n, expr, 0, _, _, h1, _ => by omega
  | n, expr, _ + 1, 0, _, _, h2 => by omega
  | 0, expr, f1 + 1, f2 + 1, hn, _, _ => by
    have : expr = [] := List.eq_nil_of_length_eq_zero (by omega)
    subst this
    simp [regexpParse, List.isPrefixOf]
  | n + 1, expr, f1 + 1, f2 + 1, hn, h1, h2 => by
    have ih := fun (e : GoString) (he : e.length < expr.length) =>
      regexpParse_fuel n e f1 f2 (by omega) (by omega) (by omega)
    cases expr with
    | nil => simp [regexpParse, List.isPrefixOf]
    | cons c rest =>
      conv_lhs => rw [regexpParse]
      conv_rhs => rw [regexpParse]
      by_cases hd : c :: rest = ['$']
      · simp [hd]
      · simp only [hd, if_false]
        by_cases hesc : ['\\', '/'].isPrefixOf (c :: rest) = true
        · simp only [hesc, if_true]
          have hlen : ((c :: rest).drop 2).length < (c :: rest).length := by
            have := (List.isPrefixOf_iff_prefix.mp hesc).length_le
            simp only [List.length_drop, List.length_cons, List.length_nil] at this ⊢
            omega
          rw [ih _ hlen]
        · simp only [hesc, Bool.false_eq_true, if_false]
          by_cases hgrp : ['(', '?', 'P', '<'].isPrefixOf (c :: rest) = true
          · simp only [hgrp, if_true]
            have hlen : ((List.dropWhile (fun c => c != '>') ((c :: rest).drop 4)).drop 5).length <
                (c :: rest).length := by
              have h4 := (List.isPrefixOf_iff_prefix.mp hgrp).length_le
              have hdw := length_dropWhile_le (fun c => c != '>') ((c :: rest).drop 4)
              simp only [List.length_drop, List.length_cons, List.length_nil] at h4 hdw ⊢
              omega
            rw [ih _ hlen]
          · simp only [hgrp, Bool.false_eq_true, if_false]
            rw [ih rest (by simp)]

/-- The result of `regexp.Compile` does not depend on the fuel: with any fuel
above the length of the expression the parser gives the same result. -/
theorem regexpCompile_fuel (expr : GoString) (fuel : Nat) (h : expr.length < fuel) :
    regexp.Compile expr =
      match regexpParse fuel expr with
      | .ok atoms => .compiled ⟨atoms⟩
      | .error r => r := by
  rw [regexp.Compile, regexpParse_fuel expr.length expr (expr.length + 1) fuel (Nat.le_refl _)
    (Nat.lt_succ_self _) h]

end GenericRouter
namespace GenericRouter
section
variable {H Mw Out E Resp : Type}

theorem chainMiddlewares_cons (root : Route H Mw) (chain : List (Route H Mw)) :
    chainMiddlewares (root :: chain) = chainMiddlewares chain ++ root.Middlewares := by
  simp [chainMiddlewares]

theorem getLast?_cons_ne_nil {α : Type} (a : α) (l : List α) (h : l ≠ []) :
    (a :: l).getLast? = l.getLast? := by
  cases l with
  | nil => exact absurd rfl h
  | cons b t => simp [List.getLast?_cons_cons]

theorem IsChainFrom_ne_nil (root : Route H Mw) (chain : List (Route H Mw))
    (hc : IsChainFrom root chain) : chain ≠ [] := by
  intro h
  subst h
  simp [IsChainFrom] at hc

theorem IsChainFrom_cons (root sub : Route H Mw) (chain : List (Route H Mw))
    (hsub : sub ∈ root.SubRoutes) (hc : IsChainFrom sub chain) : IsChainFrom root (root :: chain) := by
  cases chain with
  | nil => exact absurd hc (by simp [IsChainFrom])
  | cons n rest =>
    have hn : n = sub := by
      cases rest with
      | nil => simpa [IsChainFrom] using hc
      | cons m rest2 => exact (by simpa [IsChainFrom] using hc : n = sub ∧ _).1
    subst hn
    exact ⟨rfl, hsub, hc⟩

mutual
theorem FindRoute_chain : ∀ (root : Route H Mw) (path verb : GoString) (pp : Option GoString)
    (mws : List Mw) (r : FindResult H Mw),
    FindRoute path verb root pp mws = .ok r →
      (∀ h, r.1 = some h → ∃ chain leaf, matchedChain path verb root = .ok (some chain) ∧
        IsChainFrom root chain ∧ chain.getLast? = some leaf ∧ getVerb leaf verb = some h ∧
        r.2.1 = mws ++ chainMiddlewares chain) ∧
      (r.1 = none → matchedChain path verb root = .ok none)
  | .mk rp rm rs g po pu d pa hh, path, verb, pp, mws, r => by
    intro hfind
    simp only [FindRoute, matchedChain] at hfind ⊢
    generalize hg : (match FieldsFunc path isSlash with
      | [] => (Except.ok true : Except Abort Bool)
      | split0 :: _ => if rp.isEmpty = true then Except.ok true else matchPathElement rp ('/' :: split0)) = guard at hfind ⊢
    match guard, hfind with
    | .error a, hfind => simp at hfind
    | .ok false, hfind =>
      simp at hfind
      subst hfind
      simp
    | .ok true, hfind =>
      simp only at hfind ⊢
      by_cases hexact : (!rp.isEmpty && (FieldsFunc path isSlash).length == 1) = true
      · simp only [hexact, if_true, Except.ok.injEq] at hfind ⊢
        subst hfind
        refine ⟨?_, ?_⟩
        · intro h hv
          have hv1 : getVerb (Route.mk rp rm rs g po pu d pa hh) verb = some h := hv
          refine ⟨[Route.mk rp rm rs g po pu d pa hh], Route.mk rp rm rs g po pu d pa hh, ?_, ?_, ?_, hv1, ?_⟩
          · simp [hv1]
          · simp [IsChainFrom]
          · simp
          · simp [chainMiddlewares, Route.Middlewares]
        · intro hv
          have hv1 : getVerb (Route.mk rp rm rs g po pu d pa hh) verb = none := hv
          simp [hv1]
      · simp only [hexact, if_false] at hfind ⊢
        cases hsplit : FieldsFunc path isSlash with
        | nil => simp [hsplit] at hfind
        | cons split0 tl =>
          simp only [hsplit] at hfind ⊢
          generalize (if rp.isEmpty = true then path else TrimPrefix path ('/' :: split0)) = subpath
            at hfind ⊢
          have ih := findInSubRoutes_chain rs subpath verb rp rm pp mws r hfind
          refine ⟨?_, ?_⟩
          · intro h hv
            obtain ⟨chain, leaf, sub, hmc, hmem, hchain, hlast, hverb, hmws⟩ := ih.1 h hv
            refine ⟨Route.mk rp rm rs g po pu d pa hh :: chain, leaf, ?_, ?_, ?_, hverb, ?_⟩
            · rw [hmc]
              rfl
            · exact IsChainFrom_cons _ sub chain hmem hchain
            · rw [getLast?_cons_ne_nil _ _ (IsChainFrom_ne_nil _ _ hchain)]
              exact hlast
            · rw [hmws, chainMiddlewares_cons]
              simp [Route.Middlewares]
          · intro hv
            rw [ih.2 hv]
            rfl
theorem findInSubRoutes_chain : ∀ (subs : List (Route H Mw)) (subpath verb rootPath : GoString)
    (rootMws : List Mw) (pp : Option GoString) (mws : List Mw) (r : FindResult H Mw),
    findInSubRoutes subpath verb rootPath rootMws subs pp mws = .ok r →
      (∀ h, r.1 = some h → ∃ chain leaf sub, matchedChainIn subpath verb subs = .ok (some chain) ∧
        sub ∈ subs ∧ IsChainFrom sub chain ∧ chain.getLast? = some leaf ∧
        getVerb leaf verb = some h ∧ r.2.1 = mws ++ chainMiddlewares chain ++ rootMws) ∧
      (r.1 = none → matchedChainIn subpath verb subs = .ok none)
  | [], subpath, verb, rootPath, rootMws, pp, mws, r => by
    intro hfind
    simp [findInSubRoutes] at hfind
    subst hfind
    simp [matchedChainIn]
  | sub :: rest, subpath, verb, rootPath, rootMws, pp, mws, r => by
    intro hfind
    simp only [findInSubRoutes, matchedChainIn] at hfind ⊢
    cases hres : FindRoute subpath verb sub pp mws with
    | error a => simp [hres] at hfind
    | ok res =>
      obtain ⟨hd, m1, pp1⟩ := res
      have ih := FindRoute_chain sub subpath verb pp mws _ hres
      cases hd with
      | some h1 =>
        simp only [hres, Except.ok.injEq] at hfind
        subst hfind
        obtain ⟨chain, leaf, hmc, hchain, hlast, hverb, hmws⟩ := ih.1 h1 rfl
        refine ⟨?_, ?_⟩
        · intro h hv
          have hh1 : h1 = h := by simpa using hv
          subst hh1
          refine ⟨chain, leaf, sub, ?_, ?_, hchain, hlast, hverb, ?_⟩
          · simp [hmc]
          · simp
          · have : m1 = mws ++ chainMiddlewares chain := hmws
            simp [this]
        · intro hv
          simp at hv
      | none =>
        simp only [hres] at hfind
        have ih2 := findInSubRoutes_chain rest subpath verb rootPath rootMws pp1 mws r hfind
        have hnone := ih.2 rfl
        refine ⟨?_, ?_⟩
        · intro h hv
          obtain ⟨chain, leaf, sub2, hmc, hmem, hchain, hlast, hverb, hmws⟩ := ih2.1 h hv
          refine ⟨chain, leaf, sub2, ?_, ?_, hchain, hlast, hverb, hmws⟩
          · simp [hnone, hmc]
          · simp [hmem]
        · intro hv
          simp [hnone, ih2.2 hv]
end

end
end GenericRouter
namespace GenericRouter
section
variable {H Mw Out E Resp : Type}

theorem foldlM_cons_ok (ops : HandlerOps H Mw Out E Resp) (m : Mw) (rest : List Mw) (h0 h1 : H)
    (hm : ops.Middleware m h0 = .ok h1) :
    (List.foldlM (fun h m => ops.Middleware m h) h0 (m :: rest) : Except (GoError E) H) =
      List.foldlM (fun h m => ops.Middleware m h) h1 rest := by
  simp [List.foldlM_cons, hm, bind, Except.bind]

theorem foldlM_cons_error (ops : HandlerOps H Mw Out E Resp) (m : Mw) (rest : List Mw) (h0 : H)
    (e : GoError E) (hm : ops.Middleware m h0 = .error e) :
    (List.foldlM (fun h m => ops.Middleware m h) h0 (m :: rest) : Except (GoError E) H) =
      .error e := by
  simp [List.foldlM_cons, hm, bind, Except.bind]

theorem applyMiddlewares_prefix (ops : HandlerOps H Mw Out E Resp) :
    ∀ (pre : List Mw) (h0 hi : H),
      (List.foldlM (fun h m => ops.Middleware m h) h0 pre : Except (GoError E) H) = .ok hi →
      ∃ calls : List (Call H Mw Out E),
        calls.filterMap Call.middlewareOf = pre ∧
        (∀ c ∈ calls, ∃ m h, c = Call.Middleware m h) ∧
        ∀ rest, applyMiddlewares ops (pre ++ rest) h0 =
          ((applyMiddlewares ops rest hi).1, calls ++ (applyMiddlewares ops rest hi).2)
  | [], h0, hi, hfold => by
    have : h0 = hi := by simpa [pure, Except.pure] using hfold
    subst this
    exact ⟨[], rfl, by simp, fun rest => by simp⟩
  | m :: pre, h0, hi, hfold => by
    cases hm : ops.Middleware m h0 with
    | error e =>
      rw [foldlM_cons_error ops m pre h0 e hm] at hfold
      cases hfold
    | ok h1 =>
      rw [foldlM_cons_ok ops m pre h0 h1 hm] at hfold
      obtain ⟨calls, hmap, hall, happ⟩ := applyMiddlewares_prefix ops pre h1 hi hfold
      refine ⟨Call.Middleware m h0 :: calls, ?_, ?_, ?_⟩
      · simp [Call.middlewareOf, hmap]
      · intro c hc
        rcases List.mem_cons.mp hc with hc | hc
        · exact ⟨m, h0, hc⟩
        · exact hall c hc
      · intro rest
        simp [applyMiddlewares, hm, happ rest]

end
end GenericRouter
namespace GenericRouter
section
variable {H Mw Out E Resp : Type}

/-- A request path without any segment makes `FindRoute` index `split[0]` of an
empty slice, whatever the tree. -/
theorem FindRoute_no_segment (path verb : GoString) (root : Route H Mw) (pp : Option GoString)
    (mws : List Mw) (hsplit : FieldsFunc path isSlash = []) :
    FindRoute path verb root pp mws = .error .indexOutOfRange := by
  cases root with
  | mk p m s g po pu d pa h => simp [FindRoute, hsplit]

/-- C3: the handler whose lifecycle `ExecutePath` runs is the left-to-right fold of
the middleware list returned by `FindRoute` over `H' = H.SetPathParams(params)`;
when the root of the matched chain carries `M1`, its leaf carries `M2` and no
node between them carries a middleware, that handler is `M1(M2(H'))`: the leaf
middleware is applied first and the root middleware wraps its result. -/
theorem C3_root_middleware_wraps_leaf_middleware (ops : HandlerOps H Mw Out E Resp)
    (event : RequestEngine Out E Resp) (root : Route H Mw) (h : H) (mws : List Mw)
    (pp : Option GoString) (params : GoMap)
    (hfind : FindRoute event.GetPath event.GetHttpVerb root (some []) [] = .ok (some h, mws, pp))
    (hext : ExtractPathParameters event.GetPath (pp.getD []) = .ok (.ok params)) :
    (∀ hN : H,
      (List.foldlM (fun h m => ops.Middleware m h) (ops.SetPathParams h params) mws :
        Except (GoError E) H) = .ok hN →
      ∃ calls : List (Call H Mw Out E),
        calls.filterMap Call.middlewareOf = mws ∧
        (∀ c ∈ calls, ∃ m h0, c = Call.Middleware m h0) ∧
        ExecutePath ops event root =
          .ok ((ExecuteHandler ops event hN).1,
            Call.SetPathParams h params :: (calls ++ (ExecuteHandler ops event hN).2))) ∧
    (∀ (mid : List (Route H Mw)) (leaf : Route H Mw) (M1 M2 : Mw) (h2 h1 : H),
      matchedChain event.GetPath event.GetHttpVerb root = .ok (some (root :: (mid ++ [leaf]))) →
      root.Middlewares = [M1] → leaf.Middlewares = [M2] →
      (∀ n ∈ mid, n.Middlewares = []) →
      ops.Middleware M2 (ops.SetPathParams h params) = .ok h2 →
      ops.Middleware M1 h2 = .ok h1 →
      mws = [M2, M1] ∧
      ExecutePath ops event root =
        .ok ((ExecuteHandler ops event h1).1,
          [Call.SetPathParams h params, Call.Middleware M2 (ops.SetPathParams h params),
            Call.Middleware M1 h2] ++ (ExecuteHandler ops event h1).2)) := by
  refine ⟨?_, ?_⟩
  · intro hN hfold
    obtain ⟨calls, hmap, hall, happ⟩ :=
      applyMiddlewares_prefix ops mws (ops.SetPathParams h params) hN hfold
    refine ⟨calls, hmap, hall, ?_⟩
    have happ0 := happ []
    simp only [List.append_nil, applyMiddlewares] at happ0
    simp only [ExecutePath, hfind, hext, happ0]
  · intro mid leaf M1 M2 h2 h1 hchain hroot hleaf hmid hM2 hM1
    obtain ⟨chain, _, hmc, _, _, _, hmws⟩ := (FindRoute_chain root _ _ _ _ _ hfind).1 h rfl
    have hc : chain = root :: (mid ++ [leaf]) := by
      rw [hmc] at hchain
      simpa using hchain
    have hmidnil : (List.map Route.Middlewares mid.reverse).flatten = ([] : List Mw) := by
      rw [List.flatten_eq_nil_iff]
      intro l hl
      obtain ⟨n, hn, rfl⟩ := List.mem_map.mp hl
      exact hmid n (List.mem_reverse.mp hn)
    have hlist : mws = [M2, M1] := by
      have : mws = [] ++ chainMiddlewares chain := hmws
      rw [this, hc]
      simpa [chainMiddlewares, hroot, hleaf] using hmid
    refine ⟨hlist, ?_⟩
    subst hlist
    simp only [ExecutePath, hfind, hext, applyMiddlewares, hM2, hM1]
    rfl

/-- C4: a non-nil handler returned by `FindRoute` comes with the initial middleware
list followed by the middlewares of the matched chain, leaf first and root last;
the chain is a root-to-leaf path of the tree, its last node owns the returned
handler, and nothing of any other node is in the list.  Within a node the
middlewares stand in the order of the `Use` calls: `Use` appends. -/
theorem C4_middlewares_are_those_of_the_matched_chain (path verb : GoString) (root : Route H Mw)
    (pp pp1 : Option GoString) (mws mws1 : List Mw) (h : H)
    (hfind : FindRoute path verb root pp mws = .ok (some h, mws1, pp1)) :
    (∃ chain leaf, matchedChain path verb root = .ok (some chain) ∧
      IsChainFrom root chain ∧ chain.getLast? = some leaf ∧ getVerb leaf verb = some h ∧
      mws1 = mws ++ (chain.reverse.map Route.Middlewares).flatten) ∧
    (∀ (r : Route H Mw) (m : Mw), (r.Use m).Middlewares = r.Middlewares ++ [m]) := by
  refine ⟨?_, ?_⟩
  · obtain ⟨chain, leaf, hmc, hchain, hlast, hverb, hmws⟩ :=
      (FindRoute_chain root path verb pp mws _ hfind).1 h rfl
    exact ⟨chain, leaf, hmc, hchain, hlast, hverb, hmws⟩
  · intro r m
    cases r
    rfl

/-- C6: `ExecuteHandler` calls `FormatOutput` exactly once, last, and returns its
result; a failing phase stops the lifecycle and its error is passed to
`FormatOutput` as it is, otherwise the output of `PostExecution` is passed. -/
theorem C6_ExecuteHandler_phases (ops : HandlerOps H Mw Out E Resp)
    (event : RequestEngine Out E Resp) (handler : H) :
    (∀ e, ops.PreExecution handler event = .error e →
      ExecuteHandler ops event handler =
        (event.FormatOutput none (some e),
          [Call.PreExecution handler, Call.FormatOutput none (some e)])) ∧
    (∀ h1 e, ops.PreExecution handler event = .ok h1 → ops.Execution h1 event = .error e →
      ExecuteHandler ops event handler =
        (event.FormatOutput none (some e),
          [Call.PreExecution handler, Call.Execution h1, Call.FormatOutput none (some e)])) ∧
    (∀ h1 out e, ops.PreExecution handler event = .ok h1 → ops.Execution h1 event = .ok out →
      ops.PostExecution h1 event out = .error e →
      ExecuteHandler ops event handler =
        (event.FormatOutput none (some e),
          [Call.PreExecution handler, Call.Execution h1, Call.PostExecution h1 out,
            Call.FormatOutput none (some e)])) ∧
    (∀ h1 out out1, ops.PreExecution handler event = .ok h1 → ops.Execution h1 event = .ok out →
      ops.PostExecution h1 event out = .ok out1 →
      ExecuteHandler ops event handler =
        (event.FormatOutput out1 none,
          [Call.PreExecution handler, Call.Execution h1, Call.PostExecution h1 out,
            Call.FormatOutput out1 none])) ∧
    ((ExecuteHandler ops event handler).2.filter Call.isFormatOutput).length = 1 := by
  refine ⟨?_, ?_, ?_, ?_, ?_⟩
  · intro e hpre
    simp [ExecuteHandler, hpre]
  · intro h1 e hpre hex
    simp [ExecuteHandler, hpre, hex]
  · intro h1 out e hpre hex hpost
    simp [ExecuteHandler, hpre, hex, hpost]
  · intro h1 out out1 hpre hex hpost
    simp [ExecuteHandler, hpre, hex, hpost]
  · cases hpre : ops.PreExecution handler event with
    | error e => simp [ExecuteHandler, hpre, Call.isFormatOutput]
    | ok h1 =>
      cases hex : ops.Execution h1 event with
      | error e => simp [ExecuteHandler, hpre, hex, Call.isFormatOutput]
      | ok out =>
        cases hpost : ops.PostExecution h1 event out with
        | error e => simp [ExecuteHandler, hpre, hex, hpost, Call.isFormatOutput]
        | ok out1 => simp [ExecuteHandler, hpre, hex, hpost, Call.isFormatOutput]

/-- C7: when `FindRoute` yields no handler, `ExecutePath` returns
`FormatOutput(nil, RouterExecutionError{"Not found", nil})`, and that call of
`FormatOutput` is the only call it makes: no middleware, no handler method. -/
theorem C7_no_handler_gives_not_found (ops : HandlerOps H Mw Out E Resp)
    (event : RequestEngine Out E Resp) (root : Route H Mw) (mws : List Mw) (pp : Option GoString)
    (hfind : FindRoute event.GetPath event.GetHttpVerb root (some []) [] = .ok (none, mws, pp)) :
    ExecutePath ops event root =
      .ok (event.FormatOutput none (some (.RouterExecutionError "Not found".toList none)),
        [Call.FormatOutput none (some (.RouterExecutionError "Not found".toList none))]) := by
  simp only [ExecutePath, hfind]
  rfl

/-- C8: when the middlewares before `m` in the list succeed and `m` fails with `e`,
`ExecutePath` returns `FormatOutput(nil, RouterExecutionError{"Middleware execution
error", text of e})`; the calls made are `SetPathParams`, the middlewares up to
and including `m`, and that `FormatOutput`: no later middleware, no phase. -/
theorem C8_first_failing_middleware_aborts (ops : HandlerOps H Mw Out E Resp)
    (event : RequestEngine Out E Resp) (root : Route H Mw) (h : H) (mws : List Mw)
    (pp : Option GoString) (params : GoMap) (pre post : List Mw) (m : Mw) (hi : H) (e : GoError E)
    (hfind : FindRoute event.GetPath event.GetHttpVerb root (some []) [] = .ok (some h, mws, pp))
    (hext : ExtractPathParameters event.GetPath (pp.getD []) = .ok (.ok params))
    (hlist : mws = pre ++ m :: post)
    (hpre : (List.foldlM (fun h m => ops.Middleware m h) (ops.SetPathParams h params) pre :
      Except (GoError E) H) = .ok hi)
    (hfail : ops.Middleware m hi = .error e) :
    ∃ calls : List (Call H Mw Out E),
      ExecutePath ops event root =
        .ok (event.FormatOutput none
            (some (.RouterExecutionError "Middleware execution error".toList
              (some (e.Error ops.errorText)))),
          calls ++ [Call.FormatOutput none
            (some (.RouterExecutionError "Middleware execution error".toList
              (some (e.Error ops.errorText))))]) ∧
      calls.filterMap Call.middlewareOf = pre ++ [m] ∧
      (∀ c ∈ calls, c.isPhase = false ∧ c.isFormatOutput = false) := by
  obtain ⟨calls, hmap, hall, happ⟩ :=
    applyMiddlewares_prefix ops pre (ops.SetPathParams h params) hi hpre
  refine ⟨Call.SetPathParams h params :: (calls ++ [Call.Middleware m hi]), ?_, ?_, ?_⟩
  · have happ1 := happ (m :: post)
    simp only [applyMiddlewares, hfail] at happ1
    subst hlist
    simp only [ExecutePath, hfind, hext, happ1]
    simp [NewRouterExecutionError, RouterExecutionMiddlewareExecutionError]
  · simp [Call.middlewareOf, List.filterMap_append, hmap]
  · intro c hc
    rcases List.mem_cons.mp hc with hc | hc
    · subst hc
      exact ⟨rfl, rfl⟩
    · rcases List.mem_append.mp hc with hc | hc
      · obtain ⟨m0, h0, rfl⟩ := hall c hc
        exact ⟨rfl, rfl⟩
      · have : c = Call.Middleware m hi := by simpa using hc
        subst this
        exact ⟨rfl, rfl⟩

end
end GenericRouter
namespace GenericRouter
section
variable {H Mw Out E Resp : Type}

/-- C1: for the tree "/abc" -> "/{myVar}" -> "/def" the request "/abc/123/def"
resolves to the handler, with parameterised path "/abc/{myVar}/def" and the
mapping that sends myVar to "123"; for the request "/abc/1\n2/def", whose second
segment holds a line feed, the same handler is returned and the mapping is empty. -/
theorem C1_segment_with_line_feed_is_not_bound (handler : H) :
    FindRoute "/abc/123/def".toList verbGET (exampleTree handler : Route H Mw) (some []) [] =
      .ok (some handler, [], some "/abc/{myVar}/def".toList) ∧
    ExtractPathParameters "/abc/123/def".toList "/abc/{myVar}/def".toList =
      .ok (.ok [("myVar".toList, "123".toList)]) ∧
    FindRoute "/abc/1\n2/def".toList verbGET (exampleTree handler : Route H Mw) (some []) [] =
      .ok (some handler, [], some "/abc/{myVar}/def".toList) ∧
    ExtractPathParameters "/abc/1\n2/def".toList "/abc/{myVar}/def".toList = .ok (.ok []) :=
  ⟨rfl, rfl, rfl, rfl⟩

/-- C2: with the sub-routes "/a" (POST only) and "/{x}" (GET), the request GET "/a"
returns the handler of "/{x}"; the matched chain is the root followed by
"/{x}", whose paths join to "/{x}", and the parameterised path written is
"/a/{x}": it starts with the path of the abandoned sibling "/a". -/
theorem C2_abandoned_sibling_stays_in_parameterised_path (h1 h2 : H) :
    FindRoute "/a".toList verbGET (siblingTree h1 h2 : Route H Mw) (some []) [] =
      .ok (some h2, [], some "/a/{x}".toList) ∧
    matchedChain "/a".toList verbGET (siblingTree h1 h2 : Route H Mw) =
      .ok (some [siblingTree h1 h2,
        Route.mk "/{x}".toList [] [] (some h2) none none none none none]) ∧
    chainPath [(siblingTree h1 h2 : Route H Mw),
        Route.mk "/{x}".toList [] [] (some h2) none none none none none] = "/{x}".toList ∧
    ExtractPathParameters "/a".toList "/a/{x}".toList = .ok (.ok []) :=
  ⟨rfl, rfl, rfl, rfl⟩

/-- C3, at a concrete input: root with middleware 1, leaf "/abc" with middleware 2
and handler `[7]`; the lifecycle runs on `[1, 2, 7, 100]`, middleware 1 outermost. -/
theorem C3_witness :
    FindRoute "/abc".toList verbGET middlewareTree (some []) [] =
      .ok (some [7], [2, 1], some "/abc".toList) ∧
    ExecutePath sampleOps (sampleEvent "/abc".toList verbGET) middlewareTree =
      .ok ((some 111, none),
        [Call.SetPathParams [7] [], Call.Middleware 2 [7, 100], Call.Middleware 1 [2, 7, 100],
          Call.PreExecution [1, 2, 7, 100], Call.Execution [1, 2, 7, 100],
          Call.PostExecution [1, 2, 7, 100] (some 110), Call.FormatOutput (some 111) none]) :=
  ⟨rfl,
    ((C3_root_middleware_wraps_leaf_middleware sampleOps (sampleEvent "/abc".toList verbGET)
      middlewareTree [7] [2, 1] (some "/abc".toList) [] rfl rfl).2 []
      (Route.mk "/abc".toList [2] [] (some [7]) none none none none none) 1 2 [2, 7, 100]
      [1, 2, 7, 100] rfl rfl rfl (by simp) rfl rfl).2⟩

/-- C4, at a concrete input: the sibling "/{id}" (middleware 3) matches GET "/abc"
and is abandoned for lack of a GET handler; the list returned is `[2, 1]`. -/
theorem C4_witness :
    FindRoute "/abc".toList verbGET abandonedSiblingTree (some []) [] =
      .ok (some [7], [2, 1], some "/{id}/abc".toList) ∧
    ∃ chain leaf, matchedChain "/abc".toList verbGET abandonedSiblingTree = .ok (some chain) ∧
      IsChainFrom abandonedSiblingTree chain ∧ chain.getLast? = some leaf ∧
      getVerb leaf verbGET = some [7] ∧
      [2, 1] = [] ++ (chain.reverse.map Route.Middlewares).flatten :=
  ⟨rfl, (C4_middlewares_are_those_of_the_matched_chain "/abc".toList verbGET abandonedSiblingTree
    (some []) (some "/{id}/abc".toList) [] [2, 1] [7] rfl).1⟩

/-- C5: a request whose path has no segment ("/" or the empty string) makes
`ExecutePath` panic with an index out of range, for every tree. -/
theorem C5_request_without_segment_panics (ops : HandlerOps H Mw Out E Resp)
    (event : RequestEngine Out E Resp) (root : Route H Mw) :
    ExecutePath ops { event with GetPath := ['/'] } root = .error .indexOutOfRange ∧
    ExecutePath ops { event with GetPath := [] } root = .error .indexOutOfRange := by
  constructor <;> simp [ExecutePath, FindRoute_no_segment, FieldsFunc, fieldsLoop, isSlash]

/-- C6, at concrete inputs: a handler failing in `PreExecution`, one failing in
`Execution`, one failing in `PostExecution`, and one that succeeds. -/
theorem C6_witness :
    ExecuteHandler sampleOps (sampleEvent ['/'] verbGET) [91] =
      ((none, some (.other 1)),
        [Call.PreExecution [91], Call.FormatOutput none (some (.other 1))]) ∧
    ExecuteHandler sampleOps (sampleEvent ['/'] verbGET) [92] =
      ((none, some (.other 2)),
        [Call.PreExecution [92], Call.Execution [92], Call.FormatOutput none (some (.other 2))]) ∧
    ExecuteHandler sampleOps (sampleEvent ['/'] verbGET) [93] =
      ((none, some (.other 3)),
        [Call.PreExecution [93], Call.Execution [93], Call.PostExecution [93] (some 93),
          Call.FormatOutput none (some (.other 3))]) ∧
    ExecuteHandler sampleOps (sampleEvent ['/'] verbGET) [7] =
      ((some 8, none),
        [Call.PreExecution [7], Call.Execution [7], Call.PostExecution [7] (some 7),
          Call.FormatOutput (some 8) none]) :=
  ⟨(C6_ExecuteHandler_phases sampleOps (sampleEvent ['/'] verbGET) [91]).1 (.other 1) rfl,
    (C6_ExecuteHandler_phases sampleOps (sampleEvent ['/'] verbGET) [92]).2.1 [92] (.other 2)
      rfl rfl,
    (C6_ExecuteHandler_phases sampleOps (sampleEvent ['/'] verbGET) [93]).2.2.1 [93] (some 93)
      (.other 3) rfl rfl rfl,
    (C6_ExecuteHandler_phases sampleOps (sampleEvent ['/'] verbGET) [7]).2.2.2.1 [7] (some 7)
      (some 8) rfl rfl rfl⟩

/-- C7, at a concrete input: "/abc/123/def" is matched by the node "/def", which
has a GET handler and no POST handler; a POST request gets "Not found". -/
theorem C7_witness :
    FindRoute "/abc/123/def".toList verbPOST (exampleTree [7] : Route (List Nat) Nat) (some []) [] =
      .ok (none, [], some "/def".toList) ∧
    ExecutePath sampleOps (sampleEvent "/abc/123/def".toList verbPOST) (exampleTree [7]) =
      .ok ((none, some (.RouterExecutionError "Not found".toList none)),
        [Call.FormatOutput none (some (.RouterExecutionError "Not found".toList none))]) :=
  ⟨rfl, C7_no_handler_gives_not_found sampleOps (sampleEvent "/abc/123/def".toList verbPOST)
    (exampleTree [7]) [] (some "/def".toList) rfl⟩

/-- C8, at a concrete input: the list is `[5, 0, 4, 2]` and middleware 0 fails. -/
theorem C8_witness :
    FindRoute "/abc".toList verbGET failingMiddlewareTree (some []) [] =
      .ok (some [7], [5, 0, 4, 2], some "/abc".toList) ∧
    ExecutePath sampleOps (sampleEvent "/abc".toList verbGET) failingMiddlewareTree =
      .ok ((none, some (.RouterExecutionError "Middleware execution error".toList
          (some "eeeee".toList))),
        [Call.SetPathParams [7] [], Call.Middleware 5 [7, 100], Call.Middleware 0 [5, 7, 100],
          Call.FormatOutput none (some (.RouterExecutionError
            "Middleware execution error".toList (some "eeeee".toList)))]) ∧
    ∃ calls : List (Call (List Nat) Nat Nat Nat),
      ExecutePath sampleOps (sampleEvent "/abc".toList verbGET) failingMiddlewareTree =
        .ok ((none, some (.RouterExecutionError "Middleware execution error".toList
            (some "eeeee".toList))),
          calls ++ [Call.FormatOutput none (some (.RouterExecutionError
            "Middleware execution error".toList (some "eeeee".toList)))]) ∧
      calls.filterMap Call.middlewareOf = [5] ++ [0] ∧
      (∀ c ∈ calls, c.isPhase = false ∧ c.isFormatOutput = false) :=
  ⟨rfl, rfl, C8_first_failing_middleware_aborts sampleOps (sampleEvent "/abc".toList verbGET)
    failingMiddlewareTree [7] [5, 0, 4, 2] (some "/abc".toList) [] [5] [4, 2] 0 [5, 7, 100]
    (.other 5) rfl rfl rfl rfl rfl⟩

/-- C9: the handler given to `AddGet("/", H)` on the root is stored in the root's
own `Get` field, and the request for path "/" makes `ExecutePath` panic with an
index out of range, for verb GET as for a verb without handler. -/
theorem C9_request_for_root_handler_panics (ops : HandlerOps H Mw Out E Resp)
    (event : RequestEngine Out E Resp) (handler : H) :
    (rootHandlerTree handler : Route H Mw).Get = some handler ∧
    (rootHandlerTree handler : Route H Mw).SubRoutes = [] ∧
    ExecutePath ops { event with GetPath := ['/'], GetHttpVerb := verbGET }
      (rootHandlerTree handler) = .error .indexOutOfRange ∧
    ExecutePath ops { event with GetPath := ['/'], GetHttpVerb := verbPOST }
      (rootHandlerTree handler) = .error .indexOutOfRange := by
  refine ⟨rfl, rfl, ?_, ?_⟩ <;>
    simp [ExecutePath, FindRoute_no_segment, FieldsFunc, fieldsLoop, isSlash]

/-- C10: after `AddGet("/a", h1)` and `AddPost("/a", h2)` on an empty node, the
node has one sub-route "/a"; its GET handler is `h1` and its POST handler is nil,
so GET "/a" resolves to `h1` and POST "/a" resolves to no handler. -/
theorem C10_second_verb_on_existing_child_is_lost (h1 h2 : H) :
    (((Route.new [] : Route H Mw).AddGet "/a".toList h1).AddPost "/a".toList h2).SubRoutes =
      [Route.mk "/a".toList [] [] (some h1) none none none none none] ∧
    FindRoute "/a".toList verbGET
      (((Route.new [] : Route H Mw).AddGet "/a".toList h1).AddPost "/a".toList h2) (some []) [] =
      .ok (some h1, [], some "/a".toList) ∧
    FindRoute "/a".toList verbPOST
      (((Route.new [] : Route H Mw).AddGet "/a".toList h1).AddPost "/a".toList h2) (some []) [] =
      .ok (none, [], some "/a".toList) :=
  ⟨rfl, rfl, rfl⟩

end
end GenericRouter
namespace GenericRouter
section
variable {H Mw : Type}

theorem fieldsLoop_cons_not_sep (f : Char → Bool) (r : Char) (rest cur : GoString)
    (h : f r = false) : fieldsLoop f (r :: rest) cur = fieldsLoop f rest (r :: cur) := by
  cases cur <;> simp [fieldsLoop, h]

theorem fieldsLoop_field (f : Char → Bool) :
    ∀ (c rest cur : GoString), (∀ ch ∈ c, f ch = false) →
      fieldsLoop f (c ++ rest) cur = fieldsLoop f rest (c.reverse ++ cur)
  | [], rest, cur, _ => by simp
  | ch :: c, rest, cur, hc => by
    have h1 : f ch = false := hc ch (by simp)
    have h2 : ∀ x ∈ c, f x = false := fun x hx => hc x (by simp [hx])
    rw [List.cons_append, fieldsLoop_cons_not_sep f ch _ cur h1, fieldsLoop_field f c rest _ h2]
    simp

theorem isSlash_eq_false (ch : Char) (h : ch ≠ '/') : isSlash ch = false := by
  simp [isSlash, h]

theorem FieldsFunc_requestPath :
    ∀ segs : List GoString, (∀ c ∈ segs, c ≠ [] ∧ ∀ ch ∈ c, ch ≠ '/') →
      FieldsFunc (requestPath segs) isSlash = segs
  | [], _ => rfl
  | c :: cs, h => by
    have hc := h c (by simp)
    have hcs : ∀ x ∈ cs, x ≠ [] ∧ ∀ ch ∈ x, ch ≠ '/' := fun x hx => h x (by simp [hx])
    have ih := FieldsFunc_requestPath cs hcs
    have hslash : ∀ ch ∈ c, isSlash ch = false := fun ch hch => isSlash_eq_false ch (hc.2 ch hch)
    unfold FieldsFunc at ih ⊢
    have hstep : fieldsLoop isSlash (requestPath (c :: cs)) [] =
        fieldsLoop isSlash (requestPath cs) c.reverse := by
      simp only [requestPath]
      rw [show fieldsLoop isSlash ('/' :: (c ++ requestPath cs)) [] =
        fieldsLoop isSlash (c ++ requestPath cs) [] from by simp [fieldsLoop, isSlash]]
      rw [fieldsLoop_field isSlash c _ [] hslash]
      simp
    rw [hstep]
    obtain ⟨a, c', hrev⟩ : ∃ a c', c.reverse = a :: c' := by
      cases hr : c.reverse with
      | nil => exact absurd (List.reverse_eq_nil_iff.mp hr) hc.1
      | cons a c' => exact ⟨a, c', rfl⟩
    have hback : (a :: c').reverse = c := by rw [← hrev]; simp
    rw [hrev]
    cases cs with
    | nil => simp [requestPath, fieldsLoop, hback]
    | cons c2 cs2 =>
      simp only [requestPath] at ih ⊢
      simp only [fieldsLoop, isSlash, beq_self_eq_true, if_true] at ih ⊢
      rw [ih, hback]

theorem TrimPrefix_requestPath (c : GoString) (cs : List GoString) :
    TrimPrefix (requestPath (c :: cs)) ('/' :: c) = requestPath cs := by
  have hp : ('/' :: c).isPrefixOf ('/' :: (c ++ requestPath cs)) = true := by
    rw [List.isPrefixOf_iff_prefix]
    exact List.prefix_append ('/' :: c) (requestPath cs)
  simp only [TrimPrefix, requestPath, hp, if_true]
  simp

theorem MatchString_no_slash :
    ∀ s : GoString, (∀ ch ∈ s, ch ≠ '/') → pathParamRegex.MatchString s = false
  | [], _ => rfl
  | ch :: s, h => by
    have h1 : ch ≠ '/' := h ch (by simp)
    have ih := MatchString_no_slash s (fun x hx => h x (by simp [hx]))
    have hat : pathParamAt (ch :: s) = none := by
      unfold pathParamAt
      split
      · rename_i heq
        simp at heq
        exact absurd heq.1 h1
      · rfl
    simp [pathParamRegex.MatchString, hat, ih]

theorem isLiteralChar_ne_slash (ch : Char) (h : isLiteralChar ch = true) : ch ≠ '/' := by
  intro hc
  subst hc
  simp [isLiteralChar] at h

theorem isLiteralChar_not_meta (ch : Char) (h : isLiteralChar ch = true) :
    isRegexMeta ch = false := by
  simp [isLiteralChar] at h
  exact h.2

theorem pathParamAt_literal (t rest : GoString) (ht : t ≠ [])
    (hlit : ∀ ch ∈ t, isLiteralChar ch = true) : pathParamAt ('/' :: (t ++ rest)) = none := by
  cases t with
  | nil => exact absurd rfl ht
  | cons a t' =>
    have ha : isRegexMeta a = false := isLiteralChar_not_meta a (hlit a (by simp))
    unfold pathParamAt
    split
    · rename_i heq
      simp at heq
      have : a = '\x7b' := heq.1
      subst this
      simp [isRegexMeta] at ha
    · rfl

theorem matchPathElement_literal (t c : GoString) (ht : t ≠ [])
    (hlit : ∀ ch ∈ t, isLiteralChar ch = true) :
    matchPathElement ('/' :: t) ('/' :: c) = .ok (t == c) := by
  have hns : ∀ ch ∈ t, ch ≠ '/' := fun ch hch => isLiteralChar_ne_slash ch (hlit ch hch)
  have hfields : FieldsFunc ('/' :: t) isSlash = [t] := by
    have := FieldsFunc_requestPath [t] (by simpa using ⟨ht, hns⟩)
    simpa [requestPath] using this
  have hat : pathParamAt ('/' :: t) = none := by
    simpa using pathParamAt_literal t [] ht hlit
  have hm : pathParamRegex.MatchString ('/' :: t) = false := by
    simp [pathParamRegex.MatchString, hat, MatchString_no_slash t hns]
  simp [matchPathElement, hfields, hm]

theorem captureNameChar (ch : Char) (h : (ch == '_' || isalnum ch) = true) :
    ch ≠ '/' ∧ ch ≠ '\x7d' ∧ ch ≠ '>' := by
  refine ⟨?_, ?_, ?_⟩ <;>
  · rintro rfl
    revert h
    decide

theorem isValidCaptureName_chars (name : GoString) (h : isValidCaptureName name = true) :
    name ≠ [] ∧ ∀ ch ∈ name, ch ≠ '/' ∧ ch ≠ '\x7d' ∧ ch ≠ '>' := by
  simp only [isValidCaptureName, Bool.and_eq_true, Bool.not_eq_true', List.all_eq_true] at h
  refine ⟨?_, fun ch hch => captureNameChar ch (h.2 ch hch)⟩
  intro hn
  subst hn
  simp at h

theorem paramNameAt_name :
    ∀ (name rest : GoString), (∀ ch ∈ name, ch ≠ '/' ∧ ch ≠ '\x7d') →
      paramNameAt (name ++ '\x7d' :: rest) = some name
  | [], rest, _ => by simp [paramNameAt]
  | ch :: name, rest, h => by
    have h1 := h ch (by simp)
    have ih := paramNameAt_name name rest (fun x hx => h x (by simp [hx]))
    simp [paramNameAt, h1.1, h1.2, ih]

theorem replaceLoop_skip (repl : GoString → GoString) :
    ∀ (s rest : GoString) (k : Nat),
      pathParamRegex.replaceLoop repl (s.length + k) (s ++ rest) =
        pathParamRegex.replaceLoop repl k rest
  | [], rest, k => by simp
  | ch :: s, rest, k => by
    have ih := replaceLoop_skip repl s rest k
    have : (ch :: s).length + k = (s.length + k) + 1 := by simp; omega
    rw [this, List.cons_append, pathParamRegex.replaceLoop]
    exact ih

theorem replaceLoop_param (repl : GoString → GoString) (name rest : GoString)
    (h : ∀ ch ∈ name, ch ≠ '/' ∧ ch ≠ '\x7d') :
    pathParamRegex.replaceLoop repl 0 ('/' :: '\x7b' :: (name ++ '\x7d' :: rest)) =
      repl ('/' :: '\x7b' :: (name ++ ['\x7d'])) ++ pathParamRegex.replaceLoop repl 0 rest := by
  have hat : pathParamAt ('/' :: '\x7b' :: (name ++ '\x7d' :: rest)) = some name := by
    simp [pathParamAt, paramNameAt_name name rest h]
  rw [pathParamRegex.replaceLoop, hat]
  simp only
  have hskip := replaceLoop_skip repl ('\x7b' :: (name ++ ['\x7d'])) rest 0
  have hlen : ('\x7b' :: (name ++ ['\x7d'])).length + 0 = name.length + 2 := by simp
  rw [hlen] at hskip
  have happ : '\x7b' :: (name ++ ['\x7d']) ++ rest = '\x7b' :: (name ++ '\x7d' :: rest) := by simp
  rw [happ] at hskip
  rw [hskip]

theorem pathMatch_star (c : GoString) (hc : ∀ ch ∈ c, ch ≠ '/') :
    path.Match ['/', '*'] ('/' :: c) = .ok (true, none) := by
  have hmem : '/' ∉ c := fun hm => hc '/' hm rfl
  simp [path.Match, matchLoop, scanChunk, matchChunk, hmem, Except.map]

theorem matchPathElement_param (name c : GoString) (hname : isValidCaptureName name = true)
    (hc : ∀ ch ∈ c, ch ≠ '/') :
    matchPathElement ('/' :: '\x7b' :: (name ++ ['\x7d'])) ('/' :: c) = .ok true := by
  obtain ⟨_, hchars⟩ := isValidCaptureName_chars name hname
  have hn : ∀ ch ∈ name, ch ≠ '/' ∧ ch ≠ '\x7d' := fun ch hch => ⟨(hchars ch hch).1, (hchars ch hch).2.1⟩
  have hfields : FieldsFunc ('/' :: '\x7b' :: (name ++ ['\x7d'])) isSlash =
      ['\x7b' :: (name ++ ['\x7d'])] := by
    have := FieldsFunc_requestPath ['\x7b' :: (name ++ ['\x7d'])] (by
      intro x hx
      simp only [List.mem_singleton] at hx
      subst hx
      refine ⟨by simp, ?_⟩
      intro ch hch
      simp only [List.mem_cons, List.mem_append, List.mem_singleton, List.not_mem_nil, or_false] at hch
      rcases hch with rfl | hch | rfl
      · decide
      · exact (hn ch hch).1
      · decide)
    simpa [requestPath] using this
  have hat : pathParamAt ('/' :: '\x7b' :: (name ++ ['\x7d'])) = some name := by
    simp [pathParamAt, paramNameAt_name name [] hn]
  have hm : pathParamRegex.MatchString ('/' :: '\x7b' :: (name ++ ['\x7d'])) = true := by
    simp [pathParamRegex.MatchString, hat]
  have hrep : pathParamRegex.ReplaceAllString ('/' :: '\x7b' :: (name ++ ['\x7d'])) ['/', '*'] =
      ['/', '*'] := by
    unfold pathParamRegex.ReplaceAllString pathParamRegex.ReplaceAllFunc
    rw [replaceLoop_param _ name [] hn]
    simp [pathParamRegex.replaceLoop]
  simp only [matchPathElement, hfields, hm, if_true, hrep, pathMatch_star c hc]
  rfl

theorem matchPathElement_agrees (s : Segment) (c : GoString) (hag : s.Agrees c)
    (hc : c ≠ [] ∧ ∀ ch ∈ c, ch ≠ '/') : matchPathElement s.path ('/' :: c) = .ok true := by
  cases s with
  | literal t =>
    obtain ⟨ht, hlit⟩ := hag
    subst ht
    rw [Segment.path, matchPathElement_literal t t hc.1 hlit]
    simp
  | param name => exact matchPathElement_param name c hag hc.2

theorem chainBelow_nil (handler : H) (p : GoString) :
    chainBelow handler [] (Route.new p : Route H Mw) =
      Route.mk p [] [] (some handler) none none none none none := by
  simp [chainBelow, Route.AddGet, Route.addVerb, SetRouteVerb, Route.new]

theorem chainBelow_cons (handler : H) (p : GoString) (s : Segment) (rest : List Segment) :
    chainBelow handler (s :: rest) (Route.new p : Route H Mw) =
      Route.mk p [] [chainBelow handler rest (Route.new s.path)] none none none none none none := by
  simp [chainBelow, Route.AddRoute, Route.withSubRoutes, Route.SubRoutes, Route.new]

theorem Segment.path_ne_nil (s : Segment) : s.path.isEmpty = false := by
  cases s <;> rfl

theorem FindRoute_chainNode (handler : H) :
    ∀ (rest : List Segment) (s : Segment) (c : GoString) (cs : List GoString),
      List.Forall₂ Segment.Agrees (s :: rest) (c :: cs) →
      (∀ x ∈ c :: cs, x ≠ [] ∧ ∀ ch ∈ x, ch ≠ '/') →
      FindRoute (requestPath (c :: cs)) verbGET
          (chainBelow handler rest (Route.new s.path) : Route H Mw) (some []) [] =
        .ok (some handler, [], some ((s :: rest).map Segment.path).flatten)
  | [], s, c, cs, hag, hsegs => by
    have hcs : cs = [] := by
      cases hag with
      | cons _ htl => cases htl; rfl
    subst hcs
    have hhd : s.Agrees c := by
      cases hag with
      | cons hhd _ => exact hhd
    have hfields := FieldsFunc_requestPath [c] hsegs
    have hmatch := matchPathElement_agrees s c hhd (hsegs c (by simp))
    rw [chainBelow_nil]
    simp [FindRoute, hfields, hmatch, Segment.path_ne_nil, getVerb, Route.Get]
  | s2 :: rest, s, c, cs, hag, hsegs => by
    obtain ⟨c2, cs2, hcs⟩ : ∃ c2 cs2, cs = c2 :: cs2 := by
      cases hag with
      | cons _ htl =>
        cases htl with
        | cons _ _ => exact ⟨_, _, rfl⟩
    subst hcs
    have hhd : s.Agrees c := by
      cases hag with
      | cons hhd _ => exact hhd
    have htl : List.Forall₂ Segment.Agrees (s2 :: rest) (c2 :: cs2) := by
      cases hag with
      | cons _ htl => exact htl
    have ih := FindRoute_chainNode handler rest s2 c2 cs2 htl
      (fun x hx => hsegs x (by simp [hx]))
    have hfields := FieldsFunc_requestPath (c :: c2 :: cs2) hsegs
    have hmatch := matchPathElement_agrees s c hhd (hsegs c (by simp))
    rw [chainBelow_cons]
    simp only [FindRoute, hfields, hmatch, Segment.path_ne_nil, TrimPrefix_requestPath,
      findInSubRoutes]
    simp [ih]

theorem FindRoute_chainTree (handler : H) (s : Segment) (rest : List Segment) (c : GoString)
    (cs : List GoString) (hag : List.Forall₂ Segment.Agrees (s :: rest) (c :: cs))
    (hsegs : ∀ x ∈ c :: cs, x ≠ [] ∧ ∀ ch ∈ x, ch ≠ '/') :
    FindRoute (requestPath (c :: cs)) verbGET (chainTree handler (s :: rest) : Route H Mw)
        (some []) [] =
      .ok (some handler, [], some ((s :: rest).map Segment.path).flatten) := by
  have hnode := @FindRoute_chainNode H Mw handler rest s c cs hag hsegs
  have hfields := FieldsFunc_requestPath (c :: cs) hsegs
  rw [chainTree, MakeRoot, chainBelow_cons]
  simp only [FindRoute, hfields, findInSubRoutes]
  simp [hnode]

theorem replaceLoop_no_slash (repl : GoString → GoString) :
    ∀ (t rest : GoString), (∀ ch ∈ t, ch ≠ '/') →
      pathParamRegex.replaceLoop repl 0 (t ++ rest) = t ++ pathParamRegex.replaceLoop repl 0 rest
  | [], rest, _ => by simp
  | ch :: t, rest, h => by
    have h1 : ch ≠ '/' := h ch (by simp)
    have ih := replaceLoop_no_slash repl t rest (fun x hx => h x (by simp [hx]))
    have hat : pathParamAt (ch :: (t ++ rest)) = none := by
      unfold pathParamAt
      split
      · rename_i heq
        simp at heq
        exact absurd heq.1 h1
      · rfl
    rw [List.cons_append, pathParamRegex.replaceLoop, hat]
    simp [ih]

theorem replaceLoop_literal (repl : GoString → GoString) (t rest : GoString) (ht : t ≠ [])
    (hlit : ∀ ch ∈ t, isLiteralChar ch = true) :
    pathParamRegex.replaceLoop repl 0 ('/' :: (t ++ rest)) =
      '/' :: (t ++ pathParamRegex.replaceLoop repl 0 rest) := by
  rw [pathParamRegex.replaceLoop, pathParamAt_literal t rest ht hlit]
  simp only
  rw [replaceLoop_no_slash repl t rest (fun ch hch => isLiteralChar_ne_slash ch (hlit ch hch))]

theorem captureGroupFor_param (name : GoString) :
    captureGroupFor ('/' :: '\x7b' :: (name ++ ['\x7d'])) = (Segment.param name).regexText := by
  have h1 : TrimPrefix ('/' :: '\x7b' :: (name ++ ['\x7d'])) ['/', '\x7b'] = name ++ ['\x7d'] := by
    simp [TrimPrefix, List.isPrefixOf]
  have hs : (['\x7d'] : GoString).isSuffixOf (name ++ ['\x7d']) = true := by
    rw [List.isSuffixOf_iff_suffix]
    exact List.suffix_append name ['\x7d']
  have h2 : TrimSuffix (name ++ ['\x7d']) ['\x7d'] = name := by
    simp [TrimSuffix, hs]
  simp only [captureGroupFor, h1, h2, Segment.regexText]

theorem replaceAll_chain :
    ∀ nodes : List Segment, (∀ s ∈ nodes, s.Valid) →
      pathParamRegex.replaceLoop captureGroupFor 0 (nodes.map Segment.path).flatten =
        (nodes.map Segment.regexText).flatten
  | [], _ => rfl
  | s :: nodes, h => by
    have ih := replaceAll_chain nodes (fun x hx => h x (by simp [hx]))
    have hs := h s (by simp)
    cases s with
    | literal t =>
      obtain ⟨ht, hlit⟩ := hs
      simp only [List.map_cons, List.flatten_cons, Segment.path, Segment.regexText,
        List.cons_append]
      rw [replaceLoop_literal captureGroupFor t _ ht hlit, ih]
    | param name =>
      obtain ⟨_, hchars⟩ := isValidCaptureName_chars name hs
      have hn : ∀ ch ∈ name, ch ≠ '/' ∧ ch ≠ '\x7d' :=
        fun ch hch => ⟨(hchars ch hch).1, (hchars ch hch).2.1⟩
      have hshape : ((Segment.param name :: nodes).map Segment.path).flatten =
          '/' :: '\x7b' :: (name ++ '\x7d' :: (nodes.map Segment.path).flatten) := by
        simp [Segment.path]
      rw [hshape, replaceLoop_param captureGroupFor name _ hn, ih, captureGroupFor_param]
      simp

theorem regexpParse_literal (fuel : Nat) (ch : Char) (rest : GoString)
    (hch : isRegexMeta ch = false) :
    regexpParse (fuel + 1) (ch :: rest) =
      (regexpParse fuel rest).map (fun atoms => RegexAtom.lit ch :: atoms) := by
  have h1 : ch ≠ '$' := by rintro rfl; simp [isRegexMeta] at hch
  have h2 : ch ≠ '\\' := by rintro rfl; simp [isRegexMeta] at hch
  have h3 : ch ≠ '(' := by rintro rfl; simp [isRegexMeta] at hch
  simp [regexpParse, List.isPrefixOf, h1, Ne.symm h2, Ne.symm h3, hch]

theorem regexpParse_group (fuel : Nat) (name rest : GoString)
    (hname : isValidCaptureName name = true) :
    regexpParse (fuel + 2) ((Segment.param name).regexText ++ rest) =
      (regexpParse fuel rest).map (fun atoms => (Segment.param name).atoms ++ atoms) := by
  obtain ⟨_, hchars⟩ := isValidCaptureName_chars name hname
  have htake : ∀ (n tail : GoString), (∀ ch ∈ n, ch ≠ '>') →
      (n ++ '>' :: tail).takeWhile (fun c => c != '>') = n ∧
      (n ++ '>' :: tail).dropWhile (fun c => c != '>') = '>' :: tail := by
    intro n tail hn
    induction n with
    | nil => simp
    | cons a n ih =>
      have ha : (a != '>') = true := by simpa using hn a (by simp)
      have := ih (fun x hx => hn x (by simp [hx]))
      simp [List.takeWhile, List.dropWhile, ha, this]
  have hgt : ∀ ch ∈ name, ch ≠ '>' := fun ch hch => (hchars ch hch).2.2
  obtain ⟨ht, hd⟩ := htake name ('.' :: '*' :: '?' :: ')' :: rest) hgt
  have hshape : (Segment.param name).regexText ++ rest =
      '\\' :: '/' :: '(' :: '?' :: 'P' :: '<' :: (name ++ '>' :: '.' :: '*' :: '?' :: ')' :: rest) := by
    simp [Segment.regexText]
  have hstep2 : regexpParse (fuel + 1)
      ('(' :: '?' :: 'P' :: '<' :: (name ++ '>' :: '.' :: '*' :: '?' :: ')' :: rest)) =
      (regexpParse fuel rest).map (fun atoms => RegexAtom.group name :: atoms) := by
    rw [regexpParse]
    simp [List.isPrefixOf, ht, hd, hname]
  have hstep1 : regexpParse (fuel + 1 + 1)
      ('\\' :: '/' :: '(' :: '?' :: 'P' :: '<' :: (name ++ '>' :: '.' :: '*' :: '?' :: ')' :: rest)) =
      (regexpParse (fuel + 1)
        ('(' :: '?' :: 'P' :: '<' :: (name ++ '>' :: '.' :: '*' :: '?' :: ')' :: rest))).map
        (fun atoms => RegexAtom.lit '/' :: atoms) := by
    rw [regexpParse]
    simp [List.isPrefixOf]
  rw [hshape, show fuel + 2 = fuel + 1 + 1 from rfl, hstep1, hstep2]
  cases regexpParse fuel rest <;> simp [Except.map, Segment.atoms]

theorem regexpParse_literals :
    ∀ (t : GoString) (fuel : Nat) (rest : GoString), (∀ ch ∈ t, isRegexMeta ch = false) →
      regexpParse (fuel + t.length) (t ++ rest) =
        (regexpParse fuel rest).map (fun atoms => t.map RegexAtom.lit ++ atoms)
  | [], fuel, rest, _ => by
    show regexpParse fuel rest = _
    cases regexpParse fuel rest <;> rfl
  | ch :: t, fuel, rest, h => by
    have ih := regexpParse_literals t fuel rest (fun x hx => h x (by simp [hx]))
    have hlen : fuel + (ch :: t).length = (fuel + t.length) + 1 := by simp; omega
    rw [hlen, List.cons_append, regexpParse_literal _ ch _ (h ch (by simp)), ih]
    cases regexpParse fuel rest <;> simp [Except.map]

theorem regexpParse_chain :
    ∀ (nodes : List Segment), (∀ s ∈ nodes, s.Valid) → ∀ fuel : Nat,
      ((nodes.map Segment.regexText).flatten ++ ['$']).length ≤ fuel →
      regexpParse fuel ((nodes.map Segment.regexText).flatten ++ ['$']) =
        .ok (nodes.map Segment.atoms).flatten
  | [], _, fuel, hfuel => by
    obtain ⟨f, rfl⟩ : ∃ f, fuel = f + 1 := ⟨fuel - 1, by simp at hfuel; omega⟩
    simp [regexpParse]
  | s :: nodes, h, fuel, hfuel => by
    have hs := h s (by simp)
    have ih := regexpParse_chain nodes (fun x hx => h x (by simp [hx]))
    cases s with
    | literal t =>
      obtain ⟨_, hlit⟩ := hs
      have hmeta : ∀ ch ∈ t, isRegexMeta ch = false :=
        fun ch hch => isLiteralChar_not_meta ch (hlit ch hch)
      simp only [List.map_cons, List.flatten_cons, Segment.regexText, Segment.atoms,
        List.cons_append, List.append_assoc, List.length_cons, List.length_append] at hfuel ⊢
      obtain ⟨f, rfl⟩ : ∃ f, fuel = (f + t.length) + 1 := ⟨fuel - t.length - 1, by omega⟩
      have hf : ((nodes.map Segment.regexText).flatten ++ ['$']).length ≤ f := by
        simp only [List.length_append, List.length_cons, List.length_nil]
        simp only [List.length_cons, List.length_nil] at hfuel
        omega
      rw [regexpParse_literal _ '/' _ (by decide), regexpParse_literals t f _ hmeta, ih f hf]
      simp [Except.map]
    | param name =>
      simp only [List.map_cons, List.flatten_cons, List.append_assoc, List.length_append] at hfuel ⊢
      have hlen : 2 ≤ (Segment.param name).regexText.length := by simp [Segment.regexText]
      obtain ⟨f, rfl⟩ : ∃ f, fuel = f + 2 := ⟨fuel - 2, by omega⟩
      have hf : ((nodes.map Segment.regexText).flatten ++ ['$']).length ≤ f := by
        simp only [List.length_append]
        omega
      rw [regexpParse_group f name _ hs, ih f hf]
      simp [Except.map]

theorem matchHere_literals (atoms : List RegexAtom) :
    ∀ (t s : GoString), matchHere (t.map RegexAtom.lit ++ atoms) (t ++ s) = matchHere atoms s
  | [], s => rfl
  | ch :: t, s => by
    simp [matchHere, matchHere_literals atoms t s]

theorem chainAtoms_head (nodes : List Segment) :
    (nodes.map Segment.atoms).flatten = [] ∨
      ∃ atoms, (nodes.map Segment.atoms).flatten = RegexAtom.lit '/' :: atoms := by
  cases nodes with
  | nil => exact Or.inl rfl
  | cons s rest =>
    right
    cases s with
    | literal t =>
      exact ⟨t.map RegexAtom.lit ++ (rest.map Segment.atoms).flatten, by simp [Segment.atoms]⟩
    | param name =>
      exact ⟨RegexAtom.group name :: (rest.map Segment.atoms).flatten, by simp [Segment.atoms]⟩

theorem matchHere_chain_no_slash (nodes : List Segment) (d : Char) (t : GoString) (hd : d ≠ '/') :
    matchHere (nodes.map Segment.atoms).flatten (d :: t) = none := by
  rcases chainAtoms_head nodes with h | ⟨atoms, h⟩
  · rw [h]
    simp [matchHere]
  · rw [h]
    simp [matchHere, Ne.symm hd]

theorem lazyGroup_segment (k : GoString → Option (List GoString)) (caps : List GoString)
    (tail : GoString) (hk : ∀ d t, d ≠ '/' → k (d :: t) = none) (htail : k tail = some caps) :
    ∀ (c acc : GoString), (∀ ch ∈ c, ch ≠ '/' ∧ ch ≠ '\n') →
      lazyGroup k acc (c ++ tail) = some ((acc.reverse ++ c) :: caps)
  | [], acc, _ => by
    cases tail with
    | nil => simp [lazyGroup, htail]
    | cons x s => simp [lazyGroup, htail]
  | ch :: c, acc, h => by
    have h1 := h ch (by simp)
    have ih := lazyGroup_segment k caps tail hk htail c (ch :: acc)
      (fun x hx => h x (by simp [hx]))
    rw [List.cons_append, lazyGroup, hk ch _ h1.1]
    simp [h1.2, ih]

theorem matchHere_chain :
    ∀ (nodes : List Segment) (segs : List GoString),
      List.Forall₂ Segment.Agrees nodes segs →
      (∀ c ∈ segs, c ≠ [] ∧ ∀ ch ∈ c, ch ≠ '/' ∧ ch ≠ '\n') →
      matchHere (nodes.map Segment.atoms).flatten (requestPath segs) =
        some ((boundParams nodes segs).map Prod.snd)
  | [], [], _, _ => by simp [matchHere, requestPath, boundParams]
  | [], _ :: _, hag, _ => by cases hag
  | _ :: _, [], hag, _ => by cases hag
  | s :: nodes, c :: cs, hag, hsegs => by
    have hhd : s.Agrees c := by
      cases hag with
      | cons hhd _ => exact hhd
    have htl : List.Forall₂ Segment.Agrees nodes cs := by
      cases hag with
      | cons _ htl => exact htl
    have ih := matchHere_chain nodes cs htl (fun x hx => hsegs x (by simp [hx]))
    have hc := hsegs c (by simp)
    cases s with
    | literal t =>
      obtain ⟨ht, _⟩ := hhd
      subst ht
      simp only [List.map_cons, List.flatten_cons, Segment.atoms, requestPath, boundParams,
        List.cons_append]
      rw [matchHere]
      simp only [if_true]
      rw [matchHere_literals, ih]
    | param name =>
      simp only [List.map_cons, List.flatten_cons, Segment.atoms, requestPath, boundParams,
        List.cons_append, List.nil_append]
      rw [matchHere]
      simp only [if_true]
      rw [matchHere, lazyGroup_segment _ _ (requestPath cs)
        (fun d t hd => matchHere_chain_no_slash nodes d t hd) ih c [] hc.2]
      simp

theorem FindStringSubmatch_chain (nodes : List Segment) (c : GoString) (cs : List GoString)
    (hag : List.Forall₂ Segment.Agrees nodes (c :: cs))
    (hsegs : ∀ x ∈ c :: cs, x ≠ [] ∧ ∀ ch ∈ x, ch ≠ '/' ∧ ch ≠ '\n') :
    Regexp.FindStringSubmatch ⟨(nodes.map Segment.atoms).flatten⟩ (requestPath (c :: cs)) =
      some ((boundParams nodes (c :: cs)).map Prod.snd) := by
  have h := matchHere_chain nodes (c :: cs) hag hsegs
  simp only [requestPath] at h ⊢
  rw [Regexp.FindStringSubmatch, h]

theorem SubexpNames_chain :
    ∀ nodes : List Segment,
      Regexp.SubexpNames ⟨(nodes.map Segment.atoms).flatten⟩ = paramNames nodes
  | [] => rfl
  | .literal t :: nodes => by
    have ih := SubexpNames_chain nodes
    simp only [Regexp.SubexpNames] at ih ⊢
    simp [Segment.atoms, paramNames, List.filterMap_append, ih, List.filterMap_map]
  | .param name :: nodes => by
    have ih := SubexpNames_chain nodes
    simp only [Regexp.SubexpNames] at ih ⊢
    simp [Segment.atoms, paramNames, ih]

theorem paramNames_eq_keys :
    ∀ (nodes : List Segment) (segs : List GoString), List.Forall₂ Segment.Agrees nodes segs →
      paramNames nodes = (boundParams nodes segs).map Prod.fst
  | [], [], _ => rfl
  | [], _ :: _, hag => by cases hag
  | _ :: _, [], hag => by cases hag
  | s :: nodes, c :: cs, hag => by
    have htl : List.Forall₂ Segment.Agrees nodes cs := by
      cases hag with
      | cons _ htl => exact htl
    have ih := paramNames_eq_keys nodes cs htl
    cases s <;> simp [paramNames, boundParams, ih]

theorem GoMap.set_new :
    ∀ (m : GoMap) (k v : GoString), k ∉ m.map Prod.fst → GoMap.set m k v = m ++ [(k, v)]
  | [], k, v, _ => rfl
  | (k0, v0) :: m, k, v, h => by
    have hne : k0 ≠ k := fun he => h (by simp [he])
    have ih := GoMap.set_new m k v (fun hm => h (by simp [hm]))
    simp [GoMap.set, hne, ih]

theorem fillSubMatchMap_distinct :
    ∀ (m acc : GoMap), (acc.map Prod.fst ++ m.map Prod.fst).Nodup →
      fillSubMatchMap (m.map Prod.fst) (m.map Prod.snd) acc = acc ++ m
  | [], acc, _ => by simp [fillSubMatchMap]
  | (k, v) :: m, acc, h => by
    have hk : k ∉ acc.map Prod.fst := by
      intro hmem
      rw [List.nodup_append] at h
      exact h.2.2 hmem (by simp)
    have hnext : ((acc ++ [(k, v)]).map Prod.fst ++ m.map Prod.fst).Nodup := by
      simpa [List.map_append, List.append_assoc] using h
    have ih := fillSubMatchMap_distinct m (acc ++ [(k, v)]) hnext
    simp only [List.map_cons, fillSubMatchMap, GoMap.set_new acc k v hk, ih]
    simp

theorem Segment.valid_of_agrees (s : Segment) (c : GoString) (hag : s.Agrees c) (hc : c ≠ []) :
    s.Valid := by
  cases s with
  | literal t =>
    obtain ⟨ht, hlit⟩ := hag
    subst ht
    exact ⟨hc, hlit⟩
  | param name => exact hag

theorem chain_valid :
    ∀ (nodes : List Segment) (segs : List GoString), List.Forall₂ Segment.Agrees nodes segs →
      (∀ c ∈ segs, c ≠ []) → ∀ s ∈ nodes, s.Valid
  | [], _, _, _ => by simp
  | _ :: _, [], hag, _ => by cases hag
  | s :: nodes, c :: cs, hag, hsegs => by
    have hhd : s.Agrees c := by
      cases hag with
      | cons hhd _ => exact hhd
    have htl : List.Forall₂ Segment.Agrees nodes cs := by
      cases hag with
      | cons _ htl => exact htl
    have ih := chain_valid nodes cs htl (fun x hx => hsegs x (by simp [hx]))
    intro x hx
    rcases List.mem_cons.mp hx with rfl | hx
    · exact Segment.valid_of_agrees _ c hhd (hsegs c (by simp))
    · exact ih x hx

theorem ExtractPathParameters_chain (nodes : List Segment) (c : GoString) (cs : List GoString)
    (hag : List.Forall₂ Segment.Agrees nodes (c :: cs))
    (hsegs : ∀ x ∈ c :: cs, x ≠ [] ∧ ∀ ch ∈ x, ch ≠ '/' ∧ ch ≠ '\n')
    (hdistinct : (paramNames nodes).Nodup) :
    ExtractPathParameters (requestPath (c :: cs)) (nodes.map Segment.path).flatten =
      .ok (.ok (boundParams nodes (c :: cs))) := by
  have hvalid := chain_valid nodes (c :: cs) hag (fun x hx => (hsegs x hx).1)
  have hparse := regexpParse_chain nodes hvalid
    (((nodes.map Segment.regexText).flatten ++ ['$']).length + 1) (Nat.le_succ _)
  have hcompile : regexp.Compile ((nodes.map Segment.regexText).flatten ++ ['$']) =
      .compiled ⟨(nodes.map Segment.atoms).flatten⟩ := by
    simp only [regexp.Compile, hparse]
  have hfind := FindStringSubmatch_chain nodes c cs hag hsegs
  have hnames := SubexpNames_chain nodes
  have hkeys := paramNames_eq_keys nodes (c :: cs) hag
  have hfill := fillSubMatchMap_distinct (boundParams nodes (c :: cs)) []
    (by simpa [← hkeys] using hdistinct)
  simp only [ExtractPathParameters, pathParamRegex.ReplaceAllFunc, replaceAll_chain nodes hvalid,
    hcompile, hfind, hnames, hkeys, hfill]
  simp

theorem GoMap.get_absent :
    ∀ (m : GoMap) (key : GoString), key ∉ m.map Prod.fst → GoMap.get m key = none
  | [], _, _ => rfl
  | (k0, v0) :: m, key, h => by
    have hne : k0 ≠ key := fun he => h (by simp [he])
    simp [GoMap.get, hne, GoMap.get_absent m key (fun hm => h (by simp [hm]))]

theorem param_mem_paramNames :
    ∀ (nodes : List Segment) (i : Nat) (name : GoString),
      nodes[i]? = some (.param name) → name ∈ paramNames nodes
  | [], i, name, h => by simp at h
  | s :: nodes, 0, name, h => by
    simp at h
    subst h
    simp [paramNames]
  | s :: nodes, i + 1, name, h => by
    have ih := param_mem_paramNames nodes i name (by simpa using h)
    cases s <;> simp [paramNames, ih]

theorem boundParams_get :
    ∀ (nodes : List Segment) (segs : List GoString), List.Forall₂ Segment.Agrees nodes segs →
      (paramNames nodes).Nodup → ∀ (i : Nat) (name : GoString),
      nodes[i]? = some (.param name) → GoMap.get (boundParams nodes segs) name = segs[i]?
  | [], _, _, _, i, name, h => by simp at h
  | _ :: _, [], hag, _, _, _, _ => by cases hag
  | s :: nodes, c :: cs, hag, hd, i, name, h => by
    have htl : List.Forall₂ Segment.Agrees nodes cs := by
      cases hag with
      | cons _ htl => exact htl
    cases s with
    | literal t =>
      have hd2 : (paramNames nodes).Nodup := by simpa [paramNames] using hd
      cases i with
      | zero => simp at h
      | succ j =>
        have := boundParams_get nodes cs htl hd2 j name (by simpa using h)
        simpa [boundParams] using this
    | param n =>
      have hd2 : n ∉ paramNames nodes ∧ (paramNames nodes).Nodup := by
        simpa [paramNames] using hd
      cases i with
      | zero =>
        have : n = name := by simpa using h
        subst this
        simp [boundParams, GoMap.get]
      | succ j =>
        have hj : nodes[j]? = some (.param name) := by simpa using h
        have hmem := param_mem_paramNames nodes j name hj
        have hne : n ≠ name := fun he => hd2.1 (he ▸ hmem)
        have := boundParams_get nodes cs htl hd2.2 j name hj
        simpa [boundParams, GoMap.get, hne] using this

/-- Every request "/c1/.../ck" of non-empty segments without slash and without
line feed, sent to a chain of k single-segment nodes that are literals equal to
their segment or dynamic segments with distinct valid names, resolves to the
handler of the last node with the chain's paths as parameterised path, and
`ExtractPathParameters` returns the mapping that sends the name of each dynamic
node to the segment at its position and has no other entry. -/
theorem chain_request_resolves_and_binds (handler : H) (nodes : List Segment)
    (segs : List GoString) (hne : nodes ≠ [])
    (hag : List.Forall₂ Segment.Agrees nodes segs)
    (hsegs : ∀ c ∈ segs, c ≠ [] ∧ ∀ ch ∈ c, ch ≠ '/' ∧ ch ≠ '\n')
    (hdistinct : (paramNames nodes).Nodup) :
    FindRoute (requestPath segs) verbGET (chainTree handler nodes : Route H Mw) (some []) [] =
      .ok (some handler, [], some (nodes.map Segment.path).flatten) ∧
    ExtractPathParameters (requestPath segs) (nodes.map Segment.path).flatten =
      .ok (.ok (boundParams nodes segs)) ∧
    (∀ (i : Nat) (name : GoString), nodes[i]? = some (.param name) →
      GoMap.get (boundParams nodes segs) name = segs[i]?) ∧
    (∀ key : GoString, key ∉ paramNames nodes → GoMap.get (boundParams nodes segs) key = none) := by
  cases nodes with
  | nil => exact absurd rfl hne
  | cons s rest =>
    cases segs with
    | nil => cases hag
    | cons c cs =>
      refine ⟨?_, ?_, ?_, ?_⟩
      · exact FindRoute_chainTree handler s rest c cs hag
          (fun x hx => ⟨(hsegs x hx).1, fun ch hch => ((hsegs x hx).2 ch hch).1⟩)
      · exact ExtractPathParameters_chain (s :: rest) c cs hag hsegs hdistinct
      · exact boundParams_get (s :: rest) (c :: cs) hag hdistinct
      · intro key hkey
        apply GoMap.get_absent
        rw [← paramNames_eq_keys (s :: rest) (c :: cs) hag]
        exact hkey

/-- The chain theorem at the example of the comment of `FindRoute`:
"/abc/123/def" on "/abc" -> "/{myVar}" -> "/def". -/
theorem chain_request_resolves_and_binds_witness :
    FindRoute "/abc/123/def".toList verbGET (exampleTree 7 : Route Nat Nat) (some []) [] =
      .ok (some 7, [], some "/abc/{myVar}/def".toList) ∧
    ExtractPathParameters "/abc/123/def".toList "/abc/{myVar}/def".toList =
      .ok (.ok [("myVar".toList, "123".toList)]) :=
  have h := @chain_request_resolves_and_binds Nat Nat 7
    [.literal "abc".toList, .param "myVar".toList, .literal "def".toList]
    ["abc".toList, "123".toList, "def".toList] (by simp)
    (.cons ⟨rfl, by decide⟩
      (.cons (show isValidCaptureName "myVar".toList = true by decide)
        (.cons ⟨rfl, by decide⟩ .nil)))
    (by decide) (by decide)
  ⟨h.1, h.2.1⟩

end
end GenericRouter
namespace GenericRouter
section
variable {H Mw Out E Resp : Type}

theorem applyMiddlewares_calls (ops : HandlerOps H Mw Out E Resp) :
    ∀ (mws : List Mw) (h : H), ∀ c ∈ (applyMiddlewares ops mws h).2, ∃ m h0, c = Call.Middleware m h0
  | [], h, c, hc => by simp [applyMiddlewares] at hc
  | m :: rest, h, c, hc => by
    cases hm : ops.Middleware m h with
    | error e =>
      simp only [applyMiddlewares, hm, List.mem_singleton] at hc
      exact ⟨m, h, hc⟩
    | ok h1 =>
      simp only [applyMiddlewares, hm, List.mem_cons] at hc
      rcases hc with hc | hc
      · exact ⟨m, h, hc⟩
      · exact applyMiddlewares_calls ops rest h1 c hc

theorem filter_isFormatOutput_middlewares (calls : List (Call H Mw Out E))
    (h : ∀ c ∈ calls, ∃ m h0, c = Call.Middleware m h0) :
    calls.filter Call.isFormatOutput = [] := by
  rw [List.filter_eq_nil_iff]
  intro c hc
  obtain ⟨m, h0, rfl⟩ := h c hc
  simp [Call.isFormatOutput]

theorem ExecuteHandler_formats_once (ops : HandlerOps H Mw Out E Resp)
    (event : RequestEngine Out E Resp) (handler : H) :
    ∃ out e, (ExecuteHandler ops event handler).2.getLast? = some (Call.FormatOutput out e) ∧
      (ExecuteHandler ops event handler).1 = event.FormatOutput out e ∧
      ((ExecuteHandler ops event handler).2.filter Call.isFormatOutput).length = 1 := by
  cases hpre : ops.PreExecution handler event with
  | error e => exact ⟨none, some e, by simp [ExecuteHandler, hpre, Call.isFormatOutput]⟩
  | ok h1 =>
    cases hex : ops.Execution h1 event with
    | error e => exact ⟨none, some e, by simp [ExecuteHandler, hpre, hex, Call.isFormatOutput]⟩
    | ok out =>
      cases hpost : ops.PostExecution h1 event out with
      | error e =>
        exact ⟨none, some e, by simp [ExecuteHandler, hpre, hex, hpost, Call.isFormatOutput]⟩
      | ok out1 =>
        exact ⟨out1, none, by simp [ExecuteHandler, hpre, hex, hpost, Call.isFormatOutput]⟩

/-- Whenever `ExecutePath` returns, its value is the result of a call of
`FormatOutput`, that call is the last call it makes, and it is the only call of
`FormatOutput`. -/
theorem ExecutePath_formats_exactly_once (ops : HandlerOps H Mw Out E Resp)
    (event : RequestEngine Out E Resp) (root : Route H Mw) (resp : Resp)
    (calls : List (Call H Mw Out E)) (hrun : ExecutePath ops event root = .ok (resp, calls)) :
    ∃ out e, calls.getLast? = some (Call.FormatOutput out e) ∧
      resp = event.FormatOutput out e ∧
      (calls.filter Call.isFormatOutput).length = 1 := by
  unfold ExecutePath at hrun
  cases hfind : FindRoute event.GetPath event.GetHttpVerb root (some []) [] with
  | error a => simp [hfind] at hrun
  | ok res =>
    obtain ⟨hd, mws, pp⟩ := res
    cases hd with
    | none =>
      simp only [hfind, Except.ok.injEq, Prod.mk.injEq] at hrun
      obtain ⟨rfl, rfl⟩ := hrun
      exact ⟨_, _, rfl, rfl, rfl⟩
    | some handler =>
      simp only [hfind] at hrun
      cases hext : ExtractPathParameters event.GetPath (pp.getD []) with
      | error a => simp [hext] at hrun
      | ok ext =>
        cases ext with
        | error tmp =>
          simp only [hext, Except.ok.injEq, Prod.mk.injEq] at hrun
          obtain ⟨rfl, rfl⟩ := hrun
          exact ⟨_, _, rfl, rfl, rfl⟩
        | ok params =>
          simp only [hext] at hrun
          have hmw := applyMiddlewares_calls ops mws (ops.SetPathParams handler params)
          have hnil := filter_isFormatOutput_middlewares _ hmw
          cases happ : applyMiddlewares ops mws (ops.SetPathParams handler params) with
          | mk result mcalls =>
            rw [happ] at hnil
            cases result with
            | error err =>
              simp only [happ, Except.ok.injEq, Prod.mk.injEq] at hrun
              obtain ⟨rfl, rfl⟩ := hrun
              refine ⟨none, some (NewRouterExecutionError RouterExecutionMiddlewareExecutionError
                (some (err.Error ops.errorText))), ?_, rfl, ?_⟩
              · rw [getLast?_cons_ne_nil _ _ (by simp), List.getLast?_concat]
              · have hnil2 : List.filter Call.isFormatOutput mcalls = [] := hnil
                simp [List.filter_cons, List.filter_append, hnil2, Call.isFormatOutput]
            | ok h =>
              simp only [happ, Except.ok.injEq, Prod.mk.injEq] at hrun
              obtain ⟨rfl, rfl⟩ := hrun
              obtain ⟨out, e, hlast, hresp, hcount⟩ := ExecuteHandler_formats_once ops event h
              have hnil2 : List.filter Call.isFormatOutput mcalls = [] := hnil
              refine ⟨out, e, ?_, hresp, ?_⟩
              · have hne : (ExecuteHandler ops event h).2 ≠ [] := by
                  intro hempty
                  rw [hempty] at hlast
                  simp at hlast
                rw [getLast?_cons_ne_nil _ _ (by simp [hne]), List.getLast?_append_of_ne_nil _ hne]
                exact hlast
              · simp [List.filter_cons, List.filter_append, hnil2, Call.isFormatOutput, hcount]

end
end GenericRouter

namespace GenericRouter

/-- The single `FormatOutput` call at a concrete run: GET "/abc" on the tree with
the root middleware 1 and the leaf middleware 2. -/
theorem ExecutePath_formats_exactly_once_witness :
    ∃ out e,
      [Call.SetPathParams [7] [], Call.Middleware 2 [7, 100], Call.Middleware 1 [2, 7, 100],
        Call.PreExecution [1, 2, 7, 100], Call.Execution [1, 2, 7, 100],
        Call.PostExecution [1, 2, 7, 100] (some 110),
        (Call.FormatOutput (some 111) none : Call (List Nat) Nat Nat Nat)].getLast? =
          some (Call.FormatOutput out e) ∧
      ((some 111, none) : SampleResp) = (sampleEvent "/abc".toList verbGET).FormatOutput out e ∧
      ([Call.SetPathParams [7] [], Call.Middleware 2 [7, 100], Call.Middleware 1 [2, 7, 100],
        Call.PreExecution [1, 2, 7, 100], Call.Execution [1, 2, 7, 100],
        Call.PostExecution [1, 2, 7, 100] (some 110),
        (Call.FormatOutput (some 111) none : Call (List Nat) Nat Nat Nat)].filter
          Call.isFormatOutput).length = 1 :=
  ExecutePath_formats_exactly_once sampleOps (sampleEvent "/abc".toList verbGET) middlewareTree
    (some 111, none) _ rfl

end GenericRouter

namespace GenericRouter
section
variable {H Mw Out E Resp : Type}

/-- C11: assigning a verb twice through the path "/" leaves the second handler on
the node itself, for each of the six verbs and every node; assigning GET twice
through the child path "/a" on an empty node leaves one sub-route "/a" whose GET
handler is the first handler `h1`, and GET "/a" resolves to `h1`. -/
theorem C11_second_assignment_on_child_path_is_lost (r : Route H Mw) (h1 h2 : H) :
    (getVerb ((r.AddGet ['/'] h1).AddGet ['/'] h2) verbGET = some h2 ∧
      getVerb ((r.AddPost ['/'] h1).AddPost ['/'] h2) verbPOST = some h2 ∧
      getVerb ((r.AddPut ['/'] h1).AddPut ['/'] h2) verbPUT = some h2 ∧
      getVerb ((r.AddDelete ['/'] h1).AddDelete ['/'] h2) verbDELETE = some h2 ∧
      getVerb ((r.AddPatch ['/'] h1).AddPatch ['/'] h2) verbPATCH = some h2 ∧
      getVerb ((r.AddHead ['/'] h1).AddHead ['/'] h2) verbHEAD = some h2) ∧
    (((Route.new [] : Route H Mw).AddGet "/a".toList h1).AddGet "/a".toList h2).SubRoutes =
      [Route.mk "/a".toList [] [] (some h1) none none none none none] ∧
    FindRoute "/a".toList verbGET
      (((Route.new [] : Route H Mw).AddGet "/a".toList h1).AddGet "/a".toList h2) (some []) [] =
      .ok (some h1, [], some "/a".toList) := by
  refine ⟨?_, rfl, rfl⟩
  cases r
  exact ⟨rfl, rfl, rfl, rfl, rfl, rfl⟩

/-- C13: "/abc/def" and "//abc/def" have the same segments, "abc" and "def"; on the
tree "/abc" -> "/def" the first resolves to the handler and the second to no
handler. -/
theorem C13_duplicate_leading_slash_loses_the_route (handler : H) :
    FieldsFunc "/abc/def".toList isSlash = ["abc".toList, "def".toList] ∧
    FieldsFunc "//abc/def".toList isSlash = ["abc".toList, "def".toList] ∧
    FindRoute "/abc/def".toList verbGET (literalTree handler : Route H Mw) (some []) [] =
      .ok (some handler, [], some "/abc/def".toList) ∧
    FindRoute "//abc/def".toList verbGET (literalTree handler : Route H Mw) (some []) [] =
      .ok (none, [], some []) ∧
    TrimPrefix "//abc/def".toList "/abc".toList = "//abc/def".toList :=
  ⟨rfl, rfl, rfl, rfl, rfl⟩

/-- C14: on the tree "/abc" -> "/{id}" the request "/abc/123/" resolves, and the
mapping passed to `SetPathParams` binds id to "123/", which holds a slash; for
"/abc//123" it binds id to "/123". -/
theorem C14_trailing_slash_is_bound_with_the_segment :
    ExecutePath sampleOps (sampleEvent "/abc/123/".toList verbGET) (dynamicLeafTree [7]) =
      .ok ((some 109, none),
        [Call.SetPathParams [7] [("id".toList, "123/".toList)],
          Call.PreExecution [7, 101], Call.Execution [7, 101],
          Call.PostExecution [7, 101] (some 108), Call.FormatOutput (some 109) none]) ∧
    FindRoute "/abc/123/".toList verbGET (dynamicLeafTree [7] : Route (List Nat) Nat) (some []) [] =
      .ok (some [7], [], some "/abc/{id}".toList) ∧
    ExtractPathParameters "/abc/123/".toList "/abc/{id}".toList =
      .ok (.ok [("id".toList, "123/".toList)]) ∧
    ExtractPathParameters "/abc//123".toList "/abc/{id}".toList =
      .ok (.ok [("id".toList, "/123".toList)]) :=
  ⟨rfl, rfl, rfl, rfl⟩

/-- C18: for the path "/zzz/abc/123", which carries the leading "/zzz" that the
parameterised path "/abc/{id}" does not have, `ExtractPathParameters` returns
the mapping that sends id to "123", without error. -/
theorem C18_extraction_is_anchored_at_the_end_only :
    ExtractPathParameters "/zzz/abc/123".toList "/abc/{id}".toList =
      .ok (.ok [("id".toList, "123".toList)]) ∧
    GoMap.get [("id".toList, "123".toList)] "id".toList = some "123".toList :=
  ⟨rfl, rfl⟩

end
end GenericRouter

namespace GenericRouter
section
variable {H Mw Out E Resp : Type}

theorem fieldsLoop_no_sep (f : Char → Bool) :
    ∀ (s cur : GoString), (∀ ch ∈ cur, f ch = false) →
      ∀ seg ∈ fieldsLoop f s cur, seg ≠ [] ∧ ∀ ch ∈ seg, f ch = false
  | [], [], _, seg, hseg => by simp [fieldsLoop] at hseg
  | [], c :: cur, hcur, seg, hseg => by
    simp only [fieldsLoop, List.mem_singleton] at hseg
    subst hseg
    refine ⟨by simp, ?_⟩
    intro ch hch
    exact hcur ch (List.mem_reverse.mp hch)
  | r :: rest, [], hcur, seg, hseg => by
    by_cases hr : f r = true
    · simp only [fieldsLoop, hr, if_true] at hseg
      exact fieldsLoop_no_sep f rest [] (by simp) seg hseg
    · have hr' : f r = false := by simpa using hr
      simp only [fieldsLoop, hr', Bool.false_eq_true, if_false] at hseg
      exact fieldsLoop_no_sep f rest [r] (by simpa using hr') seg hseg
  | r :: rest, c :: cur, hcur, seg, hseg => by
    by_cases hr : f r = true
    · simp only [fieldsLoop, hr, if_true, List.mem_cons] at hseg
      rcases hseg with hseg | hseg
      · subst hseg
        refine ⟨by simp, ?_⟩
        intro ch hch
        exact hcur ch (List.mem_reverse.mp hch)
      · exact fieldsLoop_no_sep f rest [] (by simp) seg hseg
    · have hr' : f r = false := by simpa using hr
      simp only [fieldsLoop, hr', Bool.false_eq_true, if_false] at hseg
      refine fieldsLoop_no_sep f rest (r :: c :: cur) ?_ seg hseg
      intro ch hch
      rcases List.mem_cons.mp hch with rfl | hch
      · exact hr'
      · exact hcur ch hch

/-- Every field that `FieldsFunc` returns is non-empty and holds no slash. -/
theorem FieldsFunc_fields (p : GoString) :
    ∀ seg ∈ FieldsFunc p isSlash, seg ≠ [] ∧ ∀ ch ∈ seg, ch ≠ '/' := by
  intro seg hseg
  obtain ⟨hne, hns⟩ := fieldsLoop_no_sep isSlash p [] (by simp) seg hseg
  refine ⟨hne, ?_⟩
  intro ch hch hc
  have := hns ch hch
  simp [isSlash, hc] at this

theorem fieldsLoop_ne_nil (f : Char → Bool) :
    ∀ (s cur : GoString), (cur ≠ [] ∨ ∃ ch ∈ s, f ch = false) → fieldsLoop f s cur ≠ []
  | [], [], h => by
    rcases h with h | ⟨ch, hch, _⟩
    · exact absurd rfl h
    · simp at hch
  | [], c :: cur, _ => by simp [fieldsLoop]
  | r :: rest, [], h => by
    by_cases hr : f r = true
    · simp only [fieldsLoop, hr, if_true]
      apply fieldsLoop_ne_nil f rest []
      right
      rcases h with h | ⟨ch, hch, hf⟩
      · exact absurd rfl h
      · rcases List.mem_cons.mp hch with rfl | hch
        · rw [hr] at hf
          cases hf
        · exact ⟨ch, hch, hf⟩
    · have hr' : f r = false := by simpa using hr
      simp only [fieldsLoop, hr', Bool.false_eq_true, if_false]
      exact fieldsLoop_ne_nil f rest [r] (Or.inl (by simp))
  | r :: rest, c :: cur, _ => by
    by_cases hr : f r = true
    · simp [fieldsLoop, hr]
    · have hr' : f r = false := by simpa using hr
      simp only [fieldsLoop, hr', Bool.false_eq_true, if_false]
      exact fieldsLoop_ne_nil f rest (r :: c :: cur) (Or.inl (by simp))

/-- A string with a character that is no slash has a field. -/
theorem FieldsFunc_ne_nil (p : GoString) (h : ∃ ch ∈ p, ch ≠ '/') :
    FieldsFunc p isSlash ≠ [] := by
  obtain ⟨ch, hch, hne⟩ := h
  exact fieldsLoop_ne_nil isSlash p [] (Or.inr ⟨ch, hch, isSlash_eq_false ch hne⟩)

/-- A node whose first segment is not a dynamic segment is matched by equality
of "/" followed by that segment with the element. -/
theorem matchPathElement_not_dynamic (p e split0 : GoString) (tl : List GoString)
    (hfields : FieldsFunc p isSlash = split0 :: tl)
    (hlit : pathParamRegex.MatchString ('/' :: split0) = false) :
    matchPathElement p e = .ok (('/' :: split0) == e) := by
  simp [matchPathElement, hfields, hlit]

/-- A node "/{name}" matches "/" followed by any segment without slash. -/
theorem matchPathElement_dynamic (name c : GoString)
    (hn : ∀ ch ∈ name, ch ≠ '/' ∧ ch ≠ '\x7d') (hc : ∀ ch ∈ c, ch ≠ '/') :
    matchPathElement ('/' :: '\x7b' :: (name ++ ['\x7d'])) ('/' :: c) = .ok true := by
  have hfields : FieldsFunc ('/' :: '\x7b' :: (name ++ ['\x7d'])) isSlash =
      ['\x7b' :: (name ++ ['\x7d'])] := by
    have := FieldsFunc_requestPath ['\x7b' :: (name ++ ['\x7d'])] (by
      intro x hx
      simp only [List.mem_singleton] at hx
      subst hx
      refine ⟨by simp, ?_⟩
      intro ch hch
      simp only [List.mem_cons, List.mem_append, List.mem_singleton, List.not_mem_nil, or_false] at hch
      rcases hch with rfl | hch | rfl
      · decide
      · exact (hn ch hch).1
      · decide)
    simpa [requestPath] using this
  have hat : pathParamAt ('/' :: '\x7b' :: (name ++ ['\x7d'])) = some name := by
    simp [pathParamAt, paramNameAt_name name [] hn]
  have hm : pathParamRegex.MatchString ('/' :: '\x7b' :: (name ++ ['\x7d'])) = true := by
    simp [pathParamRegex.MatchString, hat]
  have hrep : pathParamRegex.ReplaceAllString ('/' :: '\x7b' :: (name ++ ['\x7d'])) ['/', '*'] =
      ['/', '*'] := by
    unfold pathParamRegex.ReplaceAllString pathParamRegex.ReplaceAllFunc
    rw [replaceLoop_param _ name [] hn]
    simp [pathParamRegex.replaceLoop]
  simp only [matchPathElement, hfields, hm, if_true, hrep, pathMatch_star c hc]
  rfl

theorem AddGet_new_child (p : GoString) (h : H) (hp : p ≠ ['/']) :
    (MakeRoot (fun root => root.AddGet p h) : Route H Mw) =
      Route.mk [] [] [Route.mk p [] [] (some h) none none none none none]
        none none none none none none := by
  simp [MakeRoot, Route.AddGet, Route.addVerb, hp, Route.new, Route.SubRoutes, SetRouteVerb,
    Route.withSubRoutes]

end
end GenericRouter

namespace GenericRouter
section
variable {H Mw Out E Resp : Type}

/-- C12: `AddRoute(s, f)` with a callback `f` that calls `AddGet("/", h)` appends one
node with `Path` s, GET handler `h` and no sub-route; for a single-segment
literal s (non-empty after the slash, no further slash, not a dynamic segment),
`FindRoute` for the request path s and verb GET on the root that holds this
node as its only sub-route returns `h`. -/
theorem C12_handler_through_slash_is_the_node_handler (t : GoString) (h : H) (ht : t ≠ [])
    (hslash : ∀ ch ∈ t, ch ≠ '/') (hlit : pathParamRegex.MatchString ('/' :: t) = false) :
    (∀ r : Route H Mw,
      (r.AddRoute ('/' :: t) (fun node => node.AddGet ['/'] h)).SubRoutes =
        r.SubRoutes ++ [Route.mk ('/' :: t) [] [] (some h) none none none none none]) ∧
    FindRoute ('/' :: t) verbGET
      (MakeRoot (fun root => root.AddRoute ('/' :: t) (fun node => node.AddGet ['/'] h)) :
        Route H Mw) (some []) [] = .ok (some h, [], some ('/' :: t)) := by
  have hfields : FieldsFunc ('/' :: t) isSlash = [t] := by
    have := FieldsFunc_requestPath [t] (by simpa using ⟨ht, hslash⟩)
    simpa [requestPath] using this
  have hmatch := matchPathElement_not_dynamic ('/' :: t) ('/' :: t) t [] hfields hlit
  have hnode : ((Route.new ('/' :: t) : Route H Mw).AddGet ['/'] h) =
      Route.mk ('/' :: t) [] [] (some h) none none none none none := by
    simp [Route.AddGet, Route.addVerb, SetRouteVerb, Route.new]
  refine ⟨?_, ?_⟩
  · intro r
    cases r
    simp only [Route.AddRoute, Route.withSubRoutes, Route.SubRoutes, hnode]
  · have htree : (MakeRoot (fun root => root.AddRoute ('/' :: t)
        (fun node => node.AddGet ['/'] h)) : Route H Mw) =
        Route.mk [] [] [Route.mk ('/' :: t) [] [] (some h) none none none none none]
          none none none none none none := by
      simp only [MakeRoot, Route.AddRoute, hnode]
      rfl
    rw [htree]
    simp [FindRoute, findInSubRoutes, hfields, hmatch, getVerb, Route.Get]

/-- C12, at a concrete input: the path "/abc". -/
theorem C12_witness :
    (∀ r : Route Nat Nat,
      (r.AddRoute "/abc".toList (fun node => node.AddGet ['/'] 7)).SubRoutes =
        r.SubRoutes ++ [Route.mk "/abc".toList [] [] (some 7) none none none none none]) ∧
    FindRoute "/abc".toList verbGET
      (MakeRoot (fun root => root.AddRoute "/abc".toList (fun node => node.AddGet ['/'] 7)) :
        Route Nat Nat) (some []) [] = .ok (some 7, [], some "/abc".toList) :=
  C12_handler_through_slash_is_the_node_handler "abc".toList 7 (by decide) (by decide) (by decide)

/-- C15: a root whose only sub-route is the childless node "/{name}" (name without
slash and closing brace) with a handler for the verb returns that handler for
every request path with exactly one segment, whatever its characters, and no
handler for every request path with two or more segments. -/
theorem C15_dynamic_node_matches_exactly_one_segment (name verb : GoString) (h : H)
    (cm rm : List Mw) (g po pu d pa hd rg rpo rpu rd rpa rhd : Option H)
    (path : GoString) (pp : Option GoString) (mws : List Mw)
    (hname : ∀ ch ∈ name, ch ≠ '/' ∧ ch ≠ '\x7d')
    (hverb : getVerb (Route.mk ('/' :: '\x7b' :: (name ++ ['\x7d'])) cm [] g po pu d pa hd :
      Route H Mw) verb = some h) :
    (∀ seg, FieldsFunc path isSlash = [seg] →
      FindRoute path verb
        (Route.mk [] rm [Route.mk ('/' :: '\x7b' :: (name ++ ['\x7d'])) cm [] g po pu d pa hd]
          rg rpo rpu rd rpa rhd) pp mws =
        .ok (some h, mws ++ cm ++ rm, pp.map (fun p => p ++ '/' :: '\x7b' :: (name ++ ['\x7d'])))) ∧
    (∀ s1 s2 rest, FieldsFunc path isSlash = s1 :: s2 :: rest →
      FindRoute path verb
        (Route.mk [] rm [Route.mk ('/' :: '\x7b' :: (name ++ ['\x7d'])) cm [] g po pu d pa hd]
          rg rpo rpu rd rpa rhd) pp mws = .ok (none, [], pp)) := by
  refine ⟨?_, ?_⟩
  · intro seg hfields
    have hseg := (FieldsFunc_fields path seg (by simp [hfields])).2
    have hmatch := matchPathElement_dynamic name seg hname hseg
    cases pp <;> simp [FindRoute, findInSubRoutes, hfields, hmatch, hverb]
  · intro s1 s2 rest hfields
    have hseg := (FieldsFunc_fields path s1 (by simp [hfields])).2
    have hmatch := matchPathElement_dynamic name s1 hname hseg
    simp [FindRoute, findInSubRoutes, hfields, hmatch]

/-- C15, at concrete inputs: the node "/{id}" with a GET handler, the request
"//x y?/" with the one segment "x y?", and the request "/a/b". -/
theorem C15_witness :
    FindRoute "//x y?/".toList verbGET (singleDynamicTree "id".toList 7 : Route Nat Nat)
      (some []) [] = .ok (some 7, [], some "/{id}".toList) ∧
    FindRoute "/a/b".toList verbGET (singleDynamicTree "id".toList 7 : Route Nat Nat)
      (some []) [] = .ok (none, [], some []) :=
  ⟨(C15_dynamic_node_matches_exactly_one_segment "id".toList verbGET 7 [] []
      (some 7) none none none none none none none none none none none
      "//x y?/".toList (some []) [] (by decide) rfl).1 "x y?".toList rfl,
    (C15_dynamic_node_matches_exactly_one_segment "id".toList verbGET 7 [] []
      (some 7) none none none none none none none none none none none
      "/a/b".toList (some []) [] (by decide) rfl).2 "a".toList "b".toList [] rfl⟩

/-- C20: after `root.AddGet("/a/b", h)` on an empty root, with a a literal segment
(not a dynamic one), the request "/a" with verb GET returns `h` with the
parameterised path "/a/b", and the request "/a/b" returns no handler: the node
is compared through the first segment of its `Path` only. -/
theorem C20_only_the_first_segment_of_a_node_path_matches (a b : GoString) (h : H)
    (ha : a ≠ [] ∧ ∀ ch ∈ a, ch ≠ '/') (hb : b ≠ [] ∧ ∀ ch ∈ b, ch ≠ '/')
    (hlit : pathParamRegex.MatchString ('/' :: a) = false) :
    FindRoute ('/' :: a) verbGET
      (MakeRoot (fun root => root.AddGet ('/' :: (a ++ '/' :: b)) h) : Route H Mw) (some []) [] =
      .ok (some h, [], some ('/' :: (a ++ '/' :: b))) ∧
    FindRoute ('/' :: (a ++ '/' :: b)) verbGET
      (MakeRoot (fun root => root.AddGet ('/' :: (a ++ '/' :: b)) h) : Route H Mw) (some []) [] =
      .ok (none, [], some []) := by
  have hnode : FieldsFunc ('/' :: (a ++ '/' :: b)) isSlash = [a, b] := by
    have := FieldsFunc_requestPath [a, b] (by
      intro x hx
      simp only [List.mem_cons, List.mem_singleton, List.not_mem_nil, or_false] at hx
      rcases hx with rfl | rfl
      · exact ha
      · exact hb)
    simpa [requestPath] using this
  have hreq : FieldsFunc ('/' :: a) isSlash = [a] := by
    have := FieldsFunc_requestPath [a] (by simpa using ha)
    simpa [requestPath] using this
  have hmatch := matchPathElement_not_dynamic ('/' :: (a ++ '/' :: b)) ('/' :: a) a [b] hnode hlit
  have hp : '/' :: (a ++ '/' :: b) ≠ ['/'] := by
    intro he
    have := congrArg List.length he
    simp at this
  rw [AddGet_new_child _ h hp]
  refine ⟨?_, ?_⟩
  · simp [FindRoute, findInSubRoutes, hreq, hmatch, getVerb, Route.Get]
  · simp [FindRoute, findInSubRoutes, hnode, hmatch]

/-- C20, at a concrete input: the segments "a" and "b". -/
theorem C20_witness :
    FindRoute "/a".toList verbGET
      (MakeRoot (fun root => root.AddGet "/a/b".toList 7) : Route Nat Nat) (some []) [] =
      .ok (some 7, [], some "/a/b".toList) ∧
    FindRoute "/a/b".toList verbGET
      (MakeRoot (fun root => root.AddGet "/a/b".toList 7) : Route Nat Nat) (some []) [] =
      .ok (none, [], some []) :=
  C20_only_the_first_segment_of_a_node_path_matches "a".toList "b".toList 7
    (by decide) (by decide) (by decide)

end
end GenericRouter

namespace GenericRouter
section
variable {H Mw Out E Resp : Type}

mutual
/-- The handler that `FindRoute` returns does not depend on the string behind
`parameterisedPath` nor on the middleware slice it is given. -/
theorem FindRoute_handler_indep : ∀ (root : Route H Mw) (path verb : GoString)
    (pp pp' : Option GoString) (mws mws' : List Mw),
    (FindRoute path verb root pp mws).map Prod.fst =
      (FindRoute path verb root pp' mws').map Prod.fst
  | .mk rp rm rs g po pu d pa hh, path, verb, pp, pp', mws, mws' => by
    cases hsplit : FieldsFunc path isSlash with
    | nil =>
      simp only [FindRoute, hsplit]
      by_cases hexact : (!rp.isEmpty && ([] : List GoString).length == 1) = true
      · simp at hexact
      · simp only [hexact]
        rfl
    | cons split0 tl =>
      by_cases hrp : rp.isEmpty = true
      · simp only [FindRoute, hsplit, hrp]
        exact findInSubRoutes_handler_indep rs _ verb rp rm pp pp' mws mws'
      · cases hmatch : matchPathElement rp ('/' :: split0) with
        | error a =>
          simp only [FindRoute, hsplit, hrp, hmatch]
          rfl
        | ok b =>
          cases b with
          | false =>
            simp only [FindRoute, hsplit, hrp, hmatch]
            rfl
          | true =>
            by_cases hlen : ((split0 :: tl).length == 1) = true
            · simp only [FindRoute, hsplit, hrp, hmatch, hlen]
              rfl
            · simp only [FindRoute, hsplit, hrp, hmatch, hlen]
              exact findInSubRoutes_handler_indep rs _ verb rp rm pp pp' mws mws'
theorem findInSubRoutes_handler_indep : ∀ (subs : List (Route H Mw))
    (subpath verb rootPath : GoString) (rootMws : List Mw) (pp pp' : Option GoString)
    (mws mws' : List Mw),
    (findInSubRoutes subpath verb rootPath rootMws subs pp mws).map Prod.fst =
      (findInSubRoutes subpath verb rootPath rootMws subs pp' mws').map Prod.fst
  | [], _, _, _, _, _, _, _, _ => rfl
  | sub :: rest, subpath, verb, rootPath, rootMws, pp, pp', mws, mws' => by
    have ih := FindRoute_handler_indep sub subpath verb pp pp' mws mws'
    simp only [findInSubRoutes]
    cases h1 : FindRoute subpath verb sub pp mws with
    | error a =>
      cases h2 : FindRoute subpath verb sub pp' mws' with
      | error a' =>
        rw [h1, h2] at ih
        exact ih
      | ok r' =>
        rw [h1, h2] at ih
        cases ih
    | ok r =>
      cases h2 : FindRoute subpath verb sub pp' mws' with
      | error a' =>
        rw [h1, h2] at ih
        cases ih
      | ok r' =>
        rw [h1, h2] at ih
        obtain ⟨hd, m, p⟩ := r
        obtain ⟨hd', m', p'⟩ := r'
        have hhd : hd = hd' := by
          simpa [Except.map] using ih
        subst hhd
        cases hd with
        | some handler => rfl
        | none =>
          exact findInSubRoutes_handler_indep rest subpath verb rootPath rootMws p p' mws mws'
end

/-- In the loop over the sub-routes the first sub-route whose own call returns a
handler decides, whatever comes after it. -/
theorem findInSubRoutes_first (subpath verb rootPath : GoString) (rootMws : List Mw)
    (c : Route H Mw) (post : List (Route H Mw)) (h : H)
    (hc : ∃ ppc mwsc, (FindRoute subpath verb c ppc mwsc).map Prod.fst = .ok (some h)) :
    ∀ (pre : List (Route H Mw)) (pp : Option GoString) (mws : List Mw),
      (∀ ci ∈ pre, ∃ ppi mwsi, (FindRoute subpath verb ci ppi mwsi).map Prod.fst = .ok none) →
      (findInSubRoutes subpath verb rootPath rootMws (pre ++ c :: post) pp mws).map Prod.fst =
        .ok (some h)
  | [], pp, mws, _ => by
    obtain ⟨ppc, mwsc, hcall⟩ := hc
    rw [FindRoute_handler_indep c subpath verb ppc pp mwsc mws] at hcall
    simp only [List.nil_append, findInSubRoutes]
    cases h1 : FindRoute subpath verb c pp mws with
    | error a =>
      rw [h1] at hcall
      cases hcall
    | ok r =>
      rw [h1] at hcall
      obtain ⟨hd, m, p⟩ := r
      have hhd : hd = some h := by simpa [Except.map] using hcall
      subst hhd
      rfl
  | ci :: pre, pp, mws, hpre => by
    obtain ⟨ppi, mwsi, hcall⟩ := hpre ci (by simp)
    rw [FindRoute_handler_indep ci subpath verb ppi pp mwsi mws] at hcall
    simp only [List.cons_append, findInSubRoutes]
    cases h1 : FindRoute subpath verb ci pp mws with
    | error a =>
      rw [h1] at hcall
      cases hcall
    | ok r =>
      rw [h1] at hcall
      obtain ⟨hd, m, p⟩ := r
      have hhd : hd = none := by simpa [Except.map] using hcall
      subst hhd
      exact findInSubRoutes_first subpath verb rootPath rootMws c post h hc pre p mws
        (fun x hx => hpre x (by simp [hx]))

/-- C17: when `FindRoute` descends into the sub-routes of a node (the node has an
empty `Path`, or it matches the first segment and more segments follow), the
handler it returns is that of the first sub-route, in declaration order, whose
own `FindRoute` call returns a handler; the sub-routes after it play no part. -/
theorem C17_first_sub_route_with_a_handler_wins (path verb rPath split0 : GoString)
    (tl : List GoString) (rm : List Mw) (pre post : List (Route H Mw)) (c : Route H Mw)
    (g po pu d pa hd : Option H) (pp : Option GoString) (mws : List Mw) (h : H)
    (hsplit : FieldsFunc path isSlash = split0 :: tl)
    (hdescends : rPath = [] ∨ (matchPathElement rPath ('/' :: split0) = .ok true ∧ tl ≠ []))
    (hpre : ∀ ci ∈ pre, ∃ ppi mwsi,
      (FindRoute (if rPath.isEmpty then path else TrimPrefix path ('/' :: split0)) verb ci
        ppi mwsi).map Prod.fst = .ok none)
    (hc : ∃ ppc mwsc,
      (FindRoute (if rPath.isEmpty then path else TrimPrefix path ('/' :: split0)) verb c
        ppc mwsc).map Prod.fst = .ok (some h)) :
    (FindRoute path verb (Route.mk rPath rm (pre ++ c :: post) g po pu d pa hd) pp mws).map
      Prod.fst = .ok (some h) := by
  have hloop := findInSubRoutes_first
    (if rPath.isEmpty then path else TrimPrefix path ('/' :: split0)) verb rPath rm c post h hc
    pre pp mws hpre
  rcases hdescends with hroot | ⟨hmatch, htl⟩
  · subst hroot
    simp only [FindRoute, hsplit]
    simpa using hloop
  · have hlen : ((split0 :: tl).length == 1) = false := by
      cases tl with
      | nil => exact absurd rfl htl
      | cons _ _ => simp
    by_cases hrp : rPath.isEmpty = true
    · simp only [FindRoute, hsplit, hrp]
      simpa [hrp] using hloop
    · simp only [FindRoute, hsplit, hrp, hmatch, hlen]
      simpa [hrp] using hloop

/-- C17, at the example of the claim: with the sub-routes "/{id}" then "/abc",
GET "/abc" returns the handler of "/{id}" (1); with the order swapped it returns
the handler of "/abc" (2), and GET "/xyz" passes "/abc" and returns the handler
of "/{id}". -/
theorem C17_witness :
    (FindRoute "/abc".toList verbGET (dynamicFirstTree 1 2 : Route Nat Nat) (some []) []).map
      Prod.fst = .ok (some 1) ∧
    (FindRoute "/abc".toList verbGET (literalFirstTree 1 2 : Route Nat Nat) (some []) []).map
      Prod.fst = .ok (some 2) ∧
    (FindRoute "/xyz".toList verbGET (literalFirstTree 1 2 : Route Nat Nat) (some []) []).map
      Prod.fst = .ok (some 1) :=
  ⟨C17_first_sub_route_with_a_handler_wins "/abc".toList verbGET [] "abc".toList [] [] []
      [Route.mk "/abc".toList [] [] (some 2) none none none none none]
      (Route.mk "/{id}".toList [] [] (some 1) none none none none none)
      none none none none none none (some []) [] 1 rfl (Or.inl rfl) (by simp)
      ⟨some [], [], rfl⟩,
    C17_first_sub_route_with_a_handler_wins "/abc".toList verbGET [] "abc".toList [] [] []
      [Route.mk "/{id}".toList [] [] (some 1) none none none none none]
      (Route.mk "/abc".toList [] [] (some 2) none none none none none)
      none none none none none none (some []) [] 2 rfl (Or.inl rfl) (by simp)
      ⟨some [], [], rfl⟩,
    C17_first_sub_route_with_a_handler_wins "/xyz".toList verbGET [] "xyz".toList [] []
      [Route.mk "/abc".toList [] [] (some 2) none none none none none] []
      (Route.mk "/{id}".toList [] [] (some 1) none none none none none)
      none none none none none none (some []) [] 1 rfl (Or.inl rfl)
      (by
        intro ci hci
        have : ci = Route.mk "/abc".toList [] [] (some 2) none none none none none := by
          simpa using hci
        subst this
        exact ⟨some [], [], rfl⟩)
      ⟨some [], [], rfl⟩⟩

end
end GenericRouter

namespace GenericRouter
section
variable {H Mw Out E Resp : Type}

/-- With a first field to index, `matchPathElement` does not index out of range. -/
theorem matchPathElement_no_panic (p e : GoString) (h : FieldsFunc p isSlash ≠ []) :
    matchPathElement p e ≠ .error .indexOutOfRange := by
  unfold matchPathElement
  cases hf : FieldsFunc p isSlash with
  | nil => exact absurd hf h
  | cons split0 tl =>
    simp only
    by_cases hm : pathParamRegex.MatchString ('/' :: split0) = true
    · simp only [hm, if_true]
      unfold path.Match
      by_cases hany : (pathParamRegex.ReplaceAllString ('/' :: split0) ['/', '*']).any
          (fun c => c == '?' || c == '[' || c == '\\') = true
      · simp only [hany, if_true]
        intro hcontra
        cases hcontra
      · simp only [hany]
        obtain ⟨matched, hmatched⟩ := matchLoop_total
          ((pathParamRegex.ReplaceAllString ('/' :: split0) ['/', '*']).length + 1)
          (pathParamRegex.ReplaceAllString ('/' :: split0) ['/', '*']) e (Nat.lt_succ_self _)
        simp [hmatched, Except.map]
    · simp [hm]

/-- A node path that is not empty and has a character that is no slash has a
first field. -/
theorem FieldsFunc_of_any (p : GoString) (h : p.any (fun ch => ch != '/') = true) :
    FieldsFunc p isSlash ≠ [] := by
  apply FieldsFunc_ne_nil
  obtain ⟨ch, hch, hne⟩ := List.any_eq_true.mp h
  exact ⟨ch, hch, by simpa using hne⟩

/-- The characters of the fields come from the text that is split. -/
theorem fieldsLoop_all (f : Char → Bool) (P : Char → Prop) :
    ∀ (s cur : GoString), (∀ ch ∈ s, P ch) → (∀ ch ∈ cur, P ch) →
      ∀ seg ∈ fieldsLoop f s cur, ∀ ch ∈ seg, P ch
  | [], [], _, _, seg, hseg => by simp [fieldsLoop] at hseg
  | [], c :: cur, _, hcur, seg, hseg => by
    simp only [fieldsLoop, List.mem_singleton] at hseg
    subst hseg
    intro ch hch
    exact hcur ch (List.mem_reverse.mp hch)
  | r :: rest, [], hs, hcur, seg, hseg => by
    have hrest : ∀ ch ∈ rest, P ch := fun ch hch => hs ch (List.mem_cons_of_mem _ hch)
    by_cases hr : f r = true
    · simp only [fieldsLoop, hr, if_true] at hseg
      exact fieldsLoop_all f P rest [] hrest (by simp) seg hseg
    · have hr' : f r = false := by simpa using hr
      simp only [fieldsLoop, hr', Bool.false_eq_true, if_false] at hseg
      exact fieldsLoop_all f P rest [r] hrest (by simpa using hs r (by simp)) seg hseg
  | r :: rest, c :: cur, hs, hcur, seg, hseg => by
    have hrest : ∀ ch ∈ rest, P ch := fun ch hch => hs ch (List.mem_cons_of_mem _ hch)
    by_cases hr : f r = true
    · simp only [fieldsLoop, hr, if_true, List.mem_cons] at hseg
      rcases hseg with hseg | hseg
      · subst hseg
        intro ch hch
        exact hcur ch (List.mem_reverse.mp hch)
      · exact fieldsLoop_all f P rest [] hrest (by simp) seg hseg
    · have hr' : f r = false := by simpa using hr
      simp only [fieldsLoop, hr', Bool.false_eq_true, if_false] at hseg
      refine fieldsLoop_all f P rest (r :: c :: cur) hrest ?_ seg hseg
      intro ch hch
      rcases List.mem_cons.mp hch with rfl | hch
      · exact hs _ (by simp)
      · exact hcur ch hch

/-- The characters of a text rewritten by `ReplaceAllString` come from the text
or from the replacement. -/
theorem replaceLoop_all (repl : GoString) (P : Char → Prop) (hrepl : ∀ ch ∈ repl, P ch) :
    ∀ (k : Nat) (s : GoString), (∀ ch ∈ s, P ch) →
      ∀ ch ∈ pathParamRegex.replaceLoop (fun _ => repl) k s, P ch
  | _, [], _, ch, hch => by simp [pathParamRegex.replaceLoop] at hch
  | skip + 1, c :: cs, hs, ch, hch => by
    simp only [pathParamRegex.replaceLoop] at hch
    exact replaceLoop_all repl P hrepl skip cs (fun x hx => hs x (List.mem_cons_of_mem _ hx))
      ch hch
  | 0, c :: cs, hs, ch, hch => by
    have hcs : ∀ x ∈ cs, P x := fun x hx => hs x (List.mem_cons_of_mem _ hx)
    rw [pathParamRegex.replaceLoop] at hch
    cases hat : pathParamAt (c :: cs) with
    | some name =>
      rw [hat] at hch
      simp only [List.mem_append] at hch
      rcases hch with hch | hch
      · exact hrepl ch hch
      · exact replaceLoop_all repl P hrepl (name.length + 2) cs hcs ch hch
    | none =>
      rw [hat] at hch
      simp only [List.mem_cons] at hch
      rcases hch with rfl | hch
      · exact hs _ (by simp)
      · exact replaceLoop_all repl P hrepl 0 cs hcs ch hch

/-- On a node path with a first field and without `?`, `[` and backslash,
`matchPathElement` returns. -/
theorem matchPathElement_returns (p e : GoString) (h : FieldsFunc p isSlash ≠ [])
    (hp : p.any (fun c => c == '?' || c == '[' || c == '\\') = false) :
    ∃ b, matchPathElement p e = .ok b := by
  have hall : ∀ ch ∈ p, (ch == '?' || ch == '[' || ch == '\\') = false := by
    intro ch hch
    have := List.any_eq_false.mp hp ch hch
    simpa using this
  unfold matchPathElement
  cases hf : FieldsFunc p isSlash with
  | nil => exact absurd hf h
  | cons split0 tl =>
    simp only
    by_cases hm : pathParamRegex.MatchString ('/' :: split0) = true
    · simp only [hm, if_true]
      have hsplit0 : ∀ ch ∈ split0, (ch == '?' || ch == '[' || ch == '\\') = false :=
        fieldsLoop_all isSlash _ p [] hall (by simp) split0 (by
          show split0 ∈ FieldsFunc p isSlash
          rw [hf]
          simp)
      have hnode : ∀ ch ∈ '/' :: split0, (ch == '?' || ch == '[' || ch == '\\') = false := by
        intro ch hch
        rcases List.mem_cons.mp hch with rfl | hch
        · decide
        · exact hsplit0 ch hch
      have hpattern : (pathParamRegex.ReplaceAllString ('/' :: split0) ['/', '*']).any
          (fun c => c == '?' || c == '[' || c == '\\') = false := by
        rw [List.any_eq_false]
        intro ch hch
        have := replaceLoop_all ['/', '*'] _ (by decide) 0 ('/' :: split0) hnode ch hch
        simp [this]
      obtain ⟨matched, hmatched⟩ := pathMatch_modelled
        (pathParamRegex.ReplaceAllString ('/' :: split0) ['/', '*']) e hpattern
      exact ⟨matched, by simp [hmatched]⟩
    · exact ⟨('/' :: split0) == e, by simp [hm]⟩

mutual
/-- On a normalised request path `FindRoute` does not index out of range and
returns what the reference matcher returns on the list of segments. -/
theorem FindRoute_refines (verb : GoString) : ∀ (root : Route H Mw) (segs : List GoString)
    (pp : Option GoString) (mws : List Mw), root.PathsHaveSegment = true → segs ≠ [] →
    (∀ s ∈ segs, s ≠ [] ∧ ∀ ch ∈ s, ch ≠ '/') →
    FindRoute (requestPath segs) verb root pp mws ≠ .error .indexOutOfRange ∧
      (FindRoute (requestPath segs) verb root pp mws).map FindResult.returned =
        refMatch verb root segs mws
  | .mk rp rm rs g po pu d pa hh, [], _, _, _, hne, _ => absurd rfl hne
  | .mk rp rm rs g po pu d pa hh, s1 :: rest, pp, mws, hroot, _, hsegs => by
    have hfields := FieldsFunc_requestPath (s1 :: rest) hsegs
    simp only [Route.PathsHaveSegment, Bool.and_eq_true, Bool.or_eq_true] at hroot
    obtain ⟨hpath, hsubs⟩ := hroot
    by_cases hrp : rp.isEmpty = true
    · have ih := findInSubRoutes_refines verb rs (s1 :: rest) rp rm pp mws hsubs
        (List.cons_ne_nil _ _) hsegs
      simp only [FindRoute, refMatch, hfields, hrp]
      simpa using ih
    · have hany : rp.any (fun ch => ch != '/') = true := by
        rcases hpath with h | h
        · exact absurd h hrp
        · exact h
      have hnp := matchPathElement_no_panic rp ('/' :: s1) (FieldsFunc_of_any rp hany)
      cases hmatch : matchPathElement rp ('/' :: s1) with
      | error a =>
        rw [hmatch] at hnp
        have hne : a ≠ .indexOutOfRange := fun hEq => hnp (by rw [hEq])
        simp [FindRoute, refMatch, hfields, hrp, hmatch, Except.map, hne]
      | ok b =>
        cases b with
        | false =>
          simp [FindRoute, refMatch, hfields, hrp, hmatch, Except.map, FindResult.returned]
        | true =>
          cases rest with
          | nil =>
            simp [FindRoute, refMatch, hfields, hrp, hmatch, Except.map, FindResult.returned]
          | cons s2 rest2 =>
            have hrest : ∀ s ∈ s2 :: rest2, s ≠ [] ∧ ∀ ch ∈ s, ch ≠ '/' :=
              fun s hs => hsegs s (List.mem_cons_of_mem _ hs)
            have ih := findInSubRoutes_refines verb rs (s2 :: rest2) rp rm pp mws hsubs
              (List.cons_ne_nil _ _) hrest
            have htrim := TrimPrefix_requestPath s1 (s2 :: rest2)
            simpa [FindRoute, refMatch, hfields, hrp, hmatch, htrim] using ih
/-- The loop over the sub-routes refines the loop of the reference matcher. -/
theorem findInSubRoutes_refines (verb : GoString) : ∀ (subs : List (Route H Mw))
    (segs : List GoString) (rootPath : GoString) (rootMws : List Mw) (pp : Option GoString)
    (mws : List Mw), allPathsHaveSegment subs = true → segs ≠ [] →
    (∀ s ∈ segs, s ≠ [] ∧ ∀ ch ∈ s, ch ≠ '/') →
    findInSubRoutes (requestPath segs) verb rootPath rootMws subs pp mws ≠
        .error .indexOutOfRange ∧
      (findInSubRoutes (requestPath segs) verb rootPath rootMws subs pp mws).map
        FindResult.returned = refMatchSubRoutes verb rootMws subs segs mws
  | [], _, _, _, _, _, _, _, _ => ⟨nofun, rfl⟩
  | sub :: more, segs, rootPath, rootMws, pp, mws, hsubs, hne, hsegs => by
    simp only [allPathsHaveSegment, Bool.and_eq_true] at hsubs
    obtain ⟨hsub, hmore⟩ := hsubs
    obtain ⟨hnp, href⟩ := FindRoute_refines verb sub segs pp mws hsub hne hsegs
    simp only [findInSubRoutes, refMatchSubRoutes]
    cases hcall : FindRoute (requestPath segs) verb sub pp mws with
    | error a =>
      rw [hcall] at hnp href
      rw [← href]
      exact ⟨hnp, rfl⟩
    | ok r =>
      rw [hcall] at href
      rw [← href]
      obtain ⟨hd, m, p⟩ := r
      cases hd with
      | some handler => exact ⟨nofun, rfl⟩
      | none =>
        exact findInSubRoutes_refines verb more segs rootPath rootMws p mws hmore hne hsegs
end

mutual
/-- On a normalised request path and a tree whose paths lie in the described
part of `path.Match`, `FindRoute` returns. -/
theorem FindRoute_returns (verb : GoString) : ∀ (root : Route H Mw) (segs : List GoString)
    (pp : Option GoString) (mws : List Mw), root.PathsHaveSegment = true →
    root.PathsInFragment = true → segs ≠ [] → (∀ s ∈ segs, s ≠ [] ∧ ∀ ch ∈ s, ch ≠ '/') →
    ∃ r, FindRoute (requestPath segs) verb root pp mws = .ok r
  | .mk rp rm rs g po pu d pa hh, [], _, _, _, _, hne, _ => absurd rfl hne
  | .mk rp rm rs g po pu d pa hh, s1 :: rest, pp, mws, hroot, hfrag, _, hsegs => by
    have hfields := FieldsFunc_requestPath (s1 :: rest) hsegs
    simp only [Route.PathsHaveSegment, Bool.and_eq_true, Bool.or_eq_true] at hroot
    simp only [Route.PathsInFragment, Bool.and_eq_true, Bool.not_eq_true'] at hfrag
    obtain ⟨hpath, hsubs⟩ := hroot
    obtain ⟨hrpfrag, hsubsfrag⟩ := hfrag
    by_cases hrp : rp.isEmpty = true
    · have ih := findInSubRoutes_returns verb rs (s1 :: rest) rp rm pp mws hsubs hsubsfrag
        (List.cons_ne_nil _ _) hsegs
      simp only [FindRoute, hfields, hrp]
      simpa using ih
    · have hany : rp.any (fun ch => ch != '/') = true := by
        rcases hpath with h | h
        · exact absurd h hrp
        · exact h
      obtain ⟨b, hmatch⟩ := matchPathElement_returns rp ('/' :: s1) (FieldsFunc_of_any rp hany)
        hrpfrag
      cases b with
      | false =>
        simp [FindRoute, hfields, hrp, hmatch]
      | true =>
        cases rest with
        | nil =>
          simp [FindRoute, hfields, hrp, hmatch]
        | cons s2 rest2 =>
          have hrest : ∀ s ∈ s2 :: rest2, s ≠ [] ∧ ∀ ch ∈ s, ch ≠ '/' :=
            fun s hs => hsegs s (List.mem_cons_of_mem _ hs)
          have ih := findInSubRoutes_returns verb rs (s2 :: rest2) rp rm pp mws hsubs hsubsfrag
            (List.cons_ne_nil _ _) hrest
          have htrim := TrimPrefix_requestPath s1 (s2 :: rest2)
          simpa [FindRoute, hfields, hrp, hmatch, htrim] using ih
/-- The loop over the sub-routes returns as well. -/
theorem findInSubRoutes_returns (verb : GoString) : ∀ (subs : List (Route H Mw))
    (segs : List GoString) (rootPath : GoString) (rootMws : List Mw) (pp : Option GoString)
    (mws : List Mw), allPathsHaveSegment subs = true → allPathsInFragment subs = true →
    segs ≠ [] → (∀ s ∈ segs, s ≠ [] ∧ ∀ ch ∈ s, ch ≠ '/') →
    ∃ r, findInSubRoutes (requestPath segs) verb rootPath rootMws subs pp mws = .ok r
  | [], _, _, _, _, _, _, _, _, _ => ⟨_, rfl⟩
  | sub :: more, segs, rootPath, rootMws, pp, mws, hsubs, hfrag, hne, hsegs => by
    simp only [allPathsHaveSegment, Bool.and_eq_true] at hsubs
    simp only [allPathsInFragment, Bool.and_eq_true] at hfrag
    obtain ⟨hsub, hmore⟩ := hsubs
    obtain ⟨hsubfrag, hmorefrag⟩ := hfrag
    obtain ⟨r, hcall⟩ := FindRoute_returns verb sub segs pp mws hsub hsubfrag hne hsegs
    simp only [findInSubRoutes, hcall]
    obtain ⟨hd, m, p⟩ := r
    cases hd with
    | some handler => exact ⟨_, rfl⟩
    | none =>
      exact findInSubRoutes_returns verb more segs rootPath rootMws p mws hmore hmorefrag hne
        hsegs
end

/-- C19: on a tree in which every node `Path` is empty or has a character that
is no slash, for every verb and every normalised request path "/s1/.../sk"
(k >= 1, every segment non-empty and without slash), `FindRoute` does not index
out of range, and the handler and the middleware slice it returns are those of
the reference matcher `refMatch` run on the list of segments; when no `Path` of
the tree holds `?`, `[` or a backslash, `FindRoute` does return. -/
theorem C19_FindRoute_refines_the_segment_list_matcher (verb : GoString) (root : Route H Mw)
    (segs : List GoString) (pp : Option GoString) (mws : List Mw)
    (hroot : root.PathsHaveSegment = true) (hk : segs ≠ [])
    (hsegs : ∀ s ∈ segs, s ≠ [] ∧ ∀ ch ∈ s, ch ≠ '/') :
    FindRoute (requestPath segs) verb root pp mws ≠ .error .indexOutOfRange ∧
    (FindRoute (requestPath segs) verb root pp mws).map FindResult.returned =
      refMatch verb root segs mws ∧
    (root.PathsInFragment = true →
      ∃ r, FindRoute (requestPath segs) verb root pp mws = .ok r) :=
  ⟨(FindRoute_refines verb root segs pp mws hroot hk hsegs).1,
    (FindRoute_refines verb root segs pp mws hroot hk hsegs).2,
    fun hfrag => FindRoute_returns verb root segs pp mws hroot hfrag hk hsegs⟩

/-- C19 at the tree with the root middleware 1 and the sub-routes "/{id}"
(middleware 3, POST only) and "/abc" (middleware 2, GET handler `[7]`), for GET
"/abc": the path conditions hold, and `FindRoute` and the reference matcher both
pass the first sub-route and return the handler `[7]` with the middlewares 2, 1. -/
theorem C19_witness :
    abandonedSiblingTree.PathsHaveSegment = true ∧
    ["abc".toList] ≠ [] ∧
    (∀ s ∈ ["abc".toList], s ≠ [] ∧ ∀ ch ∈ s, ch ≠ '/') ∧
    refMatch verbGET abandonedSiblingTree ["abc".toList] [] = .ok (some [7], [2, 1]) ∧
    (FindRoute (requestPath ["abc".toList]) verbGET abandonedSiblingTree (some []) [] ≠
        .error .indexOutOfRange ∧
      (FindRoute (requestPath ["abc".toList]) verbGET abandonedSiblingTree (some []) []).map
        FindResult.returned = refMatch verbGET abandonedSiblingTree ["abc".toList] [] ∧
      (abandonedSiblingTree.PathsInFragment = true →
        ∃ r, FindRoute (requestPath ["abc".toList]) verbGET abandonedSiblingTree (some []) [] =
          .ok r)) :=
  ⟨rfl, by decide, by decide, rfl,
    C19_FindRoute_refines_the_segment_list_matcher verbGET abandonedSiblingTree
      ["abc".toList] (some []) [] rfl (by decide) (by decide)⟩

end
end GenericRouter

namespace GenericRouter
section
variable {H Mw Out E Resp : Type}

/-- A text without an opening brace is left as it is by `ReplaceAllFunc`. -/
theorem replaceLoop_plain (repl : GoString → GoString) :
    ∀ s : GoString, (∀ ch ∈ s, ch ≠ '\x7b') → pathParamRegex.replaceLoop repl 0 s = s
  | [], _ => rfl
  | c :: cs, h => by
    have hat : pathParamAt (c :: cs) = none := by
      unfold pathParamAt
      split
      · rename_i heq
        simp at heq
        obtain ⟨_, hcs⟩ := heq
        exact absurd rfl (h '\x7b' (by simp [hcs]))
      · rfl
    rw [pathParamRegex.replaceLoop, hat]
    simp [replaceLoop_plain repl cs (fun x hx => h x (List.mem_cons_of_mem _ hx))]

/-- For a parameterised path without any regular-expression operator,
`ExtractPathParameters` returns the empty map and no error, on every path. -/
theorem ExtractPathParameters_plain (path p : GoString)
    (hp : ∀ ch ∈ p, isRegexMeta ch = false) :
    ExtractPathParameters path p = .ok (.ok []) := by
  have hbrace : ∀ ch ∈ p, ch ≠ '\x7b' := by
    intro ch hch hc
    subst hc
    have := hp _ hch
    simp [isRegexMeta] at this
  have hrepl : pathParamRegex.ReplaceAllFunc p captureGroupFor = p :=
    replaceLoop_plain _ p hbrace
  have hparse : regexpParse ((p ++ ['$']).length + 1) (p ++ ['$']) =
      .ok (p.map RegexAtom.lit) := by
    have hlits := regexpParse_literals p 2 ['$'] hp
    have hlen : (p ++ ['$']).length + 1 = 2 + p.length := by
      simp
      omega
    rw [hlen, hlits]
    simp [regexpParse, Except.map]
  have hcompile : regexp.Compile (p ++ ['$']) = .compiled ⟨p.map RegexAtom.lit⟩ := by
    simp only [regexp.Compile, hparse]
  have hnames : (⟨p.map RegexAtom.lit⟩ : Regexp).SubexpNames = [] := by
    simp [Regexp.SubexpNames, List.filterMap_eq_nil_iff]
  simp only [ExtractPathParameters, hrepl, hcompile]
  cases (⟨p.map RegexAtom.lit⟩ : Regexp).FindStringSubmatch path with
  | none => rfl
  | some caps => simp [hnames, fillSubMatchMap]

/-- What `Route.HasLiteralPath` says about the `Path`. -/
theorem HasLiteralPath_path (node : Route H Mw) (h : node.HasLiteralPath = true) :
    node.Path = [] ∨
      ∃ t, node.Path = '/' :: t ∧ t ≠ [] ∧ ∀ ch ∈ t, isLiteralChar ch = true := by
  unfold Route.HasLiteralPath at h
  cases hp : node.Path with
  | nil => exact Or.inl rfl
  | cons c t =>
    rw [hp] at h
    simp only [Bool.and_eq_true, beq_iff_eq, Bool.not_eq_true', List.all_eq_true] at h
    obtain ⟨⟨hc, ht⟩, hall⟩ := h
    subst hc
    refine Or.inr ⟨t, rfl, ?_, hall⟩
    intro hnil
    subst hnil
    simp at ht

theorem chainPath_cons (node : Route H Mw) (chain : List (Route H Mw)) :
    chainPath (node :: chain) = node.Path ++ chainPath chain := by
  simp [chainPath]

mutual
/-- When no node is left behind on an exact match, the string that `FindRoute`
(started empty) writes is the joined `Path` strings of the matched chain, and
the empty string when no handler is found. -/
theorem FindRoute_pp_clean : ∀ (root : Route H Mw) (path verb : GoString) (mws : List Mw)
    (r : FindResult H Mw) (c : Option (List (Route H Mw))),
    abandonedNodes path verb root = .ok [] →
    FindRoute path verb root (some []) mws = .ok r →
    matchedChain path verb root = .ok c →
    r.2.2 = some ((c.map chainPath).getD [])
  | .mk rp rm rs g po pu d pa hh, path, verb, mws, r, c => by
    intro hclean hfind hchain
    cases hsplit : FieldsFunc path isSlash with
    | nil =>
      rw [FindRoute_no_segment path verb _ _ mws hsplit] at hfind
      cases hfind
    | cons split0 tl =>
      by_cases hrp : rp.isEmpty = true
      · simp only [FindRoute, hsplit, hrp] at hfind
        simp only [matchedChain, hsplit, hrp] at hchain
        simp only [abandonedNodes, hsplit, hrp] at hclean
        simp only [Bool.not_true, Bool.false_and, if_true, Bool.false_eq_true, if_false]
          at hfind hchain hclean
        cases hin : matchedChainIn path verb rs with
        | error a =>
          rw [hin] at hchain
          cases hchain
        | ok cIn =>
          rw [hin] at hchain
          have ih := findInSubRoutes_pp_clean rs path verb rp rm mws r cIn hclean hfind hin
          simp only [Except.ok.injEq] at hchain
          subst hchain
          rw [ih]
          cases cIn <;> simp [chainPath_cons, Route.Path]
      · have hrpf : rp.isEmpty = false := by simpa using hrp
        cases hmatch : matchPathElement rp ('/' :: split0) with
        | error a =>
          simp [FindRoute, hsplit, hrpf, hmatch] at hfind
        | ok b =>
          cases b with
          | false =>
            simp [FindRoute, hsplit, hrpf, hmatch] at hfind
            simp [matchedChain, hsplit, hrpf, hmatch] at hchain
            subst hfind
            subst hchain
            rfl
          | true =>
            cases tl with
            | nil =>
              simp [FindRoute, hsplit, hrpf, hmatch] at hfind
              simp [matchedChain, hsplit, hrpf, hmatch] at hchain
              simp [abandonedNodes, hsplit, hrpf, hmatch] at hclean
              subst hfind
              subst hchain
              cases hv : getVerb (Route.mk rp rm rs g po pu d pa hh) verb with
              | none => simp [hv] at hclean
              | some h => simp [chainPath, Route.Path]
            | cons s2 tl2 =>
              simp [FindRoute, hsplit, hrpf, hmatch] at hfind
              simp [matchedChain, hsplit, hrpf, hmatch] at hchain
              simp [abandonedNodes, hsplit, hrpf, hmatch] at hclean
              cases hin : matchedChainIn (TrimPrefix path ('/' :: split0)) verb rs with
              | error a =>
                rw [hin] at hchain
                cases hchain
              | ok cIn =>
                rw [hin] at hchain
                have ih := findInSubRoutes_pp_clean rs _ verb rp rm mws r cIn hclean hfind hin
                simp only [Except.ok.injEq] at hchain
                subst hchain
                rw [ih]
                cases cIn <;> simp [chainPath_cons, Route.Path]
/-- The same for the loop over the sub-routes, which puts the `Path` of the
node in front. -/
theorem findInSubRoutes_pp_clean : ∀ (subs : List (Route H Mw)) (subpath verb rootPath : GoString)
    (rootMws : List Mw) (mws : List Mw) (r : FindResult H Mw)
    (cIn : Option (List (Route H Mw))),
    abandonedIn subpath verb subs = .ok [] →
    findInSubRoutes subpath verb rootPath rootMws subs (some []) mws = .ok r →
    matchedChainIn subpath verb subs = .ok cIn →
    r.2.2 = some ((cIn.map (fun chain => rootPath ++ chainPath chain)).getD [])
  | [], _, _, _, _, _, r, cIn => by
    intro _ hfind hchain
    simp only [findInSubRoutes, Except.ok.injEq] at hfind
    simp only [matchedChainIn, Except.ok.injEq] at hchain
    subst hfind
    subst hchain
    rfl
  | sub :: rest, subpath, verb, rootPath, rootMws, mws, r, cIn => by
    intro hclean hfind hchain
    cases hcall : FindRoute subpath verb sub (some []) mws with
    | error a =>
      simp [findInSubRoutes, hcall] at hfind
    | ok r1 =>
      cases hch : matchedChain subpath verb sub with
      | error a =>
        simp [matchedChainIn, hch] at hchain
      | ok c1 =>
        cases hab : abandonedNodes subpath verb sub with
        | error a =>
          simp [abandonedIn, hab] at hclean
        | ok left =>
          have hfacts := FindRoute_chain sub subpath verb (some []) mws r1 hcall
          obtain ⟨hd, m, p⟩ := r1
          cases c1 with
          | none =>
            have hhd : hd = none := by
              cases hd with
              | none => rfl
              | some h =>
                obtain ⟨chain, leaf, hsome, _⟩ := hfacts.1 h rfl
                rw [hch] at hsome
                cases hsome
            subst hhd
            simp only [abandonedIn, hab, hch] at hclean
            cases hmore : abandonedIn subpath verb rest with
            | error a =>
              rw [hmore] at hclean
              cases hclean
            | ok more =>
              rw [hmore] at hclean
              simp only [Except.ok.injEq, List.append_eq_nil] at hclean
              obtain ⟨hleft, hmore2⟩ := hclean
              subst hleft
              subst hmore2
              have ihnode := FindRoute_pp_clean sub subpath verb mws _ none hab hcall hch
              simp only [Option.map_none', Option.getD_none] at ihnode
              simp only [findInSubRoutes, hcall] at hfind
              rw [ihnode] at hfind
              simp only [matchedChainIn, hch] at hchain
              exact findInSubRoutes_pp_clean rest subpath verb rootPath rootMws mws r cIn hmore
                hfind hchain
          | some chain =>
            have hhd : ∃ h, hd = some h := by
              cases hd with
              | some h => exact ⟨h, rfl⟩
              | none =>
                have hnone := hfacts.2 rfl
                rw [hch] at hnone
                cases hnone
            obtain ⟨h, hhd⟩ := hhd
            subst hhd
            simp only [abandonedIn, hab, hch, Except.ok.injEq] at hclean
            subst hclean
            have ihnode := FindRoute_pp_clean sub subpath verb mws _ (some chain) hab hcall hch
            simp only [Option.map_some', Option.getD_some] at ihnode
            simp only [findInSubRoutes, hcall, Except.ok.injEq] at hfind
            simp only [matchedChainIn, hch, Except.ok.injEq] at hchain
            subst hfind
            subst hchain
            simp [ihnode]
end

mutual
/-- On a normalised request path, the joined `Path` strings of a matched chain
of nodes with literal paths are the request path. -/
theorem matchedChain_literal_path (verb : GoString) : ∀ (root : Route H Mw)
    (segs : List GoString) (chain : List (Route H Mw)),
    (∀ s ∈ segs, s ≠ [] ∧ ∀ ch ∈ s, ch ≠ '/') →
    matchedChain (requestPath segs) verb root = .ok (some chain) →
    chain.all Route.HasLiteralPath = true →
    chainPath chain = requestPath segs
  | .mk rp rm rs g po pu d pa hh, [], chain => by
    intro _ hchain _
    simp [matchedChain, requestPath, FieldsFunc, fieldsLoop] at hchain
  | .mk rp rm rs g po pu d pa hh, s1 :: rest, chain => by
    intro hsegs hchain hlit
    have hfields := FieldsFunc_requestPath (s1 :: rest) hsegs
    by_cases hrp : rp.isEmpty = true
    · have hrpnil : rp = [] := by simpa using hrp
      subst hrpnil
      simp only [matchedChain, hfields] at hchain
      simp only [List.isEmpty_nil, if_true, Bool.not_true, Bool.false_and, Bool.false_eq_true,
        if_false] at hchain
      cases hin : matchedChainIn (requestPath (s1 :: rest)) verb rs with
      | error a =>
        rw [hin] at hchain
        cases hchain
      | ok cIn =>
        rw [hin] at hchain
        cases cIn with
        | none => simp at hchain
        | some below =>
          simp only [Option.map_some', Except.ok.injEq, Option.some.injEq] at hchain
          subst hchain
          simp only [List.all_cons, Bool.and_eq_true] at hlit
          have ih := matchedChainIn_literal_path verb rs (s1 :: rest) below hsegs hin hlit.2
          simp [chainPath_cons, Route.Path, ih]
    · have hrpf : rp.isEmpty = false := by simpa using hrp
      cases hmatch : matchPathElement rp ('/' :: s1) with
      | error a =>
        simp [matchedChain, hfields, hrpf, hmatch] at hchain
      | ok b =>
        cases b with
        | false =>
          simp [matchedChain, hfields, hrpf, hmatch] at hchain
        | true =>
          have hroot : ∀ below, chain = Route.mk rp rm rs g po pu d pa hh :: below →
              rp = '/' :: s1 := by
            intro below hshape
            subst hshape
            simp only [List.all_cons, Bool.and_eq_true] at hlit
            rcases HasLiteralPath_path _ hlit.1 with hnil | ⟨t, hpath, ht, htl⟩
            · have : rp = [] := hnil
              subst this
              simp at hrpf
            · have hpath2 : rp = '/' :: t := hpath
              subst hpath2
              rw [matchPathElement_literal t s1 ht htl] at hmatch
              have hts : t = s1 := by simpa using hmatch
              rw [hts]
          cases rest with
          | nil =>
            simp [matchedChain, hfields, hrpf, hmatch] at hchain
            obtain ⟨_, hshape⟩ := hchain
            have hrpeq := hroot [] hshape.symm
            subst hshape
            simp [chainPath, Route.Path, hrpeq, requestPath]
          | cons s2 rest2 =>
            have hrest : ∀ s ∈ s2 :: rest2, s ≠ [] ∧ ∀ ch ∈ s, ch ≠ '/' :=
              fun s hs => hsegs s (List.mem_cons_of_mem _ hs)
            have htrim := TrimPrefix_requestPath s1 (s2 :: rest2)
            simp [matchedChain, hfields, hrpf, hmatch, htrim] at hchain
            cases hin : matchedChainIn (requestPath (s2 :: rest2)) verb rs with
            | error a =>
              rw [hin] at hchain
              cases hchain
            | ok cIn =>
              rw [hin] at hchain
              cases cIn with
              | none => simp at hchain
              | some below =>
                simp only [Option.map_some', Except.ok.injEq, Option.some.injEq] at hchain
                have hrpeq := hroot below hchain.symm
                subst hchain
                simp only [List.all_cons, Bool.and_eq_true] at hlit
                have ih := matchedChainIn_literal_path verb rs (s2 :: rest2) below hrest hin
                  hlit.2
                rw [chainPath_cons, ih]
                simp [Route.Path, hrpeq, requestPath]
/-- The same for the chain found by the loop over the sub-routes. -/
theorem matchedChainIn_literal_path (verb : GoString) : ∀ (subs : List (Route H Mw))
    (segs : List GoString) (chain : List (Route H Mw)),
    (∀ s ∈ segs, s ≠ [] ∧ ∀ ch ∈ s, ch ≠ '/') →
    matchedChainIn (requestPath segs) verb subs = .ok (some chain) →
    chain.all Route.HasLiteralPath = true →
    chainPath chain = requestPath segs
  | [], _, _ => by
    intro _ hchain _
    simp [matchedChainIn] at hchain
  | sub :: more, segs, chain => by
    intro hsegs hchain hlit
    simp only [matchedChainIn] at hchain
    cases hch : matchedChain (requestPath segs) verb sub with
    | error a =>
      rw [hch] at hchain
      cases hchain
    | ok c1 =>
      rw [hch] at hchain
      cases c1 with
      | some found =>
        simp only [Except.ok.injEq, Option.some.injEq] at hchain
        subst hchain
        exact matchedChain_literal_path verb sub segs found hsegs hch hlit
      | none =>
        exact matchedChainIn_literal_path verb more segs chain hsegs hchain hlit
end

/-- The joined `Path` strings of nodes with literal paths hold no
regular-expression operator. -/
theorem chainPath_plain : ∀ chain : List (Route H Mw), chain.all Route.HasLiteralPath = true →
    ∀ ch ∈ chainPath chain, isRegexMeta ch = false
  | [], _, ch, hch => by simp [chainPath] at hch
  | node :: chain, hlit, ch, hch => by
    simp only [List.all_cons, Bool.and_eq_true] at hlit
    rw [chainPath_cons, List.mem_append] at hch
    rcases hch with hch | hch
    · rcases HasLiteralPath_path node hlit.1 with hnil | ⟨t, hpath, _, htl⟩
      · rw [hnil] at hch
        simp at hch
      · rw [hpath] at hch
        rcases List.mem_cons.mp hch with rfl | hch
        · decide
        · exact isLiteralChar_not_meta ch (htl ch hch)
    · exact chainPath_plain chain hlit.2 ch hch

/-- C16, as stated, does not hold.  The string written by `FindRoute` is made
of the `Path` strings of the matched nodes, not of the request: the request
"/abc/" resolves through the literal node "/abc" and the string written is
"/abc"; the request "/a" resolves through the literal node "/a/b" and the
string written is "/a/b".  In both cases `ExtractPathParameters` returns the
empty map. -/
theorem C16_parameterised_path_is_made_of_node_paths :
    FindRoute "/abc/".toList verbGET (singleNodeTree "/abc".toList 7 : Route Nat Nat)
        (some []) [] = .ok (some 7, [], some "/abc".toList) ∧
      "/abc".toList ≠ "/abc/".toList ∧
      ExtractPathParameters "/abc/".toList "/abc".toList = .ok (.ok []) ∧
    FindRoute "/a".toList verbGET (singleNodeTree "/a/b".toList 7 : Route Nat Nat)
        (some []) [] = .ok (some 7, [], some "/a/b".toList) ∧
      "/a/b".toList ≠ "/a".toList ∧
      ExtractPathParameters "/a".toList "/a/b".toList = .ok (.ok []) :=
  ⟨rfl, by decide, rfl, rfl, by decide, rfl⟩

/-- The parameterised path goes into the regular expression as it is: the
literal node "/(?P<x>.*?)", requested by its own text, gives the parameterised
path equal to the request and a map that binds `x`. -/
theorem ExtractPathParameters_reads_literal_node_as_expression :
    FindRoute "/(?P<x>.*?)".toList verbGET
        (singleNodeTree "/(?P<x>.*?)".toList 7 : Route Nat Nat) (some []) [] =
      .ok (some 7, [], some "/(?P<x>.*?)".toList) ∧
    ExtractPathParameters "/(?P<x>.*?)".toList "/(?P<x>.*?)".toList =
      .ok (.ok [("x".toList, "(?P<x>.*?)".toList)]) :=
  ⟨rfl, rfl⟩

/-- C16, amended: for every tree, verb and normalised request path
"/s1/.../sk" (every segment non-empty and without slash) on which `FindRoute`,
started with the empty string, returns a handler through a chain of nodes whose
`Path` is empty or one literal segment of characters that stand for themselves,
and on which no node was left behind on an exact match without a handler for
the verb, the parameterised path written equals the request path, and
`ExtractPathParameters` on that pair returns the empty map and no error. -/
theorem C16_literal_chain_round_trip (verb : GoString) (root : Route H Mw)
    (segs : List GoString) (chain : List (Route H Mw)) (mws found : List Mw) (h : H)
    (pp : Option GoString)
    (hsegs : ∀ s ∈ segs, s ≠ [] ∧ ∀ ch ∈ s, ch ≠ '/')
    (hfind : FindRoute (requestPath segs) verb root (some []) mws = .ok (some h, found, pp))
    (hchain : matchedChain (requestPath segs) verb root = .ok (some chain))
    (hlit : chain.all Route.HasLiteralPath = true)
    (hclean : abandonedNodes (requestPath segs) verb root = .ok []) :
    pp = some (requestPath segs) ∧
      ExtractPathParameters (requestPath segs) (requestPath segs) = .ok (.ok []) := by
  have hpp := FindRoute_pp_clean root (requestPath segs) verb mws _ (some chain) hclean hfind
    hchain
  have hpath := matchedChain_literal_path verb root segs chain hsegs hchain hlit
  have hplain := chainPath_plain chain hlit
  rw [hpath] at hplain
  refine ⟨?_, ExtractPathParameters_plain _ _ hplain⟩
  simpa [hpath] using hpp

/-- C16, amended, at the tree "/abc" with the sub-route "/def" holding a GET
handler, for GET "/abc/def": the parameterised path is "/abc/def" and the map
is empty. -/
theorem C16_witness :
    FindRoute "/abc/def".toList verbGET (literalTree 7 : Route Nat Nat) (some []) [] =
      .ok (some 7, [], some "/abc/def".toList) ∧
    (some "/abc/def".toList = some (requestPath ["abc".toList, "def".toList]) ∧
      ExtractPathParameters (requestPath ["abc".toList, "def".toList])
        (requestPath ["abc".toList, "def".toList]) = .ok (.ok [])) :=
  ⟨rfl,
    C16_literal_chain_round_trip verbGET (literalTree 7 : Route Nat Nat)
      ["abc".toList, "def".toList]
      [literalTree 7,
        Route.mk "/abc".toList [] [Route.mk "/def".toList [] [] (some 7) none none none none none]
          none none none none none none,
        Route.mk "/def".toList [] [] (some 7) none none none none none]
      [] [] 7 (some "/abc/def".toList) (by decide) rfl rfl rfl rfl⟩

end
end GenericRouter
